import Mathlib

/-!
# DataONE node registry decoder

A shallow embedding of `src/classes.js`, `src/cn/cnCore.js`, `src/cn/cnUtils.js` and
`src/utils/parseXML.js`: the decoders that turn a `node` element of the node-list
document into a `D1Node`, and the listing operation built on them.

* An element is a tag name, an attribute list and a list of child nodes; a child node is
  an element or character data. Namespaces, comments and processing instructions are not
  modelled.
* A thrown JavaScript error is `Except.error` with the error message.
* A plain object is the list of its own properties in insertion order; `undefined`, `null`,
  booleans, numbers, strings and dates are `JSAtom`.
* Built-ins that live outside the repository (the DOM parser, `fetch`, the table of
  coordinating-node URLs of `constants.js`) are parameters of the functions that use them.
* A `Date` is kept as the string handed to the `Date` constructor, so two dates that are
  equal here are the same instant under every date parser.
* A number is an integer of magnitude at most `2^53`, or `NaN`; what `parseInt` returns
  beyond that range is a rounded double, which is named by its origin and not computed.

The first part of the file holds the definitions, the second the theorems: the decoding
steps, the closed form `fromXML_eq` of `D1Node.fromXML`, and the properties `C1` to `C27`
of the specification.
-/

namespace DataONE

/-! ## DOM -/

mutual
/-- An XML element: tag name, attributes in source order, child nodes in document order. -/
inductive Element where
  | mk (tagName : String) (attributes : List (String × String)) (childNodes : List XNode)
/-- A child node of an element: an element or character data. -/
inductive XNode where
  | element (e : Element)
  | text (data : String)
end

/-- Tag name of an element. -/
def Element.tagName : Element → String
  | .mk t _ _ => t

/-- Attribute list of an element. -/
def Element.attributes : Element → List (String × String)
  | .mk _ a _ => a

/-- Child nodes of an element. -/
def Element.childNodes : Element → List XNode
  | .mk _ _ c => c

/-- The element, if the node is one. -/
def XNode.asElement : XNode → Option Element
  | .element e => some e
  | .text _ => none

/-- Child elements of an element, in document order. -/
def Element.children (e : Element) : List Element :=
  e.childNodes.filterMap XNode.asElement

/-- DOM `getAttribute`: the value of the named attribute, `none` for `null`. -/
def Element.getAttribute (e : Element) (name : String) : Option String :=
  (e.attributes.find? (fun a => a.1 = name)).map (fun a => a.2)

mutual
/-- DOM `textContent` of an element: the character data of all its descendants, concatenated. -/
def Element.textContent : Element → String
  | .mk _ _ cs => textContentList cs
/-- DOM `textContent` of a node. -/
def XNode.textContent : XNode → String
  | .element e => e.textContent
  | .text d => d
/-- Concatenated `textContent` of a list of nodes. -/
def textContentList : List XNode → String
  | [] => ""
  | c :: cs => c.textContent ++ textContentList cs
end

mutual
/-- All descendant elements of an element (itself excluded), in document order. -/
def Element.descendants : Element → List Element
  | .mk _ _ cs => descendantsList cs
/-- The element itself (if the node is one) followed by its descendants. -/
def XNode.subtree : XNode → List Element
  | .element e => e :: e.descendants
  | .text _ => []
/-- Elements of a list of sibling subtrees, in document order. -/
def descendantsList : List XNode → List Element
  | [] => []
  | c :: cs => c.subtree ++ descendantsList cs
end

/-- DOM `querySelectorAll(':scope > name')`: the child elements with that tag, in order. -/
def Element.scopeChildren (e : Element) (name : String) : List Element :=
  e.children.filter (fun c => c.tagName = name)

/-- DOM `querySelector(':scope > name')`: the first child element with that tag. -/
def Element.scopeChild (e : Element) (name : String) : Option Element :=
  (e.scopeChildren name).head?

/-- DOM `querySelectorAll(name)` on an element: the descendants with that tag, in order. -/
def Element.querySelectorAll (e : Element) (name : String) : List Element :=
  e.descendants.filter (fun c => c.tagName = name)

/-- DOM `querySelector(name)` on an element: the first descendant with that tag. -/
def Element.querySelector (e : Element) (name : String) : Option Element :=
  (e.querySelectorAll name).head?

/-- A parsed document, given by its root element. -/
structure Document where
  documentElement : Element

/-- DOM `getElementsByTagName` on a document: every element of the document with that
tag, the root included, in document order. -/
def Document.getElementsByTagName (d : Document) (name : String) : List Element :=
  (d.documentElement :: d.documentElement.descendants).filter (fun c => c.tagName = name)

/-! ## JavaScript values -/

/-- A JavaScript number that `parseInt` can return. Numbers are doubles: every integer
up to `2^53` in magnitude is one, and `int i` stands for it. Beyond that range the model
does not compute the double and keeps its origin instead: `rounded m` is the double nearest
to the integer `m` (an infinity when `m` is out of range), and `reread m` is what `parseInt`
returns for the printed form of that double (the same double, the leading digit of an
exponent form, or `NaN` for an infinity). Two such values can be the same number without
being equal here; `-0` is identified with `0`. -/
inductive JSNum where
  | nan
  | int (i : Int)
  | rounded (m : Int)
  | reread (m : Int)
  deriving DecidableEq

/-- Values without structure: `undefined`, `null`, booleans, numbers, strings, and `Date`
objects (`date s` is `new Date(s)`). -/
inductive JSAtom where
  | undefined
  | null
  | bool (b : Bool)
  | num (n : JSNum)
  | str (s : String)
  | date (s : String)
  deriving DecidableEq

/-- Truthiness of a string: non-empty. -/
def truthyStr (s : String) : Bool := s ≠ ""

/-- Truthiness of an optional string (`none` is `null` or `undefined`). -/
def truthyOpt : Option String → Bool
  | some s => truthyStr s
  | none => false

/-- JavaScript truthiness of an atom. Of the numbers only `0` and `NaN` are falsy: the
double nearest to an integer is `0` for the integer `0` only, and a double read back from
its printed form is `NaN` exactly when it is an infinity, which is the rounding of every
magnitude from `2^1024 - 2^970` on. -/
def JSAtom.truthy : JSAtom → Bool
  | .undefined => false
  | .null => false
  | .bool b => b
  | .num .nan => false
  | .num (.int i) => i ≠ 0
  | .num (.rounded m) => m ≠ 0
  | .num (.reread m) => m ≠ 0 && m.natAbs < 2 ^ 1024 - 2 ^ 970
  | .str s => truthyStr s
  | .date _ => true

/-- A string or `null`, as returned by `getAttribute`. -/
def JSAtom.ofAttr : Option String → JSAtom
  | some s => .str s
  | none => .null

/-! ## Type coercion -/

/-- One match of `/T(\d{2}:\d{2}):(\d{1}\.\d{3}Z)/` at the head of the input: the two
capture groups and the text after the match. -/
def matchSeconds : List Char → Option (List Char × List Char × List Char)
  | 'T' :: h1 :: h2 :: ':' :: m1 :: m2 :: ':' :: s :: '.' :: f1 :: f2 :: f3 :: 'Z' :: rest =>
    if h1.isDigit && h2.isDigit && m1.isDigit && m2.isDigit && s.isDigit
        && f1.isDigit && f2.isDigit && f3.isDigit then
      some ([h1, h2, ':', m1, m2], [s, '.', f1, f2, f3, 'Z'], rest)
    else none
  | _ => none

/-- The call `dateStr.replace(/T(\d{2}:\d{2}):(\d{1}\.\d{3}Z)/, 'T$1:0$2')`: the leftmost
match is replaced by `T`, group 1, `:0`, group 2; without a match the text is unchanged. -/
def replaceSeconds : List Char → List Char
  | [] => []
  | c :: cs =>
    match matchSeconds (c :: cs) with
    | some (g1, g2, rest) => 'T' :: g1 ++ ':' :: '0' :: g2 ++ rest
    | none => c :: replaceSeconds cs

/-- Source `parseDate`: `null` for the empty string, else a `Date` built from the string
with the seconds field fixed. -/
def parseDate (dateStr : String) : JSAtom :=
  if !truthyStr dateStr then .null
  else
    let fixedDateStr := String.mk (replaceSeconds dateStr.data)
    .date fixedDateStr

/-- White space skipped by `parseInt` (ECMAScript `StrWhiteSpaceChar`). -/
def isStrWhiteSpace (c : Char) : Bool :=
  c.val ∈ [0x9, 0xA, 0xB, 0xC, 0xD, 0x20, 0xA0, 0x1680, 0x2028, 0x2029, 0x202F, 0x205F,
    0x3000, 0xFEFF] || (0x2000 ≤ c.val && c.val ≤ 0x200A)

/-- Value of a digit in the given radix (10 or 16), if it is one. -/
def digitValue (radix : Nat) (c : Char) : Option Nat :=
  if c.isDigit then some (c.toNat - '0'.toNat)
  else if radix = 16 && 'a'.toNat ≤ c.toNat && c.toNat ≤ 'f'.toNat then
    some (c.toNat - 'a'.toNat + 10)
  else if radix = 16 && 'A'.toNat ≤ c.toNat && c.toNat ≤ 'F'.toNat then
    some (c.toNat - 'A'.toNat + 10)
  else none

/-- The longest prefix of digits, read in the given radix; `none` when it is empty. -/
def readDigits (radix : Nat) : List Char → Option Nat → Option Nat
  | [], acc => acc
  | c :: cs, acc =>
    match digitValue radix c with
    | some d => readDigits radix cs (some (acc.getD 0 * radix + d))
    | none => acc

/-- The number for the mathematical integer `m`: `m` itself up to `2^53` in magnitude, the
nearest double beyond. -/
def JSNum.ofInt (m : Int) : JSNum :=
  if m.natAbs ≤ 2 ^ 53 then .int m else .rounded m

/-- ECMAScript `parseInt(string)` without a radix argument: leading white space is
skipped, a sign is read, a `0x`/`0X` prefix selects radix 16, and the longest run of digits
is the value, as a number; `NaN` when there is no digit. -/
def parseIntStr (s : String) : JSNum :=
  let t := s.data.dropWhile isStrWhiteSpace
  let (neg, t) :=
    match t with
    | '-' :: r => (true, r)
    | '+' :: r => (false, r)
    | r => (false, r)
  let (radix, t) :=
    match t with
    | '0' :: 'x' :: r => (16, r)
    | '0' :: 'X' :: r => (16, r)
    | r => (10, r)
  match readDigits radix t none with
  | none => .nan
  | some n => JSNum.ofInt (if neg then - (n : Int) else n)

/-- ECMAScript `parseInt` of a number, which is first printed: `NaN` stays `NaN`, an integer
up to `2^53` in magnitude prints as its decimal digits and is read back, and for a double
beyond that range the result is kept as `reread`. -/
def parseIntNum : JSNum → JSNum
  | .nan => .nan
  | .int i => if i.natAbs ≤ 2 ^ 53 then .int i else .reread i
  | .rounded m => .reread m
  | .reread m => .reread m

/-- ECMAScript `parseInt` of an atom: `undefined`, `null`, booleans and dates print as
text that starts with a letter, which gives `NaN`. -/
def parseInt : JSAtom → JSNum
  | .str s => parseIntStr s
  | .num n => parseIntNum n
  | _ => .nan

/-! ## Nested entities -/

/-- Entity `ServiceMethodRestriction`; `none` for `subjects` is `undefined`. -/
structure ServiceMethodRestriction where
  methodName : JSAtom
  subjects : Option (List String)
  deriving DecidableEq

/-- Entity `Service`; `none` for `restrictions` is `undefined`. -/
structure Service where
  restrictions : Option (List ServiceMethodRestriction)
  name : JSAtom
  version : JSAtom
  available : JSAtom
  deriving DecidableEq

/-- Entity `Synchronization`. -/
structure Synchronization where
  schedule : JSAtom
  lastHarvested : JSAtom
  lastCompleteHarvest : JSAtom
  deriving DecidableEq

/-- Entity `NodeReplicationPolicy`. -/
structure NodeReplicationPolicy where
  maxObjectSize : JSAtom
  spaceAllocated : JSAtom
  deriving DecidableEq

/-- Constructor of `ServiceMethodRestriction`: copies both properties, which are
`undefined` when no properties object is given. -/
def ServiceMethodRestriction.constructor (properties : Option ServiceMethodRestriction) :
    ServiceMethodRestriction :=
  let properties := properties.getD { methodName := .undefined, subjects := none }
  { methodName := properties.methodName, subjects := properties.subjects }

/-- Source `ServiceMethodRestriction.fromXML`. -/
def ServiceMethodRestriction.fromXML (node : Option Element) : ServiceMethodRestriction :=
  match node with
  | none => ServiceMethodRestriction.constructor none
  | some node =>
    ServiceMethodRestriction.constructor (some {
      methodName := JSAtom.ofAttr (node.getAttribute "methodName")
      subjects := some ((node.querySelectorAll "subject").map Element.textContent) })

/-- Constructor of `Service`: copies the four properties. -/
def Service.constructor (properties : Option Service) : Service :=
  let properties := properties.getD
    { restrictions := none, name := .undefined, version := .undefined, available := .undefined }
  { restrictions := properties.restrictions, name := properties.name,
    version := properties.version, available := properties.available }

/-- Source `Service.fromXML`. -/
def Service.fromXML (node : Option Element) : Service :=
  match node with
  | none => Service.constructor none
  | some node =>
    Service.constructor (some {
      restrictions := some ((node.querySelectorAll "restriction").map
        (fun restrictionNode => ServiceMethodRestriction.fromXML (some restrictionNode)))
      name := JSAtom.ofAttr (node.getAttribute "name")
      version := JSAtom.ofAttr (node.getAttribute "version")
      available := .bool (node.getAttribute "available" = some "true") })

/-- Constructor of `Synchronization`: copies the three properties. -/
def Synchronization.constructor (properties : Option Synchronization) : Synchronization :=
  let properties := properties.getD
    { schedule := .undefined, lastHarvested := .undefined, lastCompleteHarvest := .undefined }
  { schedule := properties.schedule, lastHarvested := properties.lastHarvested,
    lastCompleteHarvest := properties.lastCompleteHarvest }

/-- Source `Synchronization.parseXMLSchedule`. -/
def Synchronization.parseXMLSchedule (node : Option Element) : String :=
  match node with
  | none => ""
  | some node =>
    let attributes := ["sec", "min", "hour", "mday", "mon", "wday", "year"]
    let parts := attributes.foldl (fun (parts : List String) attr =>
      let value := node.getAttribute attr
      if truthyOpt value then parts ++ [value.getD ""] else parts ++ ["*"]) []
    String.intercalate " " parts

/-- Source `Synchronization.fromXML`. -/
def Synchronization.fromXML (node : Option Element) : Synchronization :=
  match node with
  | none => Synchronization.constructor none
  | some node =>
    let scheduleNode := node.querySelector "schedule"
    let schedule := Synchronization.parseXMLSchedule scheduleNode
    let strLH := (node.querySelector "lastHarvested").map Element.textContent
    let stLCH := (node.querySelector "lastCompleteHarvest").map Element.textContent
    let lastHarvested := if truthyOpt strLH then parseDate (strLH.getD "") else .undefined
    let lastCompleteHarvest := if truthyOpt stLCH then parseDate (stLCH.getD "") else .undefined
    Synchronization.constructor (some {
      schedule := .str schedule, lastHarvested := lastHarvested,
      lastCompleteHarvest := lastCompleteHarvest })

/-- Constructor of `NodeReplicationPolicy`: `parseInt` of both properties. -/
def NodeReplicationPolicy.constructor (properties : Option NodeReplicationPolicy) :
    NodeReplicationPolicy :=
  let properties := properties.getD { maxObjectSize := .undefined, spaceAllocated := .undefined }
  { maxObjectSize := .num (parseInt properties.maxObjectSize),
    spaceAllocated := .num (parseInt properties.spaceAllocated) }

/-- Source `NodeReplicationPolicy.fromXML`. -/
def NodeReplicationPolicy.fromXML (node : Option Element) : NodeReplicationPolicy :=
  match node with
  | none => NodeReplicationPolicy.constructor none
  | some node =>
    let maxOS := (node.querySelector "maxObjectSize").map Element.textContent
    let spaceA := (node.querySelector "spaceAllocated").map Element.textContent
    let props : NodeReplicationPolicy :=
      { maxObjectSize := .undefined, spaceAllocated := .undefined }
    let props := if truthyOpt maxOS then
      { props with maxObjectSize := .num (parseInt (.str (maxOS.getD ""))) } else props
    let props := if truthyOpt spaceA then
      { props with spaceAllocated := .num (parseInt (.str (spaceA.getD ""))) } else props
    NodeReplicationPolicy.constructor (some props)

/-! ## Node entity -/

/-- A value that a property of a node can hold. -/
inductive JSVal where
  | atom (a : JSAtom)
  | strings (xs : List String)
  | services (xs : List Service)
  | policy (p : NodeReplicationPolicy)
  | sync (s : Synchronization)
  deriving DecidableEq

/-- JavaScript truthiness: arrays and objects are always truthy. -/
def JSVal.truthy : JSVal → Bool
  | .atom a => a.truthy
  | _ => true

/-- The test `v != null`: false for `null` and `undefined` only. -/
def JSVal.notNullish : JSVal → Bool
  | .atom .undefined => false
  | .atom .null => false
  | _ => true

/-- Own properties of a plain object, in insertion order. -/
abbrev Props := List (String × JSVal)

/-- The own property `k`, if the object has one. -/
def Props.get (p : Props) (k : String) : Option JSVal :=
  (p.find? (fun e => e.1 = k)).map (fun e => e.2)

/-- The read `p[k]`: `undefined` when the property is missing. The names the code reads
this way are never members of `Object.prototype`, so own properties decide the result. -/
def Props.read (p : Props) (k : String) : JSVal :=
  (p.get k).getD (.atom .undefined)

/-- The assignment `p[k] = v`: overwrites in place, or appends a new property. -/
def Props.set : Props → String → JSVal → Props
  | [], k, v => [(k, v)]
  | (k', v') :: rest, k, v =>
    if k' = k then (k, v) :: rest else (k', v') :: Props.set rest k v

/-- Entity `D1Node`: its own properties. -/
structure D1Node where
  props : Props
  deriving DecidableEq

/-- The property `k` of a node, `none` when it is not set. -/
def D1Node.get (d : D1Node) (k : String) : Option JSVal := d.props.get k

/-- Source `simpleNodes`. -/
def simpleNodes : List String := ["identifier", "name", "description", "baseURL"]

/-- Source `repeatedSimpleNodes`: class property, then tag name. -/
def repeatedSimpleNodes : List (String × String) :=
  [("subjects", "subject"), ("contactSubjects", "contactSubject")]

/-- Own entries of the source object `nodePropKeyToClassProp`. -/
def nodePropKeyTable : List (String × String) :=
  [("metacat_version", "metacatVersion"),
   ("upgrade_status", "upgradeStatus"),
   ("CN_info_url", "infoURL"),
   ("CN_date_deprecated", "dateDeprecated"),
   ("CN_date_upcoming", "dateUpcoming"),
   ("read_only_mode", "readOnlyMode"),
   ("CN_logo_url", "logoURL"),
   ("CN_operational_status", "operationalStatus"),
   ("CN_date_operational", "dateOperational"),
   ("CN_location_lonlat", "location")]

/-- Members that every plain object inherits from `Object.prototype`, each with the text
it has when used as a property name. All of them are truthy. -/
def objectPrototypeTable : List (String × String) :=
  [("constructor", "function Object() \x7b [native code] \x7d"),
   ("__defineGetter__", "function __defineGetter__() \x7b [native code] \x7d"),
   ("__defineSetter__", "function __defineSetter__() \x7b [native code] \x7d"),
   ("hasOwnProperty", "function hasOwnProperty() \x7b [native code] \x7d"),
   ("__lookupGetter__", "function __lookupGetter__() \x7b [native code] \x7d"),
   ("__lookupSetter__", "function __lookupSetter__() \x7b [native code] \x7d"),
   ("isPrototypeOf", "function isPrototypeOf() \x7b [native code] \x7d"),
   ("propertyIsEnumerable", "function propertyIsEnumerable() \x7b [native code] \x7d"),
   ("toString", "function toString() \x7b [native code] \x7d"),
   ("valueOf", "function valueOf() \x7b [native code] \x7d"),
   ("__proto__", "[object Object]"),
   ("toLocaleString", "function toLocaleString() \x7b [native code] \x7d")]

/-- The lookup `nodePropKeyToClassProp[key]`, as the property name under which the value
is then stored: an own entry of the table, else an inherited member, else `none` for
`undefined`. -/
def nodePropKeyToClassProp (key : String) : Option String :=
  match (nodePropKeyTable.find? (fun e => e.1 = key)).map (fun e => e.2) with
  | some classProp => some classProp
  | none => (objectPrototypeTable.find? (fun e => e.1 = key)).map (fun e => e.2)

/-- Source `nodeAttributes`. -/
def nodeAttributes : List String := ["replicate", "synchronize", "type", "state"]

/-- Source `booleanProps`. -/
def booleanProps : List String := ["replicate", "synchronize", "readOnlyMode"]

/-- Source `dateProps`. -/
def dateProps : List String :=
  ["lastHarvested", "lastCompleteHarvest", "dateDeprecated", "dateUpcoming", "dateOperational"]

/-- Source `restrictedStringProps`. -/
def restrictedStringProps : List (String × List String) :=
  [("type", ["cn", "mn"]), ("state", ["up", "down", "unknown"])]

/-- Source `requiredProps`. -/
def requiredProps : List String :=
  ["identifier", "name", "description", "baseURL", "subjects", "contactSubjects",
   "replicate", "synchronize", "type", "state"]

/-- Source `optionalProps`. -/
def optionalProps : List String :=
  ["services", "synchronization", "nodeReplicationPolicy", "metacatVersion", "upgradeStatus",
   "infoURL", "dateDeprecated", "dateUpcoming", "readOnlyMode", "logoURL",
   "operationalStatus", "dateOperational", "location"]

/-- Source `allProps`. -/
def allProps : List String := requiredProps ++ optionalProps

/-- Constructor of `D1Node`: for each allowed name in turn, copies the property when the
object has it and its value is neither `null` nor `undefined`. The test
`properties.hasOwnProperty(propName)` is a method call on the object itself, evaluated only
when the value is neither `null` nor `undefined`: an own property named `hasOwnProperty`
shadows the inherited method, and as no value of `JSVal` is callable the call then throws
a `TypeError`. -/
def D1Node.constructor (properties : Option Props) : Except String D1Node := do
  let properties := properties.getD []
  let this ← allProps.foldlM (fun (this : Props) propName =>
      if (properties.read propName).notNullish then
        if (properties.get "hasOwnProperty").isSome then
          throw "properties.hasOwnProperty is not a function"
        else if (properties.get propName).isSome then
          pure (this.set propName (properties.read propName))
        else pure this
      else pure this) []
  pure { props := this }

/-- Body of the loop over `simpleNodes`. -/
def stepSimple (node : Element) (params : Props) (nodeName : String) : Props :=
  let nodeValue := (node.scopeChild nodeName).map Element.textContent
  if truthyOpt nodeValue then params.set nodeName (.atom (.str (nodeValue.getD ""))) else params

/-- Body of the loop over `repeatedSimpleNodes`. -/
def stepRepeated (node : Element) (params : Props) (entry : String × String) : Props :=
  let propName := entry.1
  let nodeName := entry.2
  let nodeValues : List String := []
  let nodeValue := (node.scopeChild nodeName).map Element.textContent
  let nodeValues := if truthyOpt nodeValue then nodeValues ++ [nodeValue.getD ""] else nodeValues
  if nodeValues.length ≠ 0 then params.set propName (.strings nodeValues) else params

/-- Body of the loop over the `property` children. -/
def stepProperty (params : Props) (propertyNode : Element) : Props :=
  let key := propertyNode.getAttribute "key"
  let value := propertyNode.textContent
  if truthyOpt key && truthyStr value then
    match nodePropKeyToClassProp (key.getD "") with
    | some classProp => params.set classProp (.atom (.str value))
    | none => params
  else params

/-- Body of the loop over `nodeAttributes`. -/
def stepAttribute (node : Element) (params : Props) (attrName : String) : Props :=
  let attrValue := node.getAttribute attrName
  if truthyOpt attrValue then params.set attrName (.atom (.str (attrValue.getD ""))) else params

/-- Body of the loop over `booleanProps`. -/
def stepBoolean (params : Props) (propName : String) : Props :=
  if (params.read propName).truthy then
    params.set propName (.atom (.bool (params.read propName = .atom (.str "true"))))
  else params

/-- Body of the loop over `dateProps`. A truthy value that is not a string has no
`replace` method, so the call inside `parseDate` throws a `TypeError`. -/
def stepDate (params : Props) (propName : String) : Except String Props :=
  if (params.read propName).truthy then
    match params.read propName with
    | .atom (.str s) => pure (params.set propName (.atom (parseDate s)))
    | _ => throw "dateStr.replace is not a function"
  else pure params

/-- The test `allowedValues.includes(v)` on a list of strings. -/
def includes (allowedValues : List String) (v : JSVal) : Bool :=
  match v with
  | .atom (.str s) => allowedValues.contains s
  | _ => false

/-- Body of the loop over `restrictedStringProps`. -/
def stepRestricted (params : Props) (entry : String × List String) : Except String Unit :=
  let propName := entry.1
  if (params.read propName).truthy then
    let allowedValues := entry.2
    if !includes allowedValues (params.read propName) then
      throw ("The value of " ++ propName ++ " must be one of " ++
        String.intercalate ", " allowedValues)
    else pure ()
  else pure ()

/-- The extraction steps of `D1Node.fromXML`: simple children, repeated children,
`property` children, attributes. -/
def extractParams (node : Element) : Props :=
  let params : Props := []
  let params := simpleNodes.foldl (stepSimple node) params
  let params := repeatedSimpleNodes.foldl (stepRepeated node) params
  let propertyNodes := node.scopeChildren "property"
  let params := propertyNodes.foldl stepProperty params
  nodeAttributes.foldl (stepAttribute node) params

/-- The nested-element steps of `D1Node.fromXML`: `service`, `nodeReplicationPolicy`,
`synchronization`. -/
def nestedParams (node : Element) (params : Props) : Props :=
  let serviceNodes := node.scopeChildren "service"
  let params := if serviceNodes.length > 0 then
      params.set "services" (.services (serviceNodes.map
        (fun serviceNode => Service.fromXML (some serviceNode))))
    else params
  let nodeReplicationPolicyNode := node.scopeChild "nodeReplicationPolicy"
  let params := if nodeReplicationPolicyNode.isSome then
      params.set "nodeReplicationPolicy"
        (.policy (NodeReplicationPolicy.fromXML nodeReplicationPolicyNode))
    else params
  let synchronizationNode := node.scopeChild "synchronization"
  if synchronizationNode.isSome then
    params.set "synchronization" (.sync (Synchronization.fromXML synchronizationNode))
  else params

/-- Source `D1Node.fromXML`. -/
def D1Node.fromXML (node : Option Element) : Except String D1Node :=
  match node with
  | none => D1Node.constructor none
  | some node => do
    let params := extractParams node
    let params := booleanProps.foldl stepBoolean params
    let params ← dateProps.foldlM stepDate params
    restrictedStringProps.forM (stepRestricted params)
    let params := nestedParams node params
    D1Node.constructor (some params)

/-! ## Listing -/

/-- The read `CNs[cn]` on the table of coordinating-node URLs of `constants.js`, an
ordinary object of which `CNs` lists the own entries: the own entry when there is one,
else the member inherited from `Object.prototype`, as a template literal prints it; `none`
for `undefined`. -/
def readCN (CNs : List (String × String)) (cn : String) : Option String :=
  match (CNs.find? (fun e => e.1 = cn)).map (fun e => e.2) with
  | some cnURL => some cnURL
  | none => (objectPrototypeTable.find? (fun e => e.1 = cn)).map (fun e => e.2)

/-- Source `getBaseURL`. An inherited member is a function or an object, which is truthy,
as is its printed form. -/
def getBaseURL (CNs : List (String × String)) (cn : String) (version : Nat) :
    Except String String :=
  let cnURL := readCN CNs cn
  if truthyOpt cnURL then pure (cnURL.getD "" ++ "/v" ++ toString version)
  else throw ("Unrecognized CN environment: " ++ cn)

/-- Source `parseXML`; `parseFromString` is `DOMParser.parseFromString(_, "text/xml")`,
which reports malformed text through a `parsererror` element. -/
def parseXML (parseFromString : String → Document) (xmlString : String) :
    Except String Document :=
  let xmlDoc := parseFromString xmlString
  let parseError := xmlDoc.getElementsByTagName "parsererror"
  if parseError.length ≠ 0 then throw "Error parsing XML" else pure xmlDoc

/-- The exports of `utils/parseXML.js` by name: the function `parseXML` is its default
export (`export default parseXML`) and the module exports nothing else. -/
def parseXMLExports (parseFromString : String → Document) (name : String) :
    Option (String → Except String Document) :=
  if name = "default" then some (parseXML parseFromString) else none

/-- Source `listNodes`; `fetchText url method headers` is the body text of the response
to the request. The module imports `parseXML` by name, a name that
`utils/parseXML.js` does not export. The function is modelled as it runs in the
CommonJS build that the repository bundles and tests, where the missing binding is
`undefined` and its call throws a `TypeError`, whose message, worded differently from one
build to another, is written `parseXML is not a function` here; with native modules
linking fails on this name and `listNodes` cannot be called at all. -/
def listNodes (CNs : List (String × String))
    (fetchText : String → String → List (String × String) → String)
    (parseFromString : String → Document) (cn : String) : Except String (List D1Node) := do
  let baseUrl ← getBaseURL CNs cn 2
  let restUrl := baseUrl ++ "/node"
  let method := "GET"
  let headers := [("Accept", "application/xml")]
  let xmlString := fetchText restUrl method headers
  let xmlDoc ←
    match parseXMLExports parseFromString "parseXML" with
    | some parseXML => parseXML xmlString
    | none => throw "parseXML is not a function"
  let nodeElements := xmlDoc.getElementsByTagName "node"
  nodeElements.mapM (fun nodeElement => D1Node.fromXML (some nodeElement))

/-! ## The decoded node, read off the element

The definitions of this section describe the result of `D1Node.fromXML` directly in terms
of the element; `fromXML_eq` below proves that the code computes exactly this. -/

/-- Equality of results is decidable. -/
instance instDecidableEqExcept {ε α : Type} [DecidableEq ε] [DecidableEq α] :
    DecidableEq (Except ε α)
  | .ok a, .ok b =>
    if h : a = b then isTrue (by rw [h]) else isFalse (by intro h2; cases h2; exact h rfl)
  | .error a, .error b =>
    if h : a = b then isTrue (by rw [h]) else isFalse (by intro h2; cases h2; exact h rfl)
  | .ok _, .error _ => isFalse (by intro h; cases h)
  | .error _, .ok _ => isFalse (by intro h; cases h)

/-- A string kept as it is. -/
def strVal (s : String) : JSVal := .atom (.str s)

/-- Boolean coercion of a string: `true` exactly for the text `true`. -/
def boolVal (s : String) : JSVal := .atom (.bool (s = "true"))

/-- Date coercion of a non-empty string: the `Date` of the text with the seconds fixed. -/
def dateVal (s : String) : JSVal := .atom (.date (String.mk (replaceSeconds s.data)))

/-- Text of the first child element with the given tag, when that text is not empty. -/
def simpleText (node : Element) (name : String) : Option String :=
  match node.scopeChild name with
  | some c => if c.textContent = "" then none else some c.textContent
  | none => none

/-- Value of the named attribute, when the attribute exists and its value is not empty. -/
def attrValue (node : Element) (name : String) : Option String :=
  match node.getAttribute name with
  | some v => if v = "" then none else some v
  | none => none

/-- The element has the given `key` attribute and a non-empty text. -/
def isPropertyFor (key : String) (e : Element) : Bool :=
  e.getAttribute "key" = some key && e.textContent ≠ ""

/-- Text of the last element of the list that has the given key and a non-empty text. -/
def propertyTextIn (l : List Element) (key : String) : Option String :=
  ((l.filter (isPropertyFor key)).getLast?).map Element.textContent

/-- Text of the last `property` child that has the given key and a non-empty text. -/
def propertyText (node : Element) (key : String) : Option String :=
  propertyTextIn (node.scopeChildren "property") key

/-- The assignment that one `property` child performs, if any: property name and text. -/
def propertyWrite (e : Element) : Option (String × String) :=
  if truthyOpt (e.getAttribute "key") && truthyStr e.textContent then
    (nodePropKeyToClassProp ((e.getAttribute "key").getD "")).map (fun c => (c, e.textContent))
  else none

/-- The text last assigned to property `k` by the `property` children in the list. -/
def lastPropertyWrite (l : List Element) (k : String) : Option String :=
  (((l.filterMap propertyWrite).filter (fun w => w.1 = k)).getLast?).map (fun w => w.2)

/-- The date step on a property that holds a string or is missing. -/
def setDate (p : Props) (n : String) : Props :=
  match p.get n with
  | some (.atom (.str s)) => if s = "" then p else p.set n (dateVal s)
  | _ => p

/-- The parameters after the boolean and date conversions. -/
def convertedParams (node : Element) : Props :=
  dateProps.foldl setDate (booleanProps.foldl stepBoolean (extractParams node))

/-- Effect of the simple-text step on its own property. -/
def ownSimple (node : Element) (n : String) (o : Option JSVal) : Option JSVal :=
  ((simpleText node n).map strVal).or o

/-- Effect of the attribute step on its own property. -/
def ownAttribute (node : Element) (n : String) (o : Option JSVal) : Option JSVal :=
  ((attrValue node n).map strVal).or o

/-- Effect of the boolean step on its own property. -/
def ownBoolean (_n : String) (o : Option JSVal) : Option JSVal :=
  if (o.getD (.atom .undefined)).truthy then
    some (.atom (.bool (o.getD (.atom .undefined) = .atom (.str "true"))))
  else o

/-- Effect of the date step on its own property. -/
def ownDate (_n : String) (o : Option JSVal) : Option JSVal :=
  match o with
  | some (.atom (.str s)) => if s = "" then some (strVal s) else some (dateVal s)
  | o => o

/-- The attribute exists with a non-empty value that is not among the allowed ones. -/
def attrInvalid (node : Element) (name : String) (allowed : List String) : Bool :=
  match attrValue node name with
  | some v => !allowed.contains v
  | none => false

/-- The value of each property of the decoded node, `none` when the property is not set. -/
def decodedField (node : Element) (k : String) : Option JSVal :=
  match k with
  | "identifier" => (simpleText node "identifier").map strVal
  | "name" => (simpleText node "name").map strVal
  | "description" => (simpleText node "description").map strVal
  | "baseURL" => (simpleText node "baseURL").map strVal
  | "subjects" => (simpleText node "subject").map (fun s => JSVal.strings [s])
  | "contactSubjects" => (simpleText node "contactSubject").map (fun s => JSVal.strings [s])
  | "replicate" => (attrValue node "replicate").map boolVal
  | "synchronize" => (attrValue node "synchronize").map boolVal
  | "type" => (attrValue node "type").map strVal
  | "state" => (attrValue node "state").map strVal
  | "services" =>
    if (node.scopeChildren "service").length > 0 then
      some (.services ((node.scopeChildren "service").map (fun e => Service.fromXML (some e))))
    else none
  | "synchronization" =>
    (node.scopeChild "synchronization").map (fun e => .sync (Synchronization.fromXML (some e)))
  | "nodeReplicationPolicy" =>
    (node.scopeChild "nodeReplicationPolicy").map
      (fun e => .policy (NodeReplicationPolicy.fromXML (some e)))
  | "metacatVersion" => (propertyText node "metacat_version").map strVal
  | "upgradeStatus" => (propertyText node "upgrade_status").map strVal
  | "infoURL" => (propertyText node "CN_info_url").map strVal
  | "dateDeprecated" => (propertyText node "CN_date_deprecated").map dateVal
  | "dateUpcoming" => (propertyText node "CN_date_upcoming").map dateVal
  | "readOnlyMode" => (propertyText node "read_only_mode").map boolVal
  | "logoURL" => (propertyText node "CN_logo_url").map strVal
  | "operationalStatus" => (propertyText node "CN_operational_status").map strVal
  | "dateOperational" => (propertyText node "CN_date_operational").map dateVal
  | "location" => (propertyText node "CN_location_lonlat").map strVal
  | _ => none

/-- The decoded node as read off the element: the validation outcome, then the fields in
the order of `allProps`. -/
def decodeSpec (node : Element) : Except String D1Node :=
  if attrInvalid node "type" ["cn", "mn"] then
    .error "The value of type must be one of cn, mn"
  else if attrInvalid node "state" ["up", "down", "unknown"] then
    .error "The value of state must be one of up, down, unknown"
  else
    .ok { props := allProps.filterMap (fun k => (decodedField node k).map (fun v => (k, v))) }

/-! ## Notions used in the statements -/

/-- The condition as the specification words it: the attribute is present with a value
outside the allowed set. -/
def attrPresentOutside (node : Element) (name : String) (allowed : List String) : Bool :=
  match node.getAttribute name with
  | some v => !allowed.contains v
  | none => false

/-- One field of the cron expression as the specification words it: the attribute value,
or an asterisk when the attribute is missing. -/
def scheduleFieldAsStated (node : Element) (attr : String) : String :=
  (node.getAttribute attr).getD "*"

/-- One field of the cron expression: the attribute value when the attribute is present and
not empty, else an asterisk. -/
def scheduleField (node : Element) (attr : String) : String :=
  match node.getAttribute attr with
  | some v => if v = "" then "*" else v
  | none => "*"

/-- The field is observed in the source with a value: the first direct child of that name
has non-empty text (for subjects and contactSubjects: some direct `subject` or
`contactSubject` child has non-empty text), the attribute is not empty, a direct `property`
child with the mapped key has non-empty text, or a nested `service`,
`nodeReplicationPolicy` or `synchronization` child exists. -/
def observed (node : Element) (k : String) : Bool :=
  if k ∈ simpleNodes then (simpleText node k).isSome
  else if k = "subjects" then
    (node.scopeChildren "subject").any (fun c => c.textContent ≠ "")
  else if k = "contactSubjects" then
    (node.scopeChildren "contactSubject").any (fun c => c.textContent ≠ "")
  else if k ∈ nodeAttributes then (attrValue node k).isSome
  else if k = "services" then (node.scopeChildren "service").length > 0
  else if k = "nodeReplicationPolicy" then (node.scopeChild "nodeReplicationPolicy").isSome
  else if k = "synchronization" then (node.scopeChild "synchronization").isSome
  else
    match nodePropKeyTable.find? (fun e => e.2 = k) with
    | some e => (propertyText node e.1).isSome
    | none => false

/-- The coercion applied to the text stored under a field: boolean for the names in
`booleanProps`, date for those in `dateProps`, none for the others. -/
def coerceField (f : String) (s : String) : JSVal :=
  if f ∈ booleanProps then boolVal s
  else if f ∈ dateProps then dateVal s
  else strVal s

/-- JavaScript `trim`: white space removed at both ends of the text. -/
def trimText (s : String) : String :=
  String.mk (((s.data.dropWhile isStrWhiteSpace).reverse.dropWhile isStrWhiteSpace).reverse)

/-- Each field that is read from child elements, with the tag of the direct children it
is read from. -/
def fieldTags : List (String × String) :=
  [("identifier", "identifier"), ("name", "name"), ("description", "description"),
   ("baseURL", "baseURL"), ("subjects", "subject"), ("contactSubjects", "contactSubject"),
   ("services", "service"), ("synchronization", "synchronization"),
   ("nodeReplicationPolicy", "nodeReplicationPolicy"),
   ("metacatVersion", "property"), ("upgradeStatus", "property"), ("infoURL", "property"),
   ("dateDeprecated", "property"), ("dateUpcoming", "property"),
   ("readOnlyMode", "property"), ("logoURL", "property"),
   ("operationalStatus", "property"), ("dateOperational", "property"),
   ("location", "property")]

/-- The tags that `D1Node.fromXML` looks up among the children of the node element. -/
def lookupTags : List String :=
  ["identifier", "name", "description", "baseURL", "subject", "contactSubject", "property",
   "service", "nodeReplicationPolicy", "synchronization"]

/-- Source `listNodes` with the network made explicit: the requests issued, in order, each
as URL, method and headers, together with the result. -/
def listNodesTraced (CNs : List (String × String))
    (fetchText : String → String → List (String × String) → String)
    (parseFromString : String → Document) (cn : String) :
    List (String × String × List (String × String)) × Except String (List D1Node) :=
  match getBaseURL CNs cn 2 with
  | .error err => ([], .error err)
  | .ok baseUrl =>
    let restUrl := baseUrl ++ "/node"
    let method := "GET"
    let headers := [("Accept", "application/xml")]
    let xmlString := fetchText restUrl method headers
    ([(restUrl, method, headers)],
      match parseXMLExports parseFromString "parseXML" with
      | none => .error "parseXML is not a function"
      | some parseXML =>
        match parseXML xmlString with
        | .error err => .error err
        | .ok xmlDoc =>
          (xmlDoc.getElementsByTagName "node").mapM
            (fun nodeElement => D1Node.fromXML (some nodeElement)))

/-- The text begins with the pattern of a one-digit seconds field: the letter T, two
digits, a colon, two digits, a colon, one digit, a dot, three digits and the letter Z. -/
def BeginsWithShortSeconds (l : List Char) : Prop :=
  ∃ (h1 h2 m1 m2 s f1 f2 f3 : Char) (rest : List Char),
    h1.isDigit = true ∧ h2.isDigit = true ∧ m1.isDigit = true ∧ m2.isDigit = true ∧
    s.isDigit = true ∧ f1.isDigit = true ∧ f2.isDigit = true ∧ f3.isDigit = true ∧
    l = 'T' :: h1 :: h2 :: ':' :: m1 :: m2 :: ':' :: s :: '.' :: f1 :: f2 :: f3 :: 'Z' :: rest

/-- The ten decimal digits. -/
def decimalDigits : List Char := ['0', '1', '2', '3', '4', '5', '6', '7', '8', '9']

/-- The base-ten value of a text of decimal digits. -/
def decimalValue (cs : List Char) : Nat :=
  cs.foldl (fun acc c => acc * 10 + (c.toNat - '0'.toNat)) 0

/-- What the lenient integer reading says of the value `v` decoded from the text `t`:
when `t` is a run of decimal digits worth at most `2^53`, alone or followed by a character
that is not a digit (nor, after a single zero, the letter x), `v` is that integer; when
`t` is empty or begins with a visible ASCII character that is neither a sign nor a digit,
`v` is `NaN`. -/
def LenientInteger (t : String) (v : JSAtom) : Prop :=
  (∀ (cs tail : List Char), t = String.mk (cs ++ tail) → cs ≠ [] →
    (∀ c ∈ cs, c ∈ decimalDigits) →
    (tail = [] ∨ ∃ c r, tail = c :: r ∧ c.isDigit = false ∧
      (cs = ['0'] → c ≠ 'x' ∧ c ≠ 'X')) →
    decimalValue cs ≤ 2 ^ 53 → v = .num (.int (decimalValue cs))) ∧
  (t = "" → v = .num .nan) ∧
  (∀ (c : Char) (rest : List Char), t = String.mk (c :: rest) →
    33 ≤ c.toNat → c.toNat ≤ 126 → c ≠ '+' → c ≠ '-' → c.isDigit = false → v = .num .nan)

/-- The four extraction steps of `D1Node.fromXML`. -/
inductive ExtractionStep
  | simple
  | repeated
  | property
  | attributes
  deriving DecidableEq, Fintype

/-- One extraction step of `D1Node.fromXML`, as the source performs it on the parameters
collected so far. -/
def ExtractionStep.run (node : Element) : ExtractionStep → Props → Props
  | .simple, params => simpleNodes.foldl (stepSimple node) params
  | .repeated, params => repeatedSimpleNodes.foldl (stepRepeated node) params
  | .property, params => (node.scopeChildren "property").foldl stepProperty params
  | .attributes, params => nodeAttributes.foldl (stepAttribute node) params

/-- The property names an extraction step can write: the simple names, the two repeated
names, every name the `property` lookup can return, the attribute names. -/
def ExtractionStep.fields : ExtractionStep → List String
  | .simple => simpleNodes
  | .repeated => repeatedSimpleNodes.map (fun e => e.1)
  | .property => (nodePropKeyTable ++ objectPrototypeTable).map (fun e => e.2)
  | .attributes => nodeAttributes

/-- The extraction steps performed in the given order, from the empty object. -/
def extractParamsIn (order : List ExtractionStep) (node : Element) : Props :=
  order.foldl (fun params step => step.run node params) []

/-- The part of `D1Node.fromXML` that follows the extraction: conversions, validation,
nested elements, constructor. -/
def decodeParams (node : Element) (params : Props) : Except String D1Node := do
  let params := booleanProps.foldl stepBoolean params
  let params ← dateProps.foldlM stepDate params
  restrictedStringProps.forM (stepRestricted params)
  let params := nestedParams node params
  D1Node.constructor (some params)

/-- The decoding `D1Node.fromXML` of an element with its four extraction steps performed
in the given order. -/
def D1Node.fromXMLIn (order : List ExtractionStep) (node : Element) : Except String D1Node :=
  decodeParams node (extractParamsIn order node)

/-! ## Properties of the decoding steps -/

theorem Props.get_set (p : Props) (k k2 : String) (v : JSVal) :
    (p.set k v).get k2 = if k2 = k then some v else p.get k2 := by
  induction p with
  | nil =>
    by_cases h : k2 = k
    · simp [Props.set, Props.get, h]
    · have h2 : ¬ k = k2 := fun e => h e.symm
      simp [Props.set, Props.get, h, h2]
  | cons e rest ih =>
    obtain ⟨ek, ev⟩ := e
    unfold Props.set
    by_cases h1 : ek = k
    · subst h1
      by_cases h : k2 = ek
      · simp [Props.get, h]
      · have h2 : ¬ ek = k2 := fun e => h e.symm
        simp [Props.get, h, h2]
    · simp only [h1, if_false]
      by_cases h3 : ek = k2
      · subst h3
        simp [Props.get, h1]
      · have : Props.get ((ek, ev) :: Props.set rest k v) k2 = Props.get (Props.set rest k v) k2 := by
          simp [Props.get, h3]
        rw [this, ih]
        simp [Props.get, h3]

theorem Props.get_nil (k : String) : Props.get [] k = none := rfl

theorem get_stepSimple (node : Element) (p : Props) (n k : String) :
    (stepSimple node p n).get k =
      if k = n ∧ (simpleText node n).isSome then (simpleText node n).map strVal else p.get k := by
  unfold stepSimple simpleText
  cases h : node.scopeChild n with
  | none => simp [truthyOpt]
  | some c =>
    by_cases hc : c.textContent = ""
    · simp [truthyOpt, truthyStr, hc]
    · simp only [Option.map_some', truthyOpt, truthyStr, hc, decide_not, decide_False, Bool.not_false, if_true, if_false, Option.getD_some, Props.get_set, Option.isSome_some, and_true, strVal]

theorem get_stepRepeated (node : Element) (p : Props) (e : String × String) (k : String) :
    (stepRepeated node p e).get k =
      if k = e.1 ∧ (simpleText node e.2).isSome then
        (simpleText node e.2).map (fun s => JSVal.strings [s])
      else p.get k := by
  obtain ⟨pn, nn⟩ := e
  simp only [stepRepeated, simpleText]
  cases h : node.scopeChild nn with
  | none => simp [truthyOpt]
  | some c =>
    by_cases hc : c.textContent = ""
    · simp [truthyOpt, truthyStr, hc]
    · simp [truthyOpt, truthyStr, hc, Props.get_set]

theorem get_stepAttribute (node : Element) (p : Props) (n k : String) :
    (stepAttribute node p n).get k =
      if k = n ∧ (attrValue node n).isSome then (attrValue node n).map strVal else p.get k := by
  unfold stepAttribute attrValue
  cases h : node.getAttribute n with
  | none => simp [truthyOpt]
  | some c =>
    by_cases hc : c = ""
    · simp [truthyOpt, truthyStr, hc]
    · simp [truthyOpt, truthyStr, hc, Props.get_set, strVal]

theorem stepProperty_eq (p : Props) (e : Element) :
    stepProperty p e =
      match propertyWrite e with
      | some w => p.set w.1 (strVal w.2)
      | none => p := by
  unfold stepProperty propertyWrite
  by_cases h : (truthyOpt (e.getAttribute "key") && truthyStr e.textContent) = true
  · simp only [h, if_true]
    cases nodePropKeyToClassProp ((e.getAttribute "key").getD "") <;> simp [strVal]
  · simp [h]

theorem get_foldl_stepProperty (l : List Element) (p : Props) (k : String) :
    (l.foldl stepProperty p).get k =
      match lastPropertyWrite l k with
      | some v => some (strVal v)
      | none => p.get k := by
  induction l using List.reverseRecOn with
  | nil => simp [lastPropertyWrite]
  | append_singleton xs x ih =>
    rw [List.foldl_append, List.foldl_cons, List.foldl_nil, stepProperty_eq]
    cases hw : propertyWrite x with
    | none =>
      simp only [lastPropertyWrite, List.filterMap_append, List.filterMap_cons, hw,
        List.filterMap_nil, List.append_nil]
      exact ih
    | some w =>
      simp only [Props.get_set]
      by_cases hk : k = w.1
      · subst hk
        simp [lastPropertyWrite, List.filterMap_append, hw, List.filter_append]
      · have hk2 : ¬ w.1 = k := fun e => hk e.symm
        simp only [hk, if_false, ih]
        simp [lastPropertyWrite, List.filterMap_append, hw, List.filter_append, hk2]

theorem classProp_mem (key c : String) (h : nodePropKeyToClassProp key = some c) :
    (key, c) ∈ nodePropKeyTable ++ objectPrototypeTable := by
  unfold nodePropKeyToClassProp at h
  cases h1 : nodePropKeyTable.find? (fun e => e.1 = key) with
  | some e =>
    rw [h1] at h
    simp only [Option.map_some', Option.some.injEq] at h
    have hm := List.mem_of_find?_eq_some h1
    have hp := List.find?_some h1
    simp only [decide_eq_true_eq] at hp
    rw [List.mem_append]; left
    rw [← h, ← hp]; exact hm
  | none =>
    rw [h1] at h
    simp only [Option.map_none'] at h
    cases h2 : objectPrototypeTable.find? (fun e => e.1 = key) with
    | none => rw [h2] at h; simp at h
    | some e =>
      rw [h2] at h
      simp only [Option.map_some', Option.some.injEq] at h
      have hm := List.mem_of_find?_eq_some h2
      have hp := List.find?_some h2
      simp only [decide_eq_true_eq] at hp
      rw [List.mem_append]; right
      rw [← h, ← hp]; exact hm

theorem lastPropertyWrite_none (l : List Element) (k : String)
    (hk : ∀ key, nodePropKeyToClassProp key ≠ some k) : lastPropertyWrite l k = none := by
  have : (l.filterMap propertyWrite).filter (fun w => w.1 = k) = [] := by
    rw [List.filter_eq_nil_iff]
    intro w hw
    rw [List.mem_filterMap] at hw
    obtain ⟨e, _, he⟩ := hw
    unfold propertyWrite at he
    split at he
    · cases hc : nodePropKeyToClassProp ((e.getAttribute "key").getD "") with
      | none => rw [hc] at he; simp at he
      | some c =>
        rw [hc] at he
        simp only [Option.map_some', Option.some.injEq] at he
        intro hwk
        simp only [decide_eq_true_eq] at hwk
        apply hk _
        rw [hc, ← hwk, ← he]
    · simp at he
  simp [lastPropertyWrite, this]

theorem lastPropertyWrite_key (l : List Element) (key f : String)
    (hne : key ≠ "") (hf : ∀ key2, nodePropKeyToClassProp key2 = some f ↔ key2 = key) :
    lastPropertyWrite l f = (((l.filter (isPropertyFor key)).getLast?).map Element.textContent) := by
  have : (l.filterMap propertyWrite).filter (fun w => w.1 = f) =
      (l.filter (isPropertyFor key)).map (fun e => (f, e.textContent)) := by
    induction l with
    | nil => rfl
    | cons e es ih =>
      have hkey : nodePropKeyToClassProp key = some f := (hf key).2 rfl
      cases ha : e.getAttribute "key" with
      | none =>
        simp [List.filterMap_cons, List.filter_cons, propertyWrite, isPropertyFor, ha, truthyOpt, ih]
      | some a =>
        by_cases ht : e.textContent = ""
        · simp [List.filterMap_cons, List.filter_cons, propertyWrite, isPropertyFor, ha, truthyOpt,
            truthyStr, ht, ih]
        · by_cases hak : a = key
          · subst hak
            by_cases hae : a = ""
            · exact absurd hae hne
            · simp [List.filterMap_cons, List.filter_cons, propertyWrite, isPropertyFor, ha,
                truthyOpt, truthyStr, ht, ih, hkey, hae]
          · have hkk : ¬ key = a := fun e => hak e.symm
            cases hc : nodePropKeyToClassProp a with
            | none =>
              simp [List.filterMap_cons, List.filter_cons, propertyWrite, isPropertyFor, ha,
                truthyOpt, truthyStr, ht, ih, hc, hak]
            | some c =>
              have hcf : ¬ c = f := by
                intro hcf
                rw [hcf] at hc
                exact hak ((hf a).1 hc)
              by_cases hae : a = ""
              · have hek : ¬ "" = key := fun e => hne e.symm
                simp [List.filterMap_cons, List.filter_cons, propertyWrite, isPropertyFor, ha,
                  truthyOpt, truthyStr, ht, ih, hc, hak, hae, hek]
              · simp [List.filterMap_cons, List.filter_cons, propertyWrite, isPropertyFor, ha,
                  truthyOpt, truthyStr, ht, ih, hc, hak, hae, hcf]
  rw [lastPropertyWrite, this, List.getLast?_map]
  cases ((l.filter (isPropertyFor key)).getLast?) <;> rfl

theorem classProp_ne (k : String)
    (h : k ∉ (nodePropKeyTable ++ objectPrototypeTable).map (fun e => e.2)) :
    ∀ key, nodePropKeyToClassProp key ≠ some k := by
  intro key hk
  apply h
  rw [List.mem_map]
  exact ⟨(key, k), classProp_mem key k hk, rfl⟩

theorem classProp_iff (key f : String) (h : (key, f) ∈ nodePropKeyTable) :
    ∀ key2, nodePropKeyToClassProp key2 = some f ↔ key2 = key := by
  intro key2
  constructor
  · intro h2
    have hm := classProp_mem key2 f h2
    simp only [nodePropKeyTable, objectPrototypeTable, List.mem_cons, List.mem_append,
      Prod.mk.injEq, List.mem_singleton, List.not_mem_nil, or_false] at h hm
    rcases h with ⟨rfl, rfl⟩ | ⟨rfl, rfl⟩ | ⟨rfl, rfl⟩ | ⟨rfl, rfl⟩ | ⟨rfl, rfl⟩ | ⟨rfl, rfl⟩ |
      ⟨rfl, rfl⟩ | ⟨rfl, rfl⟩ | ⟨rfl, rfl⟩ | ⟨rfl, rfl⟩ <;> simpa using hm
  · intro h2
    subst h2
    simp only [nodePropKeyTable, List.mem_cons, Prod.mk.injEq, List.mem_singleton,
      List.not_mem_nil, or_false] at h
    rcases h with ⟨rfl, rfl⟩ | ⟨rfl, rfl⟩ | ⟨rfl, rfl⟩ | ⟨rfl, rfl⟩ | ⟨rfl, rfl⟩ | ⟨rfl, rfl⟩ |
      ⟨rfl, rfl⟩ | ⟨rfl, rfl⟩ | ⟨rfl, rfl⟩ | ⟨rfl, rfl⟩ <;> rfl

theorem lastPropertyWrite_table (l : List Element) (key f : String)
    (h : (key, f) ∈ nodePropKeyTable) : lastPropertyWrite l f = propertyTextIn l key := by
  have hne : key ≠ "" := by
    simp only [nodePropKeyTable, List.mem_cons, Prod.mk.injEq, List.mem_singleton,
      List.not_mem_nil, or_false] at h
    rcases h with ⟨rfl, rfl⟩ | ⟨rfl, rfl⟩ | ⟨rfl, rfl⟩ | ⟨rfl, rfl⟩ | ⟨rfl, rfl⟩ | ⟨rfl, rfl⟩ |
      ⟨rfl, rfl⟩ | ⟨rfl, rfl⟩ | ⟨rfl, rfl⟩ | ⟨rfl, rfl⟩ <;> decide
  exact lastPropertyWrite_key l key f hne (classProp_iff key f h)

theorem lastPropertyWrite_identifier (l : List Element) : lastPropertyWrite l "identifier" = none :=
  lastPropertyWrite_none l _ (classProp_ne _ (by decide))

theorem lastPropertyWrite_name (l : List Element) : lastPropertyWrite l "name" = none :=
  lastPropertyWrite_none l _ (classProp_ne _ (by decide))

theorem lastPropertyWrite_description (l : List Element) : lastPropertyWrite l "description" = none :=
  lastPropertyWrite_none l _ (classProp_ne _ (by decide))

theorem lastPropertyWrite_baseURL (l : List Element) : lastPropertyWrite l "baseURL" = none :=
  lastPropertyWrite_none l _ (classProp_ne _ (by decide))

theorem lastPropertyWrite_subjects (l : List Element) : lastPropertyWrite l "subjects" = none :=
  lastPropertyWrite_none l _ (classProp_ne _ (by decide))

theorem lastPropertyWrite_contactSubjects (l : List Element) : lastPropertyWrite l "contactSubjects" = none :=
  lastPropertyWrite_none l _ (classProp_ne _ (by decide))

theorem lastPropertyWrite_replicate (l : List Element) : lastPropertyWrite l "replicate" = none :=
  lastPropertyWrite_none l _ (classProp_ne _ (by decide))

theorem lastPropertyWrite_synchronize (l : List Element) : lastPropertyWrite l "synchronize" = none :=
  lastPropertyWrite_none l _ (classProp_ne _ (by decide))

theorem lastPropertyWrite_type (l : List Element) : lastPropertyWrite l "type" = none :=
  lastPropertyWrite_none l _ (classProp_ne _ (by decide))

theorem lastPropertyWrite_state (l : List Element) : lastPropertyWrite l "state" = none :=
  lastPropertyWrite_none l _ (classProp_ne _ (by decide))

theorem lastPropertyWrite_services (l : List Element) : lastPropertyWrite l "services" = none :=
  lastPropertyWrite_none l _ (classProp_ne _ (by decide))

theorem lastPropertyWrite_synchronization (l : List Element) : lastPropertyWrite l "synchronization" = none :=
  lastPropertyWrite_none l _ (classProp_ne _ (by decide))

theorem lastPropertyWrite_nodeReplicationPolicy (l : List Element) : lastPropertyWrite l "nodeReplicationPolicy" = none :=
  lastPropertyWrite_none l _ (classProp_ne _ (by decide))

theorem lastPropertyWrite_lastHarvested (l : List Element) : lastPropertyWrite l "lastHarvested" = none :=
  lastPropertyWrite_none l _ (classProp_ne _ (by decide))

theorem lastPropertyWrite_lastCompleteHarvest (l : List Element) : lastPropertyWrite l "lastCompleteHarvest" = none :=
  lastPropertyWrite_none l _ (classProp_ne _ (by decide))

theorem lastPropertyWrite_metacatVersion (l : List Element) :
    lastPropertyWrite l "metacatVersion" = propertyTextIn l "metacat_version" :=
  lastPropertyWrite_table l _ _ (by decide)

theorem lastPropertyWrite_upgradeStatus (l : List Element) :
    lastPropertyWrite l "upgradeStatus" = propertyTextIn l "upgrade_status" :=
  lastPropertyWrite_table l _ _ (by decide)

theorem lastPropertyWrite_infoURL (l : List Element) :
    lastPropertyWrite l "infoURL" = propertyTextIn l "CN_info_url" :=
  lastPropertyWrite_table l _ _ (by decide)

theorem lastPropertyWrite_dateDeprecated (l : List Element) :
    lastPropertyWrite l "dateDeprecated" = propertyTextIn l "CN_date_deprecated" :=
  lastPropertyWrite_table l _ _ (by decide)

theorem lastPropertyWrite_dateUpcoming (l : List Element) :
    lastPropertyWrite l "dateUpcoming" = propertyTextIn l "CN_date_upcoming" :=
  lastPropertyWrite_table l _ _ (by decide)

theorem lastPropertyWrite_readOnlyMode (l : List Element) :
    lastPropertyWrite l "readOnlyMode" = propertyTextIn l "read_only_mode" :=
  lastPropertyWrite_table l _ _ (by decide)

theorem lastPropertyWrite_logoURL (l : List Element) :
    lastPropertyWrite l "logoURL" = propertyTextIn l "CN_logo_url" :=
  lastPropertyWrite_table l _ _ (by decide)

theorem lastPropertyWrite_operationalStatus (l : List Element) :
    lastPropertyWrite l "operationalStatus" = propertyTextIn l "CN_operational_status" :=
  lastPropertyWrite_table l _ _ (by decide)

theorem lastPropertyWrite_dateOperational (l : List Element) :
    lastPropertyWrite l "dateOperational" = propertyTextIn l "CN_date_operational" :=
  lastPropertyWrite_table l _ _ (by decide)

theorem lastPropertyWrite_location (l : List Element) :
    lastPropertyWrite l "location" = propertyTextIn l "CN_location_lonlat" :=
  lastPropertyWrite_table l _ _ (by decide)

theorem get_stepBoolean (p : Props) (n k : String) :
    (stepBoolean p n).get k =
      if k = n ∧ (p.read n).truthy = true then
        some (JSVal.atom (.bool (p.read n = .atom (.str "true"))))
      else p.get k := by
  unfold stepBoolean
  by_cases h : (p.read n).truthy = true
  · simp [h, Props.get_set]
  · simp [h]

theorem get_setDate (p : Props) (n k : String) :
    (setDate p n).get k =
      if k = n then
        (match p.get n with
          | some (.atom (.str s)) => if s = "" then some (strVal s) else some (dateVal s)
          | o => o)
      else p.get k := by
  unfold setDate
  by_cases hk : k = n
  · subst hk
    simp only [if_true]
    split
    · next s hs =>
      by_cases h0 : s = ""
      · simp [h0, hs, strVal]
      · simp [h0, Props.get_set]
    · rfl
  · simp only [hk, if_false]
    split
    · next s hs =>
      by_cases h0 : s = ""
      · simp [h0]
      · simp [h0, Props.get_set, hk]
    · rfl

theorem stepDate_ok (p : Props) (n : String)
    (h : p.get n = none ∨ ∃ s, p.get n = some (strVal s)) :
    stepDate p n = .ok (setDate p n) := by
  unfold stepDate setDate Props.read
  rcases h with h | ⟨s, h⟩
  · simp [h, JSVal.truthy, JSAtom.truthy]
    rfl
  · by_cases h0 : s = ""
    · simp [h, h0, strVal, JSVal.truthy, JSAtom.truthy, truthyStr]
      rfl
    · simp [h, h0, strVal, JSVal.truthy, JSAtom.truthy, truthyStr, parseDate, dateVal]
      rfl

theorem foldlM_stepDate (names : List String) (hnd : names.Nodup) (p : Props)
    (h : ∀ n ∈ names, p.get n = none ∨ ∃ s, p.get n = some (strVal s)) :
    names.foldlM stepDate p = .ok (names.foldl setDate p) := by
  induction names generalizing p with
  | nil => rfl
  | cons n ns ih =>
    rw [List.foldlM_cons, stepDate_ok p n (h n (List.mem_cons_self _ _))]
    rw [List.nodup_cons] at hnd
    have := ih hnd.2 (setDate p n) (by
      intro m hm
      have hmn : m ≠ n := fun e => hnd.1 (e ▸ hm)
      rw [get_setDate]
      simp only [hmn, if_false]
      exact h m (List.mem_cons_of_mem _ hm))
    simpa using this

theorem get_nestedParams (node : Element) (p : Props) (k : String) :
    (nestedParams node p).get k =
      if k = "synchronization" ∧ (node.scopeChild "synchronization").isSome = true then
        some (.sync (Synchronization.fromXML (node.scopeChild "synchronization")))
      else if k = "nodeReplicationPolicy" ∧
          (node.scopeChild "nodeReplicationPolicy").isSome = true then
        some (.policy (NodeReplicationPolicy.fromXML (node.scopeChild "nodeReplicationPolicy")))
      else if k = "services" ∧ (node.scopeChildren "service").length > 0 then
        some (.services ((node.scopeChildren "service").map
          (fun serviceNode => Service.fromXML (some serviceNode))))
      else p.get k := by
  unfold nestedParams
  by_cases h1 : (node.scopeChild "synchronization").isSome = true <;>
  by_cases h2 : (node.scopeChild "nodeReplicationPolicy").isSome = true <;>
  by_cases h3 : (node.scopeChildren "service").length > 0 <;>
  simp only [h1, h2, h3, if_true, if_false, Props.get_set, and_true, and_false,
    Bool.false_eq_true]

theorem Props.set_of_not_mem (p : Props) (k : String) (v : JSVal)
    (h : k ∉ p.map (fun e => e.1)) : p.set k v = p ++ [(k, v)] := by
  induction p with
  | nil => rfl
  | cons e rest ih =>
    obtain ⟨ek, ev⟩ := e
    simp only [List.map_cons, List.mem_cons, not_or] at h
    have h1 : ¬ ek = k := fun e => h.1 e.symm
    simp only [Props.set, h1, if_false, List.cons_append, ih h.2]

theorem foldl_set_eq (names : List String) (hnd : names.Nodup) (c : String → Bool)
    (v : String → JSVal) (init : Props)
    (hinit : ∀ n ∈ names, n ∉ init.map (fun e => e.1)) :
    names.foldl (fun (this : Props) n => if c n then this.set n (v n) else this) init =
      init ++ names.filterMap (fun n => if c n then some (n, v n) else none) := by
  induction names generalizing init with
  | nil => simp
  | cons n ns ih =>
    rw [List.nodup_cons] at hnd
    rw [List.foldl_cons, List.filterMap_cons]
    by_cases hc : c n = true
    · simp only [hc, if_true]
      rw [Props.set_of_not_mem init n (v n) (hinit n (List.mem_cons_self _ _))]
      rw [ih hnd.2]
      · simp
      · intro m hm
        have hmn : m ≠ n := fun e => hnd.1 (e ▸ hm)
        simp only [List.map_append, List.map_cons, List.map_nil, List.mem_append,
          List.mem_singleton, not_or]
        exact ⟨hinit m (List.mem_cons_of_mem _ hm), hmn⟩
    · simp only [hc, if_false, Bool.false_eq_true]
      exact ih hnd.2 init (fun m hm => hinit m (List.mem_cons_of_mem _ hm))

theorem foldlM_pure (f : Props → String → Except String Props) (g : Props → String → Props)
    (names : List String) (h : ∀ a, ∀ n ∈ names, f a n = pure (g a n)) (init : Props) :
    names.foldlM f init = pure (names.foldl g init) := by
  induction names generalizing init with
  | nil => rfl
  | cons n ns ih =>
    rw [List.foldlM_cons, h init n (List.mem_cons_self _ _), List.foldl_cons]
    exact ih (fun a m hm => h a m (List.mem_cons_of_mem _ hm)) (g init n)

theorem constructor_fields (params : Props) :
    allProps.foldl (fun (this : Props) propName =>
        if (params.read propName).notNullish && (params.get propName).isSome then
          this.set propName (params.read propName)
        else this) [] =
      allProps.filterMap (fun k =>
        ((params.get k).filter JSVal.notNullish).map (fun v => (k, v))) := by
  rw [foldl_set_eq allProps (by decide)
    (fun n => (params.read n).notNullish && (params.get n).isSome) (fun n => params.read n) []
    (by simp)]
  simp only [List.nil_append]
  apply List.filterMap_congr
  intro k _
  unfold Props.read
  cases h : params.get k with
  | none => simp [JSVal.notNullish]
  | some v =>
    by_cases hv : v.notNullish = true
    · simp [hv, Option.filter]
    · simp [hv, Option.filter]

theorem constructor_eq (params : Props)
    (hown : params.get "hasOwnProperty" = none ∨
      ∀ k ∈ allProps, (params.read k).notNullish = false) :
    D1Node.constructor (some params) =
      .ok { props := allProps.filterMap (fun k =>
          ((params.get k).filter JSVal.notNullish).map (fun v => (k, v))) } := by
  unfold D1Node.constructor
  simp only [Option.getD_some]
  rw [foldlM_pure _ (fun (this : Props) propName =>
        if (params.read propName).notNullish && (params.get propName).isSome then
          this.set propName (params.read propName)
        else this) allProps _ [], constructor_fields]
  · rfl
  · intro a n hn
    beta_reduce
    rcases hown with h | h
    · rw [h]
      cases (params.read n).notNullish <;> cases (params.get n).isSome <;> rfl
    · rw [h n hn]
      rfl

theorem get_filterMap_fields (names : List String) (g : String → Option JSVal) (k : String) :
    Props.get (names.filterMap (fun n => (g n).map (fun v => (n, v)))) k =
      if k ∈ names then g k else none := by
  induction names with
  | nil => rfl
  | cons n ns ih =>
    rw [List.filterMap_cons]
    cases hg : g n with
    | none =>
      simp only [Option.map_none', ih, List.mem_cons]
      by_cases hk : k = n
      · subst hk; simp [hg]
      · simp [hk]
    | some v =>
      simp only [Option.map_some']
      by_cases hk : k = n
      · subst hk; simp [Props.get, hg]
      · have hk2 : ¬ n = k := fun e => hk e.symm
        have : Props.get ((n, v) :: ns.filterMap (fun n => (g n).map (fun v => (n, v)))) k =
            Props.get (ns.filterMap (fun n => (g n).map (fun v => (n, v)))) k := by
          simp [Props.get, hk2]
        rw [this, ih]
        simp [hk]

theorem simpleText_ne (node : Element) (n v : String) (h : simpleText node n = some v) :
    v ≠ "" := by
  unfold simpleText at h
  split at h
  · split at h
    · simp at h
    · next hc => simp only [Option.some.injEq] at h; rw [← h]; exact hc
  · simp at h

theorem attrValue_ne (node : Element) (n v : String) (h : attrValue node n = some v) :
    v ≠ "" := by
  unfold attrValue at h
  split at h
  · split at h
    · simp at h
    · next hc => simp only [Option.some.injEq] at h; rw [← h]; exact hc
  · simp at h

theorem propertyTextIn_ne (l : List Element) (key v : String)
    (h : propertyTextIn l key = some v) : v ≠ "" := by
  unfold propertyTextIn at h
  cases hl : (l.filter (isPropertyFor key)).getLast? with
  | none => rw [hl] at h; simp at h
  | some e =>
    rw [hl] at h
    simp only [Option.map_some', Option.some.injEq] at h
    have hm := List.mem_of_getLast?_eq_some hl
    rw [List.mem_filter] at hm
    have := hm.2
    simp only [isPropertyFor, Bool.and_eq_true, decide_eq_true_eq] at this
    rw [← h]
    simpa using this.2

theorem get_foldl_own (step : Props → String → Props)
    (F : String → Option JSVal → Option JSVal)
    (hstep : ∀ p n k, (step p n).get k = if k = n then F n (p.get n) else p.get k)
    (names : List String) (hnd : names.Nodup) (p : Props) (k : String) :
    (names.foldl step p).get k = if k ∈ names then F k (p.get k) else p.get k := by
  induction names generalizing p with
  | nil => simp
  | cons n ns ih =>
    rw [List.nodup_cons] at hnd
    rw [List.foldl_cons, ih hnd.2, hstep]
    by_cases hk : k = n
    · subst hk
      simp [hnd.1]
    · simp [hk]

theorem own_stepSimple (node : Element) (p : Props) (n k : String) :
    (stepSimple node p n).get k = if k = n then ownSimple node n (p.get n) else p.get k := by
  rw [get_stepSimple]
  by_cases hk : k = n
  · subst hk
    cases h : simpleText node k <;> simp [ownSimple, h]
  · simp [hk]

theorem own_stepAttribute (node : Element) (p : Props) (n k : String) :
    (stepAttribute node p n).get k =
      if k = n then ownAttribute node n (p.get n) else p.get k := by
  rw [get_stepAttribute]
  by_cases hk : k = n
  · subst hk
    cases h : attrValue node k <;> simp [ownAttribute, h]
  · simp [hk]

theorem own_stepBoolean (p : Props) (n k : String) :
    (stepBoolean p n).get k = if k = n then ownBoolean n (p.get n) else p.get k := by
  rw [get_stepBoolean]
  by_cases hk : k = n
  · subst hk
    by_cases h : (p.read k).truthy = true
    · have h2 := h
      unfold Props.read at h2
      simp [ownBoolean, h, h2, Props.read]
    · have h2 := h
      unfold Props.read at h2
      simp [ownBoolean, h, h2]
  · simp [hk]

theorem own_setDate (p : Props) (n k : String) :
    (setDate p n).get k = if k = n then ownDate n (p.get n) else p.get k := by
  rw [get_setDate]
  rfl

theorem get_convertedParams (node : Element) (k : String) :
    (convertedParams node).get k =
      if k ∈ dateProps then ownDate k ((extractParams node).get k)
      else if k ∈ booleanProps then ownBoolean k ((extractParams node).get k)
      else (extractParams node).get k := by
  unfold convertedParams
  rw [get_foldl_own setDate ownDate own_setDate dateProps (by decide),
    get_foldl_own stepBoolean ownBoolean own_stepBoolean booleanProps (by decide)]
  by_cases h1 : k ∈ dateProps
  · have h2 : k ∉ booleanProps := by
      simp only [dateProps, List.mem_cons, List.mem_singleton, List.not_mem_nil, or_false] at h1
      rcases h1 with rfl | rfl | rfl | rfl | rfl <;> decide
    simp [h1, h2]
  · simp [h1]

theorem get_extractParams (node : Element) (k : String) :
    (extractParams node).get k =
      (if k ∈ nodeAttributes then ownAttribute node k else id)
        (match lastPropertyWrite (node.scopeChildren "property") k with
          | some v => some (strVal v)
          | none =>
            if k = "contactSubjects" ∧ (simpleText node "contactSubject").isSome = true then
              (simpleText node "contactSubject").map (fun s => JSVal.strings [s])
            else if k = "subjects" ∧ (simpleText node "subject").isSome = true then
              (simpleText node "subject").map (fun s => JSVal.strings [s])
            else if k ∈ simpleNodes then ownSimple node k none else none) := by
  unfold extractParams
  simp only []
  rw [get_foldl_own (stepAttribute node) (ownAttribute node) (own_stepAttribute node)
    nodeAttributes (by decide), get_foldl_stepProperty]
  simp only [repeatedSimpleNodes, List.foldl_cons, List.foldl_nil, get_stepRepeated]
  rw [get_foldl_own (stepSimple node) (ownSimple node) (own_stepSimple node)
    simpleNodes (by decide)]
  simp only [Props.get_nil]
  by_cases h : k ∈ nodeAttributes
  · simp only [h, if_true]
  · simp only [h, if_false, id]

theorem field_identifier (node : Element) :
    ((nestedParams node (convertedParams node)).get "identifier").filter JSVal.notNullish =
      (simpleText node "identifier").map strVal := by
  simp only [get_nestedParams, get_convertedParams, get_extractParams, dateProps, booleanProps,
    nodeAttributes, simpleNodes, List.mem_cons, List.mem_singleton, List.not_mem_nil,
    lastPropertyWrite_identifier]
  cases h : simpleText node "identifier" with
  | none => simp [h, Option.filter, ownSimple, ownAttribute, ownBoolean, ownDate, JSVal.truthy, JSAtom.truthy]
  | some v =>
    have hv := simpleText_ne _ _ _ h
    simp [h, Option.filter, strVal, boolVal, dateVal, JSVal.notNullish, JSVal.truthy,
      JSAtom.truthy, truthyStr, hv, ownSimple, ownAttribute, ownBoolean, ownDate]

theorem field_name (node : Element) :
    ((nestedParams node (convertedParams node)).get "name").filter JSVal.notNullish =
      (simpleText node "name").map strVal := by
  simp only [get_nestedParams, get_convertedParams, get_extractParams, dateProps, booleanProps,
    nodeAttributes, simpleNodes, List.mem_cons, List.mem_singleton, List.not_mem_nil,
    lastPropertyWrite_name]
  cases h : simpleText node "name" with
  | none => simp [h, Option.filter, ownSimple, ownAttribute, ownBoolean, ownDate, JSVal.truthy, JSAtom.truthy]
  | some v =>
    have hv := simpleText_ne _ _ _ h
    simp [h, Option.filter, strVal, boolVal, dateVal, JSVal.notNullish, JSVal.truthy,
      JSAtom.truthy, truthyStr, hv, ownSimple, ownAttribute, ownBoolean, ownDate]

theorem field_description (node : Element) :
    ((nestedParams node (convertedParams node)).get "description").filter JSVal.notNullish =
      (simpleText node "description").map strVal := by
  simp only [get_nestedParams, get_convertedParams, get_extractParams, dateProps, booleanProps,
    nodeAttributes, simpleNodes, List.mem_cons, List.mem_singleton, List.not_mem_nil,
    lastPropertyWrite_description]
  cases h : simpleText node "description" with
  | none => simp [h, Option.filter, ownSimple, ownAttribute, ownBoolean, ownDate, JSVal.truthy, JSAtom.truthy]
  | some v =>
    have hv := simpleText_ne _ _ _ h
    simp [h, Option.filter, strVal, boolVal, dateVal, JSVal.notNullish, JSVal.truthy,
      JSAtom.truthy, truthyStr, hv, ownSimple, ownAttribute, ownBoolean, ownDate]

theorem field_baseURL (node : Element) :
    ((nestedParams node (convertedParams node)).get "baseURL").filter JSVal.notNullish =
      (simpleText node "baseURL").map strVal := by
  simp only [get_nestedParams, get_convertedParams, get_extractParams, dateProps, booleanProps,
    nodeAttributes, simpleNodes, List.mem_cons, List.mem_singleton, List.not_mem_nil,
    lastPropertyWrite_baseURL]
  cases h : simpleText node "baseURL" with
  | none => simp [h, Option.filter, ownSimple, ownAttribute, ownBoolean, ownDate, JSVal.truthy, JSAtom.truthy]
  | some v =>
    have hv := simpleText_ne _ _ _ h
    simp [h, Option.filter, strVal, boolVal, dateVal, JSVal.notNullish, JSVal.truthy,
      JSAtom.truthy, truthyStr, hv, ownSimple, ownAttribute, ownBoolean, ownDate]

theorem field_subjects (node : Element) :
    ((nestedParams node (convertedParams node)).get "subjects").filter JSVal.notNullish =
      (simpleText node "subject").map (fun s => JSVal.strings [s]) := by
  simp only [get_nestedParams, get_convertedParams, get_extractParams, dateProps, booleanProps,
    nodeAttributes, simpleNodes, List.mem_cons, List.mem_singleton, List.not_mem_nil,
    lastPropertyWrite_subjects]
  cases h : simpleText node "subject" with
  | none => simp [h, Option.filter, ownSimple, ownAttribute, ownBoolean, ownDate, JSVal.truthy, JSAtom.truthy]
  | some v =>
    have hv := simpleText_ne _ _ _ h
    simp [h, Option.filter, strVal, boolVal, dateVal, JSVal.notNullish, JSVal.truthy,
      JSAtom.truthy, truthyStr, hv, ownSimple, ownAttribute, ownBoolean, ownDate]

theorem field_contactSubjects (node : Element) :
    ((nestedParams node (convertedParams node)).get "contactSubjects").filter JSVal.notNullish =
      (simpleText node "contactSubject").map (fun s => JSVal.strings [s]) := by
  simp only [get_nestedParams, get_convertedParams, get_extractParams, dateProps, booleanProps,
    nodeAttributes, simpleNodes, List.mem_cons, List.mem_singleton, List.not_mem_nil,
    lastPropertyWrite_contactSubjects]
  cases h : simpleText node "contactSubject" with
  | none => simp [h, Option.filter, ownSimple, ownAttribute, ownBoolean, ownDate, JSVal.truthy, JSAtom.truthy]
  | some v =>
    have hv := simpleText_ne _ _ _ h
    simp [h, Option.filter, strVal, boolVal, dateVal, JSVal.notNullish, JSVal.truthy,
      JSAtom.truthy, truthyStr, hv, ownSimple, ownAttribute, ownBoolean, ownDate]

theorem field_replicate (node : Element) :
    ((nestedParams node (convertedParams node)).get "replicate").filter JSVal.notNullish =
      (attrValue node "replicate").map boolVal := by
  simp only [get_nestedParams, get_convertedParams, get_extractParams, dateProps, booleanProps,
    nodeAttributes, simpleNodes, List.mem_cons, List.mem_singleton, List.not_mem_nil,
    lastPropertyWrite_replicate]
  cases h : attrValue node "replicate" with
  | none => simp [h, Option.filter, ownSimple, ownAttribute, ownBoolean, ownDate, JSVal.truthy, JSAtom.truthy]
  | some v =>
    have hv := attrValue_ne _ _ _ h
    simp [h, Option.filter, strVal, boolVal, dateVal, JSVal.notNullish, JSVal.truthy,
      JSAtom.truthy, truthyStr, hv, ownSimple, ownAttribute, ownBoolean, ownDate]

theorem field_synchronize (node : Element) :
    ((nestedParams node (convertedParams node)).get "synchronize").filter JSVal.notNullish =
      (attrValue node "synchronize").map boolVal := by
  simp only [get_nestedParams, get_convertedParams, get_extractParams, dateProps, booleanProps,
    nodeAttributes, simpleNodes, List.mem_cons, List.mem_singleton, List.not_mem_nil,
    lastPropertyWrite_synchronize]
  cases h : attrValue node "synchronize" with
  | none => simp [h, Option.filter, ownSimple, ownAttribute, ownBoolean, ownDate, JSVal.truthy, JSAtom.truthy]
  | some v =>
    have hv := attrValue_ne _ _ _ h
    simp [h, Option.filter, strVal, boolVal, dateVal, JSVal.notNullish, JSVal.truthy,
      JSAtom.truthy, truthyStr, hv, ownSimple, ownAttribute, ownBoolean, ownDate]

theorem field_type (node : Element) :
    ((nestedParams node (convertedParams node)).get "type").filter JSVal.notNullish =
      (attrValue node "type").map strVal := by
  simp only [get_nestedParams, get_convertedParams, get_extractParams, dateProps, booleanProps,
    nodeAttributes, simpleNodes, List.mem_cons, List.mem_singleton, List.not_mem_nil,
    lastPropertyWrite_type]
  cases h : attrValue node "type" with
  | none => simp [h, Option.filter, ownSimple, ownAttribute, ownBoolean, ownDate, JSVal.truthy, JSAtom.truthy]
  | some v =>
    have hv := attrValue_ne _ _ _ h
    simp [h, Option.filter, strVal, boolVal, dateVal, JSVal.notNullish, JSVal.truthy,
      JSAtom.truthy, truthyStr, hv, ownSimple, ownAttribute, ownBoolean, ownDate]

theorem field_state (node : Element) :
    ((nestedParams node (convertedParams node)).get "state").filter JSVal.notNullish =
      (attrValue node "state").map strVal := by
  simp only [get_nestedParams, get_convertedParams, get_extractParams, dateProps, booleanProps,
    nodeAttributes, simpleNodes, List.mem_cons, List.mem_singleton, List.not_mem_nil,
    lastPropertyWrite_state]
  cases h : attrValue node "state" with
  | none => simp [h, Option.filter, ownSimple, ownAttribute, ownBoolean, ownDate, JSVal.truthy, JSAtom.truthy]
  | some v =>
    have hv := attrValue_ne _ _ _ h
    simp [h, Option.filter, strVal, boolVal, dateVal, JSVal.notNullish, JSVal.truthy,
      JSAtom.truthy, truthyStr, hv, ownSimple, ownAttribute, ownBoolean, ownDate]

theorem field_metacatVersion (node : Element) :
    ((nestedParams node (convertedParams node)).get "metacatVersion").filter JSVal.notNullish =
      (propertyTextIn (node.scopeChildren "property") "metacat_version").map strVal := by
  simp only [get_nestedParams, get_convertedParams, get_extractParams, dateProps, booleanProps,
    nodeAttributes, simpleNodes, List.mem_cons, List.mem_singleton, List.not_mem_nil,
    lastPropertyWrite_metacatVersion]
  cases h : propertyTextIn (node.scopeChildren "property") "metacat_version" with
  | none => simp [h, Option.filter, ownSimple, ownAttribute, ownBoolean, ownDate, JSVal.truthy, JSAtom.truthy]
  | some v =>
    have hv := propertyTextIn_ne _ _ _ h
    simp [h, Option.filter, strVal, boolVal, dateVal, JSVal.notNullish, JSVal.truthy,
      JSAtom.truthy, truthyStr, hv, ownSimple, ownAttribute, ownBoolean, ownDate]

theorem field_upgradeStatus (node : Element) :
    ((nestedParams node (convertedParams node)).get "upgradeStatus").filter JSVal.notNullish =
      (propertyTextIn (node.scopeChildren "property") "upgrade_status").map strVal := by
  simp only [get_nestedParams, get_convertedParams, get_extractParams, dateProps, booleanProps,
    nodeAttributes, simpleNodes, List.mem_cons, List.mem_singleton, List.not_mem_nil,
    lastPropertyWrite_upgradeStatus]
  cases h : propertyTextIn (node.scopeChildren "property") "upgrade_status" with
  | none => simp [h, Option.filter, ownSimple, ownAttribute, ownBoolean, ownDate, JSVal.truthy, JSAtom.truthy]
  | some v =>
    have hv := propertyTextIn_ne _ _ _ h
    simp [h, Option.filter, strVal, boolVal, dateVal, JSVal.notNullish, JSVal.truthy,
      JSAtom.truthy, truthyStr, hv, ownSimple, ownAttribute, ownBoolean, ownDate]

theorem field_infoURL (node : Element) :
    ((nestedParams node (convertedParams node)).get "infoURL").filter JSVal.notNullish =
      (propertyTextIn (node.scopeChildren "property") "CN_info_url").map strVal := by
  simp only [get_nestedParams, get_convertedParams, get_extractParams, dateProps, booleanProps,
    nodeAttributes, simpleNodes, List.mem_cons, List.mem_singleton, List.not_mem_nil,
    lastPropertyWrite_infoURL]
  cases h : propertyTextIn (node.scopeChildren "property") "CN_info_url" with
  | none => simp [h, Option.filter, ownSimple, ownAttribute, ownBoolean, ownDate, JSVal.truthy, JSAtom.truthy]
  | some v =>
    have hv := propertyTextIn_ne _ _ _ h
    simp [h, Option.filter, strVal, boolVal, dateVal, JSVal.notNullish, JSVal.truthy,
      JSAtom.truthy, truthyStr, hv, ownSimple, ownAttribute, ownBoolean, ownDate]

theorem field_dateDeprecated (node : Element) :
    ((nestedParams node (convertedParams node)).get "dateDeprecated").filter JSVal.notNullish =
      (propertyTextIn (node.scopeChildren "property") "CN_date_deprecated").map dateVal := by
  simp only [get_nestedParams, get_convertedParams, get_extractParams, dateProps, booleanProps,
    nodeAttributes, simpleNodes, List.mem_cons, List.mem_singleton, List.not_mem_nil,
    lastPropertyWrite_dateDeprecated]
  cases h : propertyTextIn (node.scopeChildren "property") "CN_date_deprecated" with
  | none => simp [h, Option.filter, ownSimple, ownAttribute, ownBoolean, ownDate, JSVal.truthy, JSAtom.truthy]
  | some v =>
    have hv := propertyTextIn_ne _ _ _ h
    simp [h, Option.filter, strVal, boolVal, dateVal, JSVal.notNullish, JSVal.truthy,
      JSAtom.truthy, truthyStr, hv, ownSimple, ownAttribute, ownBoolean, ownDate]

theorem field_dateUpcoming (node : Element) :
    ((nestedParams node (convertedParams node)).get "dateUpcoming").filter JSVal.notNullish =
      (propertyTextIn (node.scopeChildren "property") "CN_date_upcoming").map dateVal := by
  simp only [get_nestedParams, get_convertedParams, get_extractParams, dateProps, booleanProps,
    nodeAttributes, simpleNodes, List.mem_cons, List.mem_singleton, List.not_mem_nil,
    lastPropertyWrite_dateUpcoming]
  cases h : propertyTextIn (node.scopeChildren "property") "CN_date_upcoming" with
  | none => simp [h, Option.filter, ownSimple, ownAttribute, ownBoolean, ownDate, JSVal.truthy, JSAtom.truthy]
  | some v =>
    have hv := propertyTextIn_ne _ _ _ h
    simp [h, Option.filter, strVal, boolVal, dateVal, JSVal.notNullish, JSVal.truthy,
      JSAtom.truthy, truthyStr, hv, ownSimple, ownAttribute, ownBoolean, ownDate]

theorem field_readOnlyMode (node : Element) :
    ((nestedParams node (convertedParams node)).get "readOnlyMode").filter JSVal.notNullish =
      (propertyTextIn (node.scopeChildren "property") "read_only_mode").map boolVal := by
  simp only [get_nestedParams, get_convertedParams, get_extractParams, dateProps, booleanProps,
    nodeAttributes, simpleNodes, List.mem_cons, List.mem_singleton, List.not_mem_nil,
    lastPropertyWrite_readOnlyMode]
  cases h : propertyTextIn (node.scopeChildren "property") "read_only_mode" with
  | none => simp [h, Option.filter, ownSimple, ownAttribute, ownBoolean, ownDate, JSVal.truthy, JSAtom.truthy]
  | some v =>
    have hv := propertyTextIn_ne _ _ _ h
    simp [h, Option.filter, strVal, boolVal, dateVal, JSVal.notNullish, JSVal.truthy,
      JSAtom.truthy, truthyStr, hv, ownSimple, ownAttribute, ownBoolean, ownDate]

theorem field_logoURL (node : Element) :
    ((nestedParams node (convertedParams node)).get "logoURL").filter JSVal.notNullish =
      (propertyTextIn (node.scopeChildren "property") "CN_logo_url").map strVal := by
  simp only [get_nestedParams, get_convertedParams, get_extractParams, dateProps, booleanProps,
    nodeAttributes, simpleNodes, List.mem_cons, List.mem_singleton, List.not_mem_nil,
    lastPropertyWrite_logoURL]
  cases h : propertyTextIn (node.scopeChildren "property") "CN_logo_url" with
  | none => simp [h, Option.filter, ownSimple, ownAttribute, ownBoolean, ownDate, JSVal.truthy, JSAtom.truthy]
  | some v =>
    have hv := propertyTextIn_ne _ _ _ h
    simp [h, Option.filter, strVal, boolVal, dateVal, JSVal.notNullish, JSVal.truthy,
      JSAtom.truthy, truthyStr, hv, ownSimple, ownAttribute, ownBoolean, ownDate]

theorem field_operationalStatus (node : Element) :
    ((nestedParams node (convertedParams node)).get "operationalStatus").filter JSVal.notNullish =
      (propertyTextIn (node.scopeChildren "property") "CN_operational_status").map strVal := by
  simp only [get_nestedParams, get_convertedParams, get_extractParams, dateProps, booleanProps,
    nodeAttributes, simpleNodes, List.mem_cons, List.mem_singleton, List.not_mem_nil,
    lastPropertyWrite_operationalStatus]
  cases h : propertyTextIn (node.scopeChildren "property") "CN_operational_status" with
  | none => simp [h, Option.filter, ownSimple, ownAttribute, ownBoolean, ownDate, JSVal.truthy, JSAtom.truthy]
  | some v =>
    have hv := propertyTextIn_ne _ _ _ h
    simp [h, Option.filter, strVal, boolVal, dateVal, JSVal.notNullish, JSVal.truthy,
      JSAtom.truthy, truthyStr, hv, ownSimple, ownAttribute, ownBoolean, ownDate]

theorem field_dateOperational (node : Element) :
    ((nestedParams node (convertedParams node)).get "dateOperational").filter JSVal.notNullish =
      (propertyTextIn (node.scopeChildren "property") "CN_date_operational").map dateVal := by
  simp only [get_nestedParams, get_convertedParams, get_extractParams, dateProps, booleanProps,
    nodeAttributes, simpleNodes, List.mem_cons, List.mem_singleton, List.not_mem_nil,
    lastPropertyWrite_dateOperational]
  cases h : propertyTextIn (node.scopeChildren "property") "CN_date_operational" with
  | none => simp [h, Option.filter, ownSimple, ownAttribute, ownBoolean, ownDate, JSVal.truthy, JSAtom.truthy]
  | some v =>
    have hv := propertyTextIn_ne _ _ _ h
    simp [h, Option.filter, strVal, boolVal, dateVal, JSVal.notNullish, JSVal.truthy,
      JSAtom.truthy, truthyStr, hv, ownSimple, ownAttribute, ownBoolean, ownDate]

theorem field_location (node : Element) :
    ((nestedParams node (convertedParams node)).get "location").filter JSVal.notNullish =
      (propertyTextIn (node.scopeChildren "property") "CN_location_lonlat").map strVal := by
  simp only [get_nestedParams, get_convertedParams, get_extractParams, dateProps, booleanProps,
    nodeAttributes, simpleNodes, List.mem_cons, List.mem_singleton, List.not_mem_nil,
    lastPropertyWrite_location]
  cases h : propertyTextIn (node.scopeChildren "property") "CN_location_lonlat" with
  | none => simp [h, Option.filter, ownSimple, ownAttribute, ownBoolean, ownDate, JSVal.truthy, JSAtom.truthy]
  | some v =>
    have hv := propertyTextIn_ne _ _ _ h
    simp [h, Option.filter, strVal, boolVal, dateVal, JSVal.notNullish, JSVal.truthy,
      JSAtom.truthy, truthyStr, hv, ownSimple, ownAttribute, ownBoolean, ownDate]

theorem field_services (node : Element) :
    ((nestedParams node (convertedParams node)).get "services").filter JSVal.notNullish =
      if (node.scopeChildren "service").length > 0 then
        some (.services ((node.scopeChildren "service").map (fun e => Service.fromXML (some e))))
      else none := by
  simp only [get_nestedParams, get_convertedParams, get_extractParams, dateProps, booleanProps,
    nodeAttributes, simpleNodes, List.mem_cons, List.mem_singleton, List.not_mem_nil,
    lastPropertyWrite_services]
  by_cases h : (node.scopeChildren "service").length > 0
  · simp [h, Option.filter, JSVal.notNullish]
  · simp [h, Option.filter]

theorem field_synchronization (node : Element) :
    ((nestedParams node (convertedParams node)).get "synchronization").filter JSVal.notNullish =
      (node.scopeChild "synchronization").map
        (fun e => .sync (Synchronization.fromXML (some e))) := by
  simp only [get_nestedParams, get_convertedParams, get_extractParams, dateProps, booleanProps,
    nodeAttributes, simpleNodes, List.mem_cons, List.mem_singleton, List.not_mem_nil,
    lastPropertyWrite_synchronization]
  cases h : node.scopeChild "synchronization" with
  | none => simp [Option.filter]
  | some e => simp [Option.filter, JSVal.notNullish]

theorem field_nodeReplicationPolicy (node : Element) :
    ((nestedParams node (convertedParams node)).get "nodeReplicationPolicy").filter
        JSVal.notNullish =
      (node.scopeChild "nodeReplicationPolicy").map
        (fun e => .policy (NodeReplicationPolicy.fromXML (some e))) := by
  simp only [get_nestedParams, get_convertedParams, get_extractParams, dateProps, booleanProps,
    nodeAttributes, simpleNodes, List.mem_cons, List.mem_singleton, List.not_mem_nil,
    lastPropertyWrite_nodeReplicationPolicy]
  cases h : node.scopeChild "nodeReplicationPolicy" with
  | none => simp [Option.filter]
  | some e => simp [Option.filter, JSVal.notNullish]

set_option maxHeartbeats 1000000 in
theorem decoded_get (node : Element) (k : String) (hk : k ∈ allProps) :
    ((nestedParams node (convertedParams node)).get k).filter JSVal.notNullish =
      decodedField node k := by
  simp only [allProps, requiredProps, optionalProps, List.cons_append, List.nil_append,
    List.mem_cons, List.mem_singleton, List.not_mem_nil, or_false] at hk
  rcases hk with rfl | rfl | rfl | rfl | rfl | rfl | rfl | rfl | rfl | rfl | rfl | rfl | rfl |
    rfl | rfl | rfl | rfl | rfl | rfl | rfl | rfl | rfl | rfl
  · exact field_identifier node
  · exact field_name node
  · exact field_description node
  · exact field_baseURL node
  · exact field_subjects node
  · exact field_contactSubjects node
  · exact field_replicate node
  · exact field_synchronize node
  · exact field_type node
  · exact field_state node
  · exact field_services node
  · exact field_synchronization node
  · exact field_nodeReplicationPolicy node
  · exact field_metacatVersion node
  · exact field_upgradeStatus node
  · exact field_infoURL node
  · exact field_dateDeprecated node
  · exact field_dateUpcoming node
  · exact field_readOnlyMode node
  · exact field_logoURL node
  · exact field_operationalStatus node
  · exact field_dateOperational node
  · exact field_location node

theorem dates_ok (node : Element) :
    dateProps.foldlM stepDate (booleanProps.foldl stepBoolean (extractParams node)) =
      .ok (convertedParams node) := by
  unfold convertedParams
  apply foldlM_stepDate dateProps (by decide)
  intro n hn
  rw [get_foldl_own stepBoolean ownBoolean own_stepBoolean booleanProps (by decide),
    get_extractParams]
  simp only [dateProps, List.mem_cons, List.mem_singleton, List.not_mem_nil, or_false] at hn
  rcases hn with rfl | rfl | rfl | rfl | rfl
  · simp [booleanProps, nodeAttributes, simpleNodes, lastPropertyWrite_lastHarvested]
  · simp [booleanProps, nodeAttributes, simpleNodes, lastPropertyWrite_lastCompleteHarvest]
  · simp only [booleanProps, nodeAttributes, simpleNodes, lastPropertyWrite_dateDeprecated,
      List.mem_cons, List.mem_singleton, List.not_mem_nil]
    cases h : propertyTextIn (node.scopeChildren "property") "CN_date_deprecated" <;> simp [h]
  · simp only [booleanProps, nodeAttributes, simpleNodes, lastPropertyWrite_dateUpcoming,
      List.mem_cons, List.mem_singleton, List.not_mem_nil]
    cases h : propertyTextIn (node.scopeChildren "property") "CN_date_upcoming" <;> simp [h]
  · simp only [booleanProps, nodeAttributes, simpleNodes, lastPropertyWrite_dateOperational,
      List.mem_cons, List.mem_singleton, List.not_mem_nil]
    cases h : propertyTextIn (node.scopeChildren "property") "CN_date_operational" <;> simp [h]

theorem converted_type (node : Element) :
    (convertedParams node).get "type" = (attrValue node "type").map strVal := by
  simp only [get_convertedParams, get_extractParams, dateProps, booleanProps,
    nodeAttributes, simpleNodes, List.mem_cons, List.mem_singleton, List.not_mem_nil,
    lastPropertyWrite_type]
  cases h : attrValue node "type" <;> simp [h, ownAttribute, ownSimple]

theorem converted_state (node : Element) :
    (convertedParams node).get "state" = (attrValue node "state").map strVal := by
  simp only [get_convertedParams, get_extractParams, dateProps, booleanProps,
    nodeAttributes, simpleNodes, List.mem_cons, List.mem_singleton, List.not_mem_nil,
    lastPropertyWrite_state]
  cases h : attrValue node "state" <;> simp [h, ownAttribute, ownSimple]

theorem stepRestricted_eq (p : Props) (node : Element) (name : String) (allowed : List String)
    (h : p.get name = (attrValue node name).map strVal) :
    stepRestricted p (name, allowed) =
      if attrInvalid node name allowed then
        .error ("The value of " ++ name ++ " must be one of " ++ String.intercalate ", " allowed)
      else .ok () := by
  unfold stepRestricted attrInvalid Props.read
  simp only [h]
  cases hv : attrValue node name with
  | none => simp [JSVal.truthy, JSAtom.truthy]; rfl
  | some v =>
    have hne := attrValue_ne _ _ _ hv
    by_cases hc : allowed.contains v = true
    · simp [strVal, JSVal.truthy, JSAtom.truthy, truthyStr, hne, includes, hc]; rfl
    · simp [strVal, JSVal.truthy, JSAtom.truthy, truthyStr, hne, includes, hc]; rfl

theorem validate_eq (node : Element) :
    restrictedStringProps.forM (stepRestricted (convertedParams node)) =
      if attrInvalid node "type" ["cn", "mn"] then
        .error "The value of type must be one of cn, mn"
      else if attrInvalid node "state" ["up", "down", "unknown"] then
        .error "The value of state must be one of up, down, unknown"
      else .ok () := by
  have e1 : ("The value of " ++ "type" ++ " must be one of " ++
      String.intercalate ", " ["cn", "mn"]) = "The value of type must be one of cn, mn" := by
    decide
  have e2 : ("The value of " ++ "state" ++ " must be one of " ++
      String.intercalate ", " ["up", "down", "unknown"]) =
      "The value of state must be one of up, down, unknown" := by
    decide
  have e3 : restrictedStringProps.forM (stepRestricted (convertedParams node)) =
      (stepRestricted (convertedParams node) ("type", ["cn", "mn"]) >>= fun _ =>
        stepRestricted (convertedParams node) ("state", ["up", "down", "unknown"]) >>= fun _ =>
          pure ()) := rfl
  rw [e3, stepRestricted_eq _ node "type" _ (converted_type node),
    stepRestricted_eq _ node "state" _ (converted_state node), e1, e2]
  cases attrInvalid node "type" ["cn", "mn"] <;>
    cases attrInvalid node "state" ["up", "down", "unknown"] <;> rfl

theorem params_no_method (node : Element) :
    (nestedParams node (convertedParams node)).get "hasOwnProperty" = none := by
  rw [get_nestedParams, get_convertedParams, get_extractParams,
    lastPropertyWrite_none _ _ (classProp_ne "hasOwnProperty" (by decide))]
  simp [dateProps, booleanProps, nodeAttributes, simpleNodes]

theorem fromXML_eq (node : Element) : D1Node.fromXML (some node) = decodeSpec node := by
  have hc : D1Node.constructor (some (nestedParams node (convertedParams node))) =
      .ok { props :=
        allProps.filterMap (fun k => (decodedField node k).map (fun v => (k, v))) } := by
    rw [constructor_eq _ (Or.inl (params_no_method node))]
    congr 2
    apply List.filterMap_congr
    intro k hk
    rw [decoded_get node k hk]
  unfold D1Node.fromXML decodeSpec
  simp only [bind, Except.bind, dates_ok, validate_eq, hc]
  cases attrInvalid node "type" ["cn", "mn"] <;>
    cases attrInvalid node "state" ["up", "down", "unknown"] <;> rfl


/-! ## Decoding a node element -/

theorem fromXML_ok_get (node : Element) (d : D1Node) (h : D1Node.fromXML (some node) = .ok d)
    (k : String) : d.get k = if k ∈ allProps then decodedField node k else none := by
  rw [fromXML_eq] at h
  unfold decodeSpec at h
  split at h
  · cases h
  · split at h
    · cases h
    · simp only [Except.ok.injEq] at h
      rw [← h]
      exact get_filterMap_fields allProps (decodedField node) k

theorem fromXML_ok_of_valid (node : Element)
    (h1 : attrInvalid node "type" ["cn", "mn"] = false)
    (h2 : attrInvalid node "state" ["up", "down", "unknown"] = false) :
    D1Node.fromXML (some node) =
      .ok { props := allProps.filterMap (fun k => (decodedField node k).map (fun v => (k, v))) } := by
  rw [fromXML_eq]
  simp [decodeSpec, h1, h2]

theorem attrValue_of_absent (node : Element) (name : String)
    (h : node.getAttribute name = none) : attrValue node name = none := by
  simp [attrValue, h]

/-- C1, as stated, fails: a node whose `type` attribute is present with the empty value,
which is outside cn, mn, still decodes successfully, with no field set. -/
theorem C1_empty_type_decodes :
    attrPresentOutside (.mk "node" [("type", "")] []) "type" ["cn", "mn"] = true ∧
    D1Node.fromXML (some (.mk "node" [("type", "")] [])) = .ok { props := [] } := by
  decide

/-- C1, amended: `D1Node.fromXML` fails if and only if the `type` attribute is present with
a non-empty value outside cn, mn or the `state` attribute is present with a non-empty value
outside up, down, unknown. When it succeeds, `type` and `state` hold the raw attribute
string, and are unset when the attribute is absent or empty; in particular a node without a
`type` (or `state`) attribute whose other attribute is valid decodes with that field
unset. -/
theorem C1_fromXML_fails_iff (node : Element) :
    ((∃ msg, D1Node.fromXML (some node) = .error msg) ↔
      (attrInvalid node "type" ["cn", "mn"] = true ∨
        attrInvalid node "state" ["up", "down", "unknown"] = true)) ∧
    (∀ d, D1Node.fromXML (some node) = .ok d →
      d.get "type" = (attrValue node "type").map strVal ∧
      d.get "state" = (attrValue node "state").map strVal) ∧
    (node.getAttribute "type" = none →
      attrInvalid node "state" ["up", "down", "unknown"] = false →
      ∃ d, D1Node.fromXML (some node) = .ok d ∧ d.get "type" = none) ∧
    (node.getAttribute "state" = none →
      attrInvalid node "type" ["cn", "mn"] = false →
      ∃ d, D1Node.fromXML (some node) = .ok d ∧ d.get "state" = none) := by
  have hget : ∀ d, D1Node.fromXML (some node) = .ok d →
      d.get "type" = (attrValue node "type").map strVal ∧
      d.get "state" = (attrValue node "state").map strVal := by
    intro d hd
    rw [fromXML_ok_get node d hd "type", fromXML_ok_get node d hd "state"]
    exact ⟨rfl, rfl⟩
  refine ⟨?_, hget, ?_, ?_⟩
  · rw [fromXML_eq]
    unfold decodeSpec
    cases attrInvalid node "type" ["cn", "mn"] <;>
      cases attrInvalid node "state" ["up", "down", "unknown"] <;> simp
  · intro ha hs
    have ht : attrInvalid node "type" ["cn", "mn"] = false := by
      simp [attrInvalid, attrValue_of_absent node "type" ha]
    refine ⟨_, fromXML_ok_of_valid node ht hs, ?_⟩
    rw [(hget _ (fromXML_ok_of_valid node ht hs)).1, attrValue_of_absent node "type" ha]
    rfl
  · intro ha ht
    have hs : attrInvalid node "state" ["up", "down", "unknown"] = false := by
      simp [attrInvalid, attrValue_of_absent node "state" ha]
    refine ⟨_, fromXML_ok_of_valid node ht hs, ?_⟩
    rw [(hget _ (fromXML_ok_of_valid node ht hs)).2, attrValue_of_absent node "state" ha]
    rfl

/-- Witness for C1: a node with type mn and state up decodes and keeps both raw strings. -/
theorem C1_fromXML_fails_iff_witness :
    D1Node.get { props := [("type", strVal "mn"), ("state", strVal "up")] } "type" =
        some (strVal "mn") ∧
      D1Node.get { props := [("type", strVal "mn"), ("state", strVal "up")] } "state" =
        some (strVal "up") :=
  (C1_fromXML_fails_iff (.mk "node" [("type", "mn"), ("state", "up")] [])).2.1
    { props := [("type", strVal "mn"), ("state", strVal "up")] } (by decide)

/-- C2: a node rejected for its `type` attribute fails with the message that names `type`
and lists cn, mn; a node whose `type` passes and that is rejected for its `state` attribute
fails with the message that names `state` and lists up, down, unknown; there is no other
error. Each message is the field name and the allowed values joined by a comma and a
space, as the code builds it. -/
theorem C2_validation_message (node : Element) :
    (attrInvalid node "type" ["cn", "mn"] = true →
      D1Node.fromXML (some node) = .error "The value of type must be one of cn, mn") ∧
    (attrInvalid node "type" ["cn", "mn"] = false →
      attrInvalid node "state" ["up", "down", "unknown"] = true →
      D1Node.fromXML (some node) =
        .error "The value of state must be one of up, down, unknown") ∧
    (∀ msg, D1Node.fromXML (some node) = .error msg →
      (msg = "The value of type must be one of cn, mn" ∧
          attrInvalid node "type" ["cn", "mn"] = true) ∨
        (msg = "The value of state must be one of up, down, unknown" ∧
          attrInvalid node "state" ["up", "down", "unknown"] = true)) ∧
    "The value of type must be one of cn, mn" =
      "The value of " ++ "type" ++ " must be one of " ++ String.intercalate ", " ["cn", "mn"] ∧
    "The value of state must be one of up, down, unknown" =
      "The value of " ++ "state" ++ " must be one of " ++
        String.intercalate ", " ["up", "down", "unknown"] := by
  refine ⟨?_, ?_, ?_, by decide, by decide⟩
  · intro h
    rw [fromXML_eq]
    simp [decodeSpec, h]
  · intro h1 h2
    rw [fromXML_eq]
    simp [decodeSpec, h1, h2]
  · intro msg
    rw [fromXML_eq]
    unfold decodeSpec
    cases attrInvalid node "type" ["cn", "mn"] <;>
      cases attrInvalid node "state" ["up", "down", "unknown"] <;> simp <;>
      intro h <;> subst h <;> simp

/-- Witness for C2: the node with type xx is rejected with the message naming `type`. -/
theorem C2_validation_message_witness :
    D1Node.fromXML (some (.mk "node" [("type", "xx")] [])) =
      .error "The value of type must be one of cn, mn" :=
  (C2_validation_message (.mk "node" [("type", "xx")] [])).1 (by decide)


/-! ## Schedule -/

theorem schedule_push (node : Element) (parts : List String) (attr : String) :
    (if truthyOpt (node.getAttribute attr) = true then
        parts ++ [(node.getAttribute attr).getD ""]
      else parts ++ ["*"]) = parts ++ [scheduleField node attr] := by
  unfold scheduleField
  cases h : node.getAttribute attr with
  | none => simp [truthyOpt]
  | some v =>
    by_cases hv : v = ""
    · simp [truthyOpt, truthyStr, hv]
    · simp [truthyOpt, truthyStr, hv]

theorem schedule_foldl (node : Element) (attrs : List String) (parts : List String) :
    attrs.foldl (fun (parts : List String) attr =>
      if truthyOpt (node.getAttribute attr) = true then
        parts ++ [(node.getAttribute attr).getD ""]
      else parts ++ ["*"]) parts = parts ++ attrs.map (scheduleField node) := by
  induction attrs generalizing parts with
  | nil => simp
  | cons a rest ih =>
    rw [List.foldl_cons, schedule_push, ih]
    simp

/-- C3, as stated, fails: for a schedule element whose `sec` attribute is present but empty
the code returns the all-wildcard expression, while the values of the seven attributes with
an asterisk for each missing one would start with an empty field. -/
theorem C3_empty_attribute_wildcarded :
    Synchronization.parseXMLSchedule (some (.mk "schedule" [("sec", "")] [])) =
        "* * * * * * *" ∧
      String.intercalate " " (["sec", "min", "hour", "mday", "mon", "wday", "year"].map
        (scheduleFieldAsStated (.mk "schedule" [("sec", "")] []))) = " * * * * * *" := by
  decide

/-- C3, amended: for every schedule element `Synchronization.parseXMLSchedule` returns the
seven fields sec, min, hour, mday, mon, wday, year in that order, joined by single spaces,
each field being the attribute value when the attribute is present and non-empty and an
asterisk otherwise; an element carrying only hour 3 gives the expression with 3 in third
place. -/
theorem C3_parseXMLSchedule (node : Element) :
    Synchronization.parseXMLSchedule (some node) =
        scheduleField node "sec" ++ " " ++ scheduleField node "min" ++ " " ++
          scheduleField node "hour" ++ " " ++ scheduleField node "mday" ++ " " ++
          scheduleField node "mon" ++ " " ++ scheduleField node "wday" ++ " " ++
          scheduleField node "year" ∧
      Synchronization.parseXMLSchedule (some node) =
        String.intercalate " " (["sec", "min", "hour", "mday", "mon", "wday", "year"].map
          (scheduleField node)) ∧
      Synchronization.parseXMLSchedule (some (.mk "schedule" [("hour", "3")] [])) =
        "* * 3 * * * *" := by
  have h : Synchronization.parseXMLSchedule (some node) =
      String.intercalate " " (["sec", "min", "hour", "mday", "mon", "wday", "year"].map
        (scheduleField node)) := by
    unfold Synchronization.parseXMLSchedule
    simp only [schedule_foldl, List.nil_append]
  refine ⟨?_, h, by decide⟩
  rw [h]
  rfl


/-! ## Boolean coercion -/

/-- C4, as stated, fails: the `replicate` attribute is present with the empty string, a
source string other than true, yet the decoded node has no `replicate` field instead of
the boolean false. -/
theorem C4_empty_replicate_absent :
    (Element.mk "node" [("replicate", "")] []).getAttribute "replicate" = some "" ∧
      D1Node.fromXML (some (.mk "node" [("replicate", "")] [])) = .ok { props := [] } ∧
      D1Node.get { props := [] } "replicate" ≠ some (.atom (.bool false)) := by
  decide

/-- C4, amended: in a decoded node, `replicate` and `synchronize` are the boolean coercion
of the attribute of that name when it is present and non-empty, and `readOnlyMode` is the
boolean coercion of the text of the last `property` child with key read_only_mode and
non-empty text; the field is absent when there is no such source or the source is empty.
The coercion gives true for the text true and false for every other text. -/
theorem C4_boolean_coercion (node : Element) (d : D1Node)
    (h : D1Node.fromXML (some node) = .ok d) :
    d.get "replicate" = (attrValue node "replicate").map boolVal ∧
      d.get "synchronize" = (attrValue node "synchronize").map boolVal ∧
      d.get "readOnlyMode" = (propertyText node "read_only_mode").map boolVal ∧
      boolVal "true" = .atom (.bool true) ∧
      (∀ s, s ≠ "true" → boolVal s = .atom (.bool false)) ∧
      boolVal "false" = .atom (.bool false) ∧ boolVal "TRUE" = .atom (.bool false) ∧
      boolVal "1" = .atom (.bool false) := by
  refine ⟨?_, ?_, ?_, by decide, ?_, by decide, by decide, by decide⟩
  · rw [fromXML_ok_get node d h "replicate"]; rfl
  · rw [fromXML_ok_get node d h "synchronize"]; rfl
  · rw [fromXML_ok_get node d h "readOnlyMode"]; rfl
  · intro s hs
    simp [boolVal, hs]

/-- Witness for C4: replicate false, synchronize true and a read_only_mode property with the
text TRUE decode to false, true and false. -/
theorem C4_boolean_coercion_witness :
    D1Node.get { props := [("replicate", .atom (.bool false)),
        ("synchronize", .atom (.bool true)), ("readOnlyMode", .atom (.bool false))] }
      "readOnlyMode" =
      (propertyText (.mk "node" [("replicate", "false"), ("synchronize", "true")]
        [.element (.mk "property" [("key", "read_only_mode")] [.text "TRUE"])])
        "read_only_mode").map boolVal :=
  (C4_boolean_coercion (.mk "node" [("replicate", "false"), ("synchronize", "true")]
    [.element (.mk "property" [("key", "read_only_mode")] [.text "TRUE"])])
    { props := [("replicate", .atom (.bool false)), ("synchronize", .atom (.bool true)),
        ("readOnlyMode", .atom (.bool false))] } (by decide)).2.2.1


/-! ## Date coercion -/

theorem matchSeconds_some (l g1 g2 rest : List Char) (h : matchSeconds l = some (g1, g2, rest)) :
    ∃ h1 h2 m1 m2 s f1 f2 f3 : Char,
      h1.isDigit = true ∧ h2.isDigit = true ∧ m1.isDigit = true ∧ m2.isDigit = true ∧
      s.isDigit = true ∧ f1.isDigit = true ∧ f2.isDigit = true ∧ f3.isDigit = true ∧
      l = ['T', h1, h2, ':', m1, m2, ':', s, '.', f1, f2, f3, 'Z'] ++ rest ∧
      g1 = [h1, h2, ':', m1, m2] ∧ g2 = [s, '.', f1, f2, f3, 'Z'] := by
  unfold matchSeconds at h
  split at h
  · next h1 h2 m1 m2 s f1 f2 f3 rest2 =>
    split at h
    · next hd =>
      simp only [Option.some.injEq, Prod.mk.injEq] at h
      simp only [Bool.and_eq_true] at hd
      obtain ⟨⟨⟨⟨⟨⟨⟨d1, d2⟩, d3⟩, d4⟩, d5⟩, d6⟩, d7⟩, d8⟩ := hd
      refine ⟨h1, h2, m1, m2, s, f1, f2, f3, d1, d2, d3, d4, d5, d6, d7, d8, ?_, h.1.symm,
        h.2.1.symm⟩
      rw [← h.2.2]
      rfl
    · simp at h
  · simp at h

theorem replaceSeconds_of_match (l : List Char)
    (h : ∃ i, (matchSeconds (l.drop i)).isSome = true) :
    ∃ pre g1 g2 rest, matchSeconds (l.drop pre.length) = some (g1, g2, rest) ∧
      l = pre ++ l.drop pre.length ∧
      (∀ j, j < pre.length → matchSeconds (l.drop j) = none) ∧
      replaceSeconds l = pre ++ ('T' :: g1 ++ ':' :: '0' :: g2 ++ rest) := by
  induction l with
  | nil =>
    obtain ⟨i, hi⟩ := h
    simp [matchSeconds] at hi
  | cons c cs ih =>
    cases hm : matchSeconds (c :: cs) with
    | some r =>
      obtain ⟨g1, g2, rest⟩ := r
      refine ⟨[], g1, g2, rest, ?_, ?_, ?_, ?_⟩
      · simpa using hm
      · simp
      · intro j hj
        simp at hj
      · simp [replaceSeconds, hm]
    | none =>
      obtain ⟨i, hi⟩ := h
      cases i with
      | zero =>
        simp only [List.drop_zero] at hi
        rw [hm] at hi
        simp at hi
      | succ i =>
        simp only [List.drop_succ_cons] at hi
        obtain ⟨pre, g1, g2, rest, h1, h2, h3, h4⟩ := ih ⟨i, hi⟩
        refine ⟨c :: pre, g1, g2, rest, ?_, ?_, ?_, ?_⟩
        · simpa using h1
        · simp only [List.length_cons, List.drop_succ_cons, List.cons_append]
          rw [← h2]
        · intro j hj
          cases j with
          | zero => simpa using hm
          | succ j =>
            simp only [List.drop_succ_cons]
            exact h3 j (by simpa using hj)
        · simp [replaceSeconds, hm, h4]

theorem replaceSeconds_of_no_match (l : List Char)
    (h : ∀ i, matchSeconds (l.drop i) = none) : replaceSeconds l = l := by
  induction l with
  | nil => rfl
  | cons c cs ih =>
    have h0 := h 0
    simp only [List.drop_zero] at h0
    have hs : ∀ i, matchSeconds (cs.drop i) = none := by
      intro i
      have := h (i + 1)
      simpa using this
    simp [replaceSeconds, h0, ih hs]

theorem matchSeconds_head (l : List Char) (h : l.head? ≠ some 'T') : matchSeconds l = none := by
  unfold matchSeconds
  split
  · simp at h
  · rfl

theorem replaceSeconds_of_no_T (l : List Char) (h : 'T' ∉ l) : replaceSeconds l = l := by
  induction l with
  | nil => rfl
  | cons c cs ih =>
    simp only [List.mem_cons, not_or] at h
    have hc : matchSeconds (c :: cs) = none := by
      apply matchSeconds_head
      simp only [List.head?_cons, ne_eq, Option.some.injEq]
      exact fun e => h.1 e.symm
    simp [replaceSeconds, hc, ih h.2]

theorem replaceSeconds_append_of_no_T (pre l : List Char) (h : 'T' ∉ pre) :
    replaceSeconds (pre ++ l) = pre ++ replaceSeconds l := by
  induction pre with
  | nil => rfl
  | cons c cs ih =>
    simp only [List.mem_cons, not_or] at h
    have hc : matchSeconds (c :: (cs ++ l)) = none := by
      apply matchSeconds_head
      simp only [List.head?_cons, ne_eq, Option.some.injEq]
      exact fun e => h.1 e.symm
    simp [replaceSeconds, hc, ih h.2]

theorem parseDate_of_ne (dateStr : String) (h : dateStr.data ≠ []) :
    parseDate dateStr = .date (String.mk (replaceSeconds dateStr.data)) := by
  have : dateStr ≠ "" := by
    intro e
    apply h
    rw [e]
  simp [parseDate, truthyStr, this]

theorem matchSeconds_of_pattern (l : List Char) (h : BeginsWithShortSeconds l) :
    (matchSeconds l).isSome = true := by
  obtain ⟨h1, h2, m1, m2, s, f1, f2, f3, rest, d1, d2, d3, d4, d5, d6, d7, d8, rfl⟩ := h
  simp [matchSeconds, d1, d2, d3, d4, d5, d6, d7, d8]

theorem matchSeconds_none_of_no_pattern (l : List Char) (h : ¬ BeginsWithShortSeconds l) :
    matchSeconds l = none := by
  cases hm : matchSeconds l with
  | none => rfl
  | some r =>
    obtain ⟨g1, g2, rest⟩ := r
    obtain ⟨h1, h2, m1, m2, s, f1, f2, f3, d1, d2, d3, d4, d5, d6, d7, d8, hl, _, _⟩ :=
      matchSeconds_some l g1 g2 rest hm
    exact absurd ⟨h1, h2, m1, m2, s, f1, f2, f3, rest, d1, d2, d3, d4, d5, d6, d7, d8, hl⟩ h

theorem replaceSeconds_append_of_no_pattern (pre l : List Char)
    (h : ∀ j, j < pre.length → ¬ BeginsWithShortSeconds ((pre ++ l).drop j)) :
    replaceSeconds (pre ++ l) = pre ++ replaceSeconds l := by
  induction pre with
  | nil => rfl
  | cons c cs ih =>
    have h0 : matchSeconds (c :: (cs ++ l)) = none :=
      matchSeconds_none_of_no_pattern _ (h 0 (by simp))
    have hs : ∀ j, j < cs.length → ¬ BeginsWithShortSeconds ((cs ++ l).drop j) := by
      intro j hj
      have := h (j + 1) (by simpa using hj)
      simpa using this
    simp [replaceSeconds, h0, ih hs]

/-- C5: for every date string that contains the pattern T, two digits, colon, two digits,
colon, one digit, dot, three digits, Z, `parseDate` yields the `Date` of the text in which
a zero is put before the seconds digit of the leftmost occurrence, the rest being
unchanged; a non-empty string without the pattern is handed over unchanged, which covers
a time with two-digit seconds standing between texts that hold no letter T. The two
example strings of the specification decode to the same `Date`. -/
theorem C5_parseDate_pads_seconds :
    (∀ (pre post : List Char) (h1 h2 m1 m2 s f1 f2 f3 : Char),
      h1.isDigit = true → h2.isDigit = true → m1.isDigit = true → m2.isDigit = true →
      s.isDigit = true → f1.isDigit = true → f2.isDigit = true → f3.isDigit = true →
      (∀ j, j < pre.length → ¬ BeginsWithShortSeconds
        ((pre ++ ['T', h1, h2, ':', m1, m2, ':', s, '.', f1, f2, f3, 'Z'] ++ post).drop j)) →
      parseDate (String.mk
          (pre ++ ['T', h1, h2, ':', m1, m2, ':', s, '.', f1, f2, f3, 'Z'] ++ post)) =
        .date (String.mk
          (pre ++ ['T', h1, h2, ':', m1, m2, ':', '0', s, '.', f1, f2, f3, 'Z'] ++ post))) ∧
    (∀ dateStr : String, (∃ j, BeginsWithShortSeconds (dateStr.data.drop j)) →
      ∃ (pre post : List Char) (h1 h2 m1 m2 s f1 f2 f3 : Char),
        h1.isDigit = true ∧ h2.isDigit = true ∧ m1.isDigit = true ∧ m2.isDigit = true ∧
        s.isDigit = true ∧ f1.isDigit = true ∧ f2.isDigit = true ∧ f3.isDigit = true ∧
        dateStr.data =
          pre ++ ['T', h1, h2, ':', m1, m2, ':', s, '.', f1, f2, f3, 'Z'] ++ post ∧
        (∀ j, j < pre.length → ¬ BeginsWithShortSeconds (dateStr.data.drop j)) ∧
        parseDate dateStr = .date (String.mk
          (pre ++ ['T', h1, h2, ':', m1, m2, ':', '0', s, '.', f1, f2, f3, 'Z'] ++ post))) ∧
    (∀ dateStr : String, dateStr ≠ "" →
      (∀ j, ¬ BeginsWithShortSeconds (dateStr.data.drop j)) →
      parseDate dateStr = .date dateStr) ∧
    (∀ (pre post : List Char) (h1 h2 m1 m2 s1 s2 f1 f2 f3 : Char),
      'T' ∉ pre → 'T' ∉ post →
      h1.isDigit = true → h2.isDigit = true → m1.isDigit = true → m2.isDigit = true →
      s1.isDigit = true → s2.isDigit = true → f1.isDigit = true → f2.isDigit = true →
      f3.isDigit = true →
      parseDate (String.mk
          (pre ++ ['T', h1, h2, ':', m1, m2, ':', s1, s2, '.', f1, f2, f3, 'Z'] ++ post)) =
        .date (String.mk
          (pre ++ ['T', h1, h2, ':', m1, m2, ':', s1, s2, '.', f1, f2, f3, 'Z'] ++ post))) ∧
    parseDate "2012-07-23T00:00:0.000Z" = .date "2012-07-23T00:00:00.000Z" ∧
    parseDate "2012-07-23T00:00:00.000Z" = .date "2012-07-23T00:00:00.000Z" := by
  refine ⟨?_, ?_, ?_, ?_, by decide, by decide⟩
  · intro pre post h1 h2 m1 m2 s f1 f2 f3 d1 d2 d3 d4 d5 d6 d7 d8 hleft
    have hne : (String.mk (pre ++ ['T', h1, h2, ':', m1, m2, ':', s, '.', f1, f2, f3, 'Z'] ++
        post)).data ≠ [] := by
      simp
    rw [parseDate_of_ne _ hne]
    simp only [List.append_assoc] at hleft ⊢
    rw [replaceSeconds_append_of_no_pattern pre _ hleft]
    simp [replaceSeconds, matchSeconds, d1, d2, d3, d4, d5, d6, d7, d8]
  · intro dateStr h
    obtain ⟨j, hj⟩ := h
    obtain ⟨pre, g1, g2, rest, hm, hl, hfirst, hr⟩ :=
      replaceSeconds_of_match dateStr.data ⟨j, matchSeconds_of_pattern _ hj⟩
    obtain ⟨h1, h2, m1, m2, s, f1, f2, f3, d1, d2, d3, d4, d5, d6, d7, d8, hd, e1, e2⟩ :=
      matchSeconds_some _ _ _ _ hm
    refine ⟨pre, rest, h1, h2, m1, m2, s, f1, f2, f3, d1, d2, d3, d4, d5, d6, d7, d8, ?_,
      ?_, ?_⟩
    · rw [List.append_assoc, ← hd]
      exact hl
    · intro i hi hp
      have := matchSeconds_of_pattern _ hp
      rw [hfirst i hi] at this
      simp at this
    · have hne : dateStr.data ≠ [] := by
        intro e
        rw [e] at hl
        rw [e] at hd
        simp at hd
      rw [parseDate_of_ne dateStr hne, hr, e1, e2]
      simp
  · intro dateStr hne h
    have hne2 : dateStr.data ≠ [] := by
      intro e
      apply hne
      cases dateStr
      simp only at e
      rw [e]
    rw [parseDate_of_ne dateStr hne2, replaceSeconds_of_no_match _
      (fun i => matchSeconds_none_of_no_pattern _ (h i))]
  · intro pre post h1 h2 m1 m2 s1 s2 f1 f2 f3 hpre hpost d1 d2 d3 d4 d5 d6 d7 d8 d9
    have hT : ∀ c : Char, c.isDigit = true → c ≠ 'T' := by
      intro c hc e
      rw [e] at hc
      exact absurd hc (by decide)
    have hdot : s2 ≠ '.' := by
      intro e
      rw [e] at d6
      exact absurd d6 (by decide)
    have htail : 'T' ∉ (h1 :: h2 :: ':' :: m1 :: m2 :: ':' :: s1 :: s2 :: '.' :: f1 :: f2 ::
        f3 :: 'Z' :: post) := by
      simp only [List.mem_cons, not_or]
      exact ⟨(hT h1 d1).symm, (hT h2 d2).symm, by decide, (hT m1 d3).symm, (hT m2 d4).symm,
        by decide, (hT s1 d5).symm, (hT s2 d6).symm, by decide, (hT f1 d7).symm,
        (hT f2 d8).symm, (hT f3 d9).symm, by decide, hpost⟩
    have hcore : matchSeconds ('T' :: h1 :: h2 :: ':' :: m1 :: m2 :: ':' :: s1 :: s2 :: '.' ::
        f1 :: f2 :: f3 :: 'Z' :: post) = none := by
      unfold matchSeconds
      split
      · next heq =>
        simp only [List.cons.injEq] at heq
        exact absurd heq.2.2.2.2.2.2.2.2.1 hdot
      · rfl
    have hne : (String.mk (pre ++ ['T', h1, h2, ':', m1, m2, ':', s1, s2, '.', f1, f2, f3,
        'Z'] ++ post)).data ≠ [] := by
      simp
    rw [parseDate_of_ne _ hne]
    simp only [List.append_assoc, List.cons_append, List.nil_append]
    rw [replaceSeconds_append_of_no_T _ _ hpre]
    rw [replaceSeconds, hcore]
    simp only []
    rw [replaceSeconds_of_no_T _ htail]

/-- Witness for C5: a date string of the registry, other than the one of the unit test,
with the pattern after its tenth character and nothing like it before. -/
theorem C5_parseDate_pads_seconds_witness :
    parseDate "2012-07-23T12:34:5.678Z" = .date "2012-07-23T12:34:05.678Z" :=
  C5_parseDate_pads_seconds.1 "2012-07-23".data [] '1' '2' '3' '4' '5' '6' '7' '8'
    (by decide) (by decide) (by decide) (by decide) (by decide) (by decide) (by decide)
    (by decide) (by
      intro j hj h
      obtain ⟨_, _, _, _, _, _, _, _, _, _, _, _, _, _, _, _, _, e⟩ := h
      have hj2 : j < 10 := hj
      interval_cases j <;> simp at e)


/-! ## Listing -/

theorem parseXML_not_exported (parseFromString : String → Document) :
    (parseXMLExports parseFromString "parseXML").isSome = false := by
  unfold parseXMLExports
  rw [if_neg (by decide)]
  rfl

theorem listNodes_of_resolved (CNs : List (String × String))
    (fetchText : String → String → List (String × String) → String)
    (parseFromString : String → Document) (cn base : String)
    (h : getBaseURL CNs cn 2 = .ok base) :
    listNodes CNs fetchText parseFromString cn = .error "parseXML is not a function" := by
  unfold listNodes parseXMLExports
  rw [h, if_neg (by decide)]
  rfl

theorem listNodes_of_unresolved (CNs : List (String × String))
    (fetchText : String → String → List (String × String) → String)
    (parseFromString : String → Document) (cn msg : String)
    (h : getBaseURL CNs cn 2 = .error msg) :
    listNodes CNs fetchText parseFromString cn = .error msg := by
  unfold listNodes
  rw [h]
  rfl

/-- C6 at the failing input: with the key PROD in the table and a response that holds
four node elements, which the parser of the environment turns into the document with these
four elements, `listNodes` returns no entity: the call of `parseXML`, a name that
`utils/parseXML.js` does not export, fails after the request. Whatever the table, the
network, the parser and the key, `listNodes` returns no list. -/
theorem C6_listNodes_returns_no_list :
    listNodes [("PROD", "https://cn.dataone.org/cn")]
        (fun _ _ _ => "<nodeList><node><identifier>urn:node:CN</identifier></node>" ++
          "<node><identifier>urn:node:KNB</identifier></node>" ++
          "<node><identifier>urn:node:ESA</identifier></node>" ++
          "<node><identifier>urn:node:SANPARKS</identifier></node></nodeList>")
        (fun _ => Document.mk (.mk "nodeList" []
          [.element (.mk "node" [] [.element (.mk "identifier" [] [.text "urn:node:CN"])]),
           .element (.mk "node" [] [.element (.mk "identifier" [] [.text "urn:node:KNB"])]),
           .element (.mk "node" [] [.element (.mk "identifier" [] [.text "urn:node:ESA"])]),
           .element (.mk "node" []
             [.element (.mk "identifier" [] [.text "urn:node:SANPARKS"])])]))
        "PROD" = .error "parseXML is not a function" ∧
      ∀ (CNs : List (String × String))
        (fetchText : String → String → List (String × String) → String)
        (parseFromString : String → Document) (cn : String),
        (listNodes CNs fetchText parseFromString cn).toOption = none := by
  refine ⟨by decide, ?_⟩
  intro CNs fetchText parseFromString cn
  cases h : getBaseURL CNs cn 2 with
  | error msg => rw [listNodes_of_unresolved CNs fetchText parseFromString cn msg h]; rfl
  | ok base => rw [listNodes_of_resolved CNs fetchText parseFromString cn base h]; rfl

/-- C7 at the failing input: the only node element of the response passes validation and
decodes, yet the listing does not return the complete list, it fails at the call of
`parseXML`; and for a response whose node element fails validation the listing fails with
that same `TypeError`, not with the validation error. -/
theorem C7_complete_list_not_returned :
    D1Node.fromXML (some (.mk "node" [("type", "mn")] [])) =
        .ok { props := [("type", strVal "mn")] } ∧
      listNodes [("PROD", "https://cn.dataone.org/cn")] (fun _ _ _ => "")
        (fun _ => Document.mk (.mk "nodeList" [] [.element (.mk "node" [("type", "mn")] [])]))
        "PROD" = .error "parseXML is not a function" ∧
      D1Node.fromXML (some (.mk "node" [("type", "xx")] [])) =
        .error "The value of type must be one of cn, mn" ∧
      listNodes [("PROD", "https://cn.dataone.org/cn")] (fun _ _ _ => "")
        (fun _ => Document.mk (.mk "nodeList" [] [.element (.mk "node" [("type", "xx")] [])]))
        "PROD" = .error "parseXML is not a function" := by
  decide


/-! ## Presence of fields -/

theorem decodedField_nonempty (node : Element) (k : String) (v : JSVal)
    (h : decodedField node k = some v) :
    v ≠ .atom .null ∧ v ≠ .atom .undefined ∧ v ≠ .atom (.str "") ∧ v ≠ .strings [] ∧
      v ≠ .services [] := by
  unfold decodedField at h
  split at h
  all_goals first
    | (obtain ⟨s, hs, rfl⟩ := Option.map_eq_some'.1 h
       have h1 := simpleText_ne _ _ _ hs
       simp [strVal, h1])
    | (obtain ⟨s, hs, rfl⟩ := Option.map_eq_some'.1 h
       have h1 := attrValue_ne _ _ _ hs
       simp [strVal, boolVal, h1])
    | (obtain ⟨s, hs, rfl⟩ := Option.map_eq_some'.1 h
       have h1 := propertyTextIn_ne _ _ _ hs
       simp [strVal, boolVal, dateVal, h1])
    | (obtain ⟨s, _, rfl⟩ := Option.map_eq_some'.1 h
       simp)
    | (split at h
       · next hl =>
         simp only [Option.some.injEq] at h
         rw [← h]
         simp only [ne_eq, JSVal.services.injEq, List.map_eq_nil_iff, reduceCtorEq,
           not_false_eq_true, true_and]
         intro e
         rw [e] at hl
         simp at hl
       · simp at h)
    | simp at h

theorem simpleText_isSome_of_at_most_one (node : Element) (t : String)
    (h : (node.scopeChildren t).length ≤ 1) :
    (simpleText node t).isSome = (node.scopeChildren t).any (fun c => c.textContent ≠ "") := by
  unfold simpleText Element.scopeChild
  cases hl : node.scopeChildren t with
  | nil => rfl
  | cons c rest =>
    cases rest with
    | nil =>
      by_cases hc : c.textContent = "" <;> simp [hc]
    | cons c2 rest2 =>
      rw [hl] at h
      simp at h

set_option maxHeartbeats 4000000 in
theorem observed_eq (node : Element) (k : String)
    (hs : k = "subjects" → (node.scopeChildren "subject").length ≤ 1)
    (hc : k = "contactSubjects" → (node.scopeChildren "contactSubject").length ≤ 1) :
    (if k ∈ allProps then decodedField node k else none).isSome = observed node k := by
  by_cases h1 : k = "subjects"
  · subst h1
    have e := simpleText_isSome_of_at_most_one node "subject" (hs rfl)
    simp only [allProps, requiredProps, optionalProps, decodedField, observed, simpleNodes,
      List.cons_append, List.nil_append, List.mem_cons, List.mem_singleton, List.not_mem_nil,
      Option.isSome_map']
    simpa using e
  by_cases h2 : k = "contactSubjects"
  · subst h2
    have e := simpleText_isSome_of_at_most_one node "contactSubject" (hc rfl)
    simp only [allProps, requiredProps, optionalProps, decodedField, observed, simpleNodes,
      List.cons_append, List.nil_append, List.mem_cons, List.mem_singleton, List.not_mem_nil,
      Option.isSome_map']
    simpa using e
  by_cases hk : k ∈ allProps
  · simp only [hk, if_true]
    simp only [allProps, requiredProps, optionalProps, List.cons_append, List.nil_append,
      List.mem_cons, List.mem_singleton, List.not_mem_nil, or_false] at hk
    rcases hk with rfl | rfl | rfl | rfl | rfl | rfl | rfl | rfl | rfl | rfl | rfl | rfl | rfl |
      rfl | rfl | rfl | rfl | rfl | rfl | rfl | rfl | rfl | rfl
    all_goals first
      | exact absurd rfl h1
      | exact absurd rfl h2
      | skip
    all_goals simp only [decodedField, observed, simpleNodes, nodeAttributes, nodePropKeyTable,
      List.mem_cons, List.mem_singleton, List.not_mem_nil, List.find?, Option.isSome_map']
    all_goals first
      | simp; done
      | (by_cases hl : 0 < (node.scopeChildren "service").length <;> simp [hl])
  · simp only [hk, if_false]
    simp only [allProps, requiredProps, optionalProps, List.cons_append, List.nil_append,
      List.mem_cons, List.mem_singleton, List.not_mem_nil, or_false, not_or] at hk
    obtain ⟨k1, k2, k3, k4, k5, k6, k7, k8, k9, k10, k11, k12, k13, k14, k15, k16, k17, k18,
      k19, k20, k21, k22, k23⟩ := hk
    have e : ∀ (a b : String), ¬ a = b → ¬ b = a := fun a b h e => h e.symm
    simp [observed, simpleNodes, nodeAttributes, nodePropKeyTable, List.find?, k1, k2, k3, k4,
      k5, k6, k7, k8, k9, k10, k11, k12, k13, k14, k15, k16, k17, k18, k19, k20, k21, k22, k23,
      e _ _ k14, e _ _ k15, e _ _ k16, e _ _ k17, e _ _ k18, e _ _ k19, e _ _ k20, e _ _ k21,
      e _ _ k22, e _ _ k23]

/-- C8, as stated, fails: the node element carries a `replicate` attribute, so the field
is observed in the source, but its value is empty and the decoded node has no `replicate`
field. -/
theorem C8_empty_attribute_not_set :
    ((Element.mk "node" [("replicate", "")] []).getAttribute "replicate").isSome = true ∧
      D1Node.fromXML (some (.mk "node" [("replicate", "")] [])) = .ok { props := [] } ∧
      (D1Node.get { props := [] } "replicate").isSome = false := by
  decide

/-- C8, amended: in a decoded node a field is present if and only if it was observed with
a non-empty value: the first direct child of that name has non-empty text, the node
attribute is present and non-empty, a direct `property` child with the mapped key has
non-empty text, or a direct `service`, `nodeReplicationPolicy` or `synchronization`
child exists; for `subjects` and `contactSubjects` this is stated of a node element with
at most one direct `subject`, respectively `contactSubject`, child, and says that this
child has non-empty text. No field ever holds null, undefined, the empty string or an empty
list, and an empty node element decodes to a node with no field set. -/
theorem C8_field_present_iff_observed (node : Element) (d : D1Node)
    (h : D1Node.fromXML (some node) = .ok d) :
    (∀ k, (k = "subjects" → (node.scopeChildren "subject").length ≤ 1) →
        (k = "contactSubjects" → (node.scopeChildren "contactSubject").length ≤ 1) →
        (d.get k).isSome = observed node k) ∧
      (∀ k v, d.get k = some v →
        v ≠ .atom .null ∧ v ≠ .atom .undefined ∧ v ≠ .atom (.str "") ∧ v ≠ .strings [] ∧
          v ≠ .services []) ∧
      D1Node.fromXML (some (.mk "node" [] [])) = .ok { props := [] } := by
  refine ⟨?_, ?_, by decide⟩
  · intro k hs hc
    rw [fromXML_ok_get node d h k]
    exact observed_eq node k hs hc
  · intro k v hv
    rw [fromXML_ok_get node d h k] at hv
    by_cases hk : k ∈ allProps
    · simp only [hk, if_true] at hv
      exact decodedField_nonempty node k v hv
    · simp [hk] at hv

/-- Witness for C8: a node with a name child and one subject child decodes to a node with
`name` and `subjects`, the two fields observed. -/
theorem C8_field_present_iff_observed_witness :
    (D1Node.get { props := [("name", strVal "cn"), ("subjects", .strings ["CN=a"])] }
        "subjects").isSome =
      observed (.mk "node" [] [.element (.mk "name" [] [.text "cn"]),
        .element (.mk "subject" [] [.text "CN=a"])]) "subjects" ∧
    (D1Node.get { props := [("name", strVal "cn"), ("subjects", .strings ["CN=a"])] }
        "description").isSome =
      observed (.mk "node" [] [.element (.mk "name" [] [.text "cn"]),
        .element (.mk "subject" [] [.text "CN=a"])]) "description" :=
  ⟨(C8_field_present_iff_observed (.mk "node" [] [.element (.mk "name" [] [.text "cn"]),
      .element (.mk "subject" [] [.text "CN=a"])])
      { props := [("name", strVal "cn"), ("subjects", .strings ["CN=a"])] } (by decide)).1
      "subjects" (fun _ => by decide) (fun _ => by decide),
    (C8_field_present_iff_observed (.mk "node" [] [.element (.mk "name" [] [.text "cn"]),
      .element (.mk "subject" [] [.text "CN=a"])])
      { props := [("name", strVal "cn"), ("subjects", .strings ["CN=a"])] } (by decide)).1
      "description" (fun e => absurd e (by decide)) (fun e => absurd e (by decide))⟩


/-! ## String fields -/

theorem simpleText_source (node : Element) (k s : String) (h : simpleText node k = some s) :
    ∃ c, node.scopeChild k = some c ∧ c.textContent = s := by
  unfold simpleText at h
  split at h
  · next c hc =>
    split at h
    · simp at h
    · simp only [Option.some.injEq] at h
      exact ⟨c, hc, h⟩
  · simp at h

theorem attrValue_source (node : Element) (k s : String) (h : attrValue node k = some s) :
    node.getAttribute k = some s := by
  unfold attrValue at h
  split at h
  · next v hv =>
    split at h
    · simp at h
    · simp only [Option.some.injEq] at h
      rw [hv, h]
  · simp at h

theorem propertyTextIn_source (l : List Element) (key s : String)
    (h : propertyTextIn l key = some s) :
    ∃ e ∈ l, e.getAttribute "key" = some key ∧ e.textContent = s := by
  unfold propertyTextIn at h
  cases hl : (l.filter (isPropertyFor key)).getLast? with
  | none => rw [hl] at h; simp at h
  | some e =>
    rw [hl] at h
    simp only [Option.map_some', Option.some.injEq] at h
    have hm := List.mem_of_getLast?_eq_some hl
    rw [List.mem_filter] at hm
    have hp := hm.2
    simp only [isPropertyFor, Bool.and_eq_true, decide_eq_true_eq] at hp
    exact ⟨e, hm.1, hp.1, h⟩

/-- C9: in a decoded node each string-typed field equals its source string character for
character: identifier, name, description and baseURL are the text content of the first
child of that name, type and state are the attribute value, and metacatVersion,
upgradeStatus, infoURL, logoURL, operationalStatus and location are the text of a
`property` child with the mapped key; the value stored is the string itself. -/
theorem C9_string_fields_verbatim (node : Element) (d : D1Node)
    (h : D1Node.fromXML (some node) = .ok d) :
    (∀ k ∈ simpleNodes, d.get k = (simpleText node k).map strVal) ∧
      (∀ k ∈ ["type", "state"], d.get k = (attrValue node k).map strVal) ∧
      (∀ p ∈ [("metacat_version", "metacatVersion"), ("upgrade_status", "upgradeStatus"),
          ("CN_info_url", "infoURL"), ("CN_logo_url", "logoURL"),
          ("CN_operational_status", "operationalStatus"), ("CN_location_lonlat", "location")],
        d.get p.2 = (propertyText node p.1).map strVal) ∧
      (∀ k s, simpleText node k = some s →
        ∃ c, node.scopeChild k = some c ∧ c.textContent = s) ∧
      (∀ k s, attrValue node k = some s → node.getAttribute k = some s) ∧
      (∀ key s, propertyText node key = some s →
        ∃ e ∈ node.scopeChildren "property",
          e.getAttribute "key" = some key ∧ e.textContent = s) ∧
      (∀ s, strVal s = .atom (.str s)) := by
  refine ⟨?_, ?_, ?_, simpleText_source node, attrValue_source node, ?_, fun _ => rfl⟩
  · intro k hk
    rw [fromXML_ok_get node d h k]
    simp only [simpleNodes, List.mem_cons, List.mem_singleton, List.not_mem_nil,
      or_false] at hk
    rcases hk with rfl | rfl | rfl | rfl <;> rfl
  · intro k hk
    rw [fromXML_ok_get node d h k]
    simp only [List.mem_cons, List.mem_singleton, List.not_mem_nil, or_false] at hk
    rcases hk with rfl | rfl <;> rfl
  · intro p hp
    rw [fromXML_ok_get node d h p.2]
    simp only [List.mem_cons, List.mem_singleton, List.not_mem_nil, or_false] at hp
    rcases hp with rfl | rfl | rfl | rfl | rfl | rfl <;> rfl
  · intro key s hs
    exact propertyTextIn_source _ key s hs

/-- Witness for C9: an identifier child with surrounding blanks is kept as it is. -/
theorem C9_string_fields_verbatim_witness :
    D1Node.get { props := [("identifier", strVal " urn:node:CN ")] } "identifier" =
      (simpleText (.mk "node" [] [.element (.mk "identifier" [] [.text " urn:node:CN "])])
        "identifier").map strVal :=
  (C9_string_fields_verbatim
    (.mk "node" [] [.element (.mk "identifier" [] [.text " urn:node:CN "])])
    { props := [("identifier", strVal " urn:node:CN ")] } (by decide)).1 "identifier"
    (by decide)


/-! ## Property elements -/

theorem scopeChildren_insert_other (tag : String) (attrs : List (String × String))
    (pre post : List XNode) (e : Element) (name : String) (h : e.tagName ≠ name) :
    (Element.mk tag attrs (pre ++ .element e :: post)).scopeChildren name =
      (Element.mk tag attrs (pre ++ post)).scopeChildren name := by
  simp [Element.scopeChildren, Element.children, Element.childNodes, List.filterMap_append,
    List.filter_append, XNode.asElement, List.filter_cons, h]

theorem scopeChildren_insert_same (tag : String) (attrs : List (String × String))
    (pre post : List XNode) (e : Element) :
    (Element.mk tag attrs (pre ++ .element e :: post)).scopeChildren e.tagName =
        (Element.mk tag attrs pre).scopeChildren e.tagName ++
          e :: (Element.mk tag attrs post).scopeChildren e.tagName ∧
      (Element.mk tag attrs (pre ++ post)).scopeChildren e.tagName =
        (Element.mk tag attrs pre).scopeChildren e.tagName ++
          (Element.mk tag attrs post).scopeChildren e.tagName := by
  simp [Element.scopeChildren, Element.children, Element.childNodes, List.filterMap_append,
    List.filter_append, XNode.asElement, List.filter_cons]

theorem propertyTextIn_insert_false (A B : List Element) (e : Element) (key : String)
    (h : isPropertyFor key e = false) :
    propertyTextIn (A ++ e :: B) key = propertyTextIn (A ++ B) key := by
  simp [propertyTextIn, List.filter_append, List.filter_cons, h]

theorem propertyTextIn_insert_last (A B : List Element) (e : Element) (key : String)
    (h : isPropertyFor key e = true) (hB : ∀ c ∈ B, isPropertyFor key c = false) :
    propertyTextIn (A ++ e :: B) key = some e.textContent := by
  have hf : B.filter (isPropertyFor key) = [] := by
    rw [List.filter_eq_nil_iff]
    intro c hc
    simp [hB c hc]
  simp [propertyTextIn, List.filter_append, List.filter_cons, h, hf]

theorem propertyTextIn_insert_some (A B : List Element) (e : Element) (key : String)
    (h : isPropertyFor key e = true) : (propertyTextIn (A ++ e :: B) key).isSome = true := by
  have hne : (A ++ e :: B).filter (isPropertyFor key) ≠ [] := by
    intro hnil
    rw [List.filter_eq_nil_iff] at hnil
    exact hnil e (by simp) h
  unfold propertyTextIn
  cases hl : ((A ++ e :: B).filter (isPropertyFor key)).getLast? with
  | none =>
    rw [List.getLast?_eq_none_iff] at hl
    exact absurd hl hne
  | some c => rfl

theorem decodedField_congr (node node0 : Element) (k : String)
    (hs : ∀ name, name ≠ "property" → node.scopeChildren name = node0.scopeChildren name)
    (ha : ∀ name, node.getAttribute name = node0.getAttribute name)
    (hp : ∀ key, (key, k) ∈ nodePropKeyTable → propertyText node key = propertyText node0 key) :
    decodedField node k = decodedField node0 k := by
  have s1 := hs "identifier" (by decide)
  have s2 := hs "name" (by decide)
  have s3 := hs "description" (by decide)
  have s4 := hs "baseURL" (by decide)
  have s5 := hs "subject" (by decide)
  have s6 := hs "contactSubject" (by decide)
  have s7 := hs "service" (by decide)
  have s8 := hs "synchronization" (by decide)
  have s9 := hs "nodeReplicationPolicy" (by decide)
  unfold decodedField
  split
  all_goals first
    | rfl
    | simp only [simpleText, Element.scopeChild, attrValue, ha, s1, s2, s3, s4, s5, s6, s7, s8,
        s9]
    | rw [hp "metacat_version" (by decide)]
    | rw [hp "upgrade_status" (by decide)]
    | rw [hp "CN_info_url" (by decide)]
    | rw [hp "CN_date_deprecated" (by decide)]
    | rw [hp "CN_date_upcoming" (by decide)]
    | rw [hp "read_only_mode" (by decide)]
    | rw [hp "CN_logo_url" (by decide)]
    | rw [hp "CN_operational_status" (by decide)]
    | rw [hp "CN_date_operational" (by decide)]
    | rw [hp "CN_location_lonlat" (by decide)]

theorem attrInvalid_congr (node node0 : Element) (name : String) (allowed : List String)
    (ha : ∀ name, node.getAttribute name = node0.getAttribute name) :
    attrInvalid node name allowed = attrInvalid node0 name allowed := by
  simp only [attrInvalid, attrValue, ha]

theorem decodeSpec_congr (node node0 : Element)
    (ha : ∀ name, node.getAttribute name = node0.getAttribute name)
    (hf : ∀ k ∈ allProps, decodedField node k = decodedField node0 k) :
    decodeSpec node = decodeSpec node0 := by
  unfold decodeSpec
  rw [attrInvalid_congr node node0 "type" _ ha, attrInvalid_congr node node0 "state" _ ha]
  have : allProps.filterMap (fun k => (decodedField node k).map (fun v => (k, v))) =
      allProps.filterMap (fun k => (decodedField node0 k).map (fun v => (k, v))) := by
    apply List.filterMap_congr
    intro k hk
    rw [hf k hk]
  rw [this]

theorem decodedField_table (node : Element) (key f : String)
    (h : (key, f) ∈ nodePropKeyTable) :
    f ∈ allProps ∧ decodedField node f = (propertyText node key).map (coerceField f) := by
  simp only [nodePropKeyTable, List.mem_cons, Prod.mk.injEq, List.mem_singleton,
    List.not_mem_nil, or_false] at h
  rcases h with ⟨rfl, rfl⟩ | ⟨rfl, rfl⟩ | ⟨rfl, rfl⟩ | ⟨rfl, rfl⟩ | ⟨rfl, rfl⟩ | ⟨rfl, rfl⟩ |
    ⟨rfl, rfl⟩ | ⟨rfl, rfl⟩ | ⟨rfl, rfl⟩ | ⟨rfl, rfl⟩ <;> exact ⟨by decide, rfl⟩


theorem propertyText_insert (tag : String) (attrs : List (String × String))
    (pre post : List XNode) (e : Element) (he : e.tagName = "property") (key : String) :
    propertyText (Element.mk tag attrs (pre ++ .element e :: post)) key =
        propertyTextIn ((Element.mk tag attrs pre).scopeChildren "property" ++
          e :: (Element.mk tag attrs post).scopeChildren "property") key ∧
      propertyText (Element.mk tag attrs (pre ++ post)) key =
        propertyTextIn ((Element.mk tag attrs pre).scopeChildren "property" ++
          (Element.mk tag attrs post).scopeChildren "property") key := by
  have h := scopeChildren_insert_same tag attrs pre post e
  rw [he] at h
  unfold propertyText
  rw [h.1, h.2]
  exact ⟨rfl, rfl⟩

theorem table_functional (key f k : String) (h1 : (key, f) ∈ nodePropKeyTable)
    (h2 : (key, k) ∈ nodePropKeyTable) : k = f := by
  have e1 := (classProp_iff key f h1 key).2 rfl
  have e2 := (classProp_iff key k h2 key).2 rfl
  rw [e1] at e2
  simp only [Option.some.injEq] at e2
  exact e2.symm

/-- C10: a direct-child `property` element whose key is one of the ten mapped keys and
whose text is not empty assigns its text to exactly the corresponding field: the loop body
changes that property of the parameters and no other, the decoded node differs from the
one decoded without the element in that field only, the field is set, and it holds the
coerced text of the element when no later `property` child has the same key and a
non-empty text. A `property` element with no key, with an empty text, or with a key that
is not one of the ten leaves the decoding result unchanged. -/
theorem C10_property_sets_its_field (tag : String) (attrs : List (String × String))
    (pre post : List XNode) (e : Element) (he : e.tagName = "property") :
    (∀ key f, (key, f) ∈ nodePropKeyTable → e.getAttribute "key" = some key →
      e.textContent ≠ "" →
      (∀ params k, (stepProperty params e).get k =
        if k = f then some (strVal e.textContent) else params.get k) ∧
      (∀ msg, D1Node.fromXML (some (.mk tag attrs (pre ++ .element e :: post))) = .error msg ↔
        D1Node.fromXML (some (.mk tag attrs (pre ++ post))) = .error msg) ∧
      (∀ d d0, D1Node.fromXML (some (.mk tag attrs (pre ++ .element e :: post))) = .ok d →
        D1Node.fromXML (some (.mk tag attrs (pre ++ post))) = .ok d0 →
        (∀ k, k ≠ f → d.get k = d0.get k) ∧ (d.get f).isSome = true ∧
        ((∀ c ∈ (Element.mk tag attrs post).scopeChildren "property",
            isPropertyFor key c = false) →
          d.get f = some (coerceField f e.textContent)))) ∧
    ((e.getAttribute "key" = none ∨ e.textContent = "" ∨
        (∀ key f, (key, f) ∈ nodePropKeyTable → e.getAttribute "key" ≠ some key)) →
      D1Node.fromXML (some (.mk tag attrs (pre ++ .element e :: post))) =
        D1Node.fromXML (some (.mk tag attrs (pre ++ post)))) ∧
    nodePropKeyTable.map (fun p => p.1) =
      ["metacat_version", "upgrade_status", "CN_info_url", "CN_date_deprecated",
        "CN_date_upcoming", "read_only_mode", "CN_logo_url", "CN_operational_status",
        "CN_date_operational", "CN_location_lonlat"] ∧
    nodePropKeyTable.map (fun p => p.2) =
      ["metacatVersion", "upgradeStatus", "infoURL", "dateDeprecated", "dateUpcoming",
        "readOnlyMode", "logoURL", "operationalStatus", "dateOperational", "location"] := by
  have ha : ∀ name, (Element.mk tag attrs (pre ++ .element e :: post)).getAttribute name =
      (Element.mk tag attrs (pre ++ post)).getAttribute name := fun _ => rfl
  have hs : ∀ name, name ≠ "property" →
      (Element.mk tag attrs (pre ++ .element e :: post)).scopeChildren name =
        (Element.mk tag attrs (pre ++ post)).scopeChildren name := by
    intro name hn
    apply scopeChildren_insert_other
    rw [he]
    exact fun h => hn h.symm
  refine ⟨?_, ?_, by decide, by decide⟩
  · intro key f hkf hkey htext
    have hprop : isPropertyFor key e = true := by
      simp [isPropertyFor, hkey, htext]
    have hother : ∀ key2, key2 ≠ key → isPropertyFor key2 e = false := by
      intro key2 hne
      have : ¬ key = key2 := fun h => hne h.symm
      simp [isPropertyFor, hkey, this]
    refine ⟨?_, ?_, ?_⟩
    · intro params k
      have hne : key ≠ "" := by
        intro h0
        rw [h0] at hkf
        simp [nodePropKeyTable] at hkf
      have hw : propertyWrite e = some (f, e.textContent) := by
        simp [propertyWrite, hkey, truthyOpt, truthyStr, hne, htext,
          (classProp_iff key f hkf key).2 rfl]
      rw [stepProperty_eq, hw]
      simp only [Props.get_set]
    · intro msg
      rw [fromXML_eq, fromXML_eq]
      unfold decodeSpec
      rw [attrInvalid_congr _ _ "type" _ ha, attrInvalid_congr _ _ "state" _ ha]
      cases attrInvalid (Element.mk tag attrs (pre ++ post)) "type" ["cn", "mn"] <;>
        cases attrInvalid (Element.mk tag attrs (pre ++ post)) "state"
          ["up", "down", "unknown"] <;> simp
    · intro d d0 hd hd0
      have hf := decodedField_table (Element.mk tag attrs (pre ++ .element e :: post)) key f hkf
      have hpt := propertyText_insert tag attrs pre post e he
      refine ⟨?_, ?_, ?_⟩
      · intro k hk
        rw [fromXML_ok_get _ d hd k, fromXML_ok_get _ d0 hd0 k]
        by_cases hmem : k ∈ allProps
        · simp only [hmem, if_true]
          apply decodedField_congr _ _ k hs ha
          intro key2 hk2
          have hne : key2 ≠ key := by
            intro h2
            rw [h2] at hk2
            exact hk (table_functional key f k hkf hk2)
          rw [(hpt key2).1, (hpt key2).2]
          exact propertyTextIn_insert_false _ _ e key2 (hother key2 hne)
        · simp only [hmem, if_false]
      · rw [fromXML_ok_get _ d hd f]
        simp only [hf.1, if_true, hf.2, Option.isSome_map', (hpt key).1]
        exact propertyTextIn_insert_some _ _ e key hprop
      · intro hlast
        rw [fromXML_ok_get _ d hd f]
        simp only [hf.1, if_true, hf.2, (hpt key).1,
          propertyTextIn_insert_last _ _ e key hprop hlast, Option.map_some']
  · intro hun
    rw [fromXML_eq, fromXML_eq]
    apply decodeSpec_congr _ _ ha
    intro k _
    apply decodedField_congr _ _ k hs ha
    intro key2 hk2
    have hpt := propertyText_insert tag attrs pre post e he key2
    rw [hpt.1, hpt.2]
    apply propertyTextIn_insert_false
    rcases hun with h | h | h
    · simp [isPropertyFor, h]
    · simp [isPropertyFor, h]
    · have := h key2 k hk2
      simp [isPropertyFor, this]

/-- Witness for C10: a CN_logo_url property added to a node that has a name sets `logoURL`
to its text and leaves `name` as it was. -/
theorem C10_property_sets_its_field_witness :
    (∀ k, k ≠ "logoURL" →
        D1Node.get { props := [("name", strVal "cn"), ("logoURL", strVal "logo.png")] } k =
          D1Node.get { props := [("name", strVal "cn")] } k) ∧
      (D1Node.get { props := [("name", strVal "cn"), ("logoURL", strVal "logo.png")] }
        "logoURL").isSome = true ∧
      ((∀ c ∈ (Element.mk "node" [] []).scopeChildren "property",
          isPropertyFor "CN_logo_url" c = false) →
        D1Node.get { props := [("name", strVal "cn"), ("logoURL", strVal "logo.png")] }
          "logoURL" = some (coerceField "logoURL"
            (Element.mk "property" [("key", "CN_logo_url")] [.text "logo.png"]).textContent)) :=
  ((C10_property_sets_its_field "node" [] [.element (.mk "name" [] [.text "cn"])] []
    (.mk "property" [("key", "CN_logo_url")] [.text "logo.png"]) (by decide)).1
    "CN_logo_url" "logoURL" (by decide) (by decide) (by decide)).2.2
    { props := [("name", strVal "cn"), ("logoURL", strVal "logo.png")] }
    { props := [("name", strVal "cn")] } (by decide) (by decide)

/-! ## Subjects -/

theorem scopeChild_of_nil (node : Element) (t : String) (h : node.scopeChildren t = []) :
    node.scopeChild t = none := by
  simp [Element.scopeChild, h]

theorem scopeChild_of_single (node : Element) (t : String) (c : Element)
    (h : node.scopeChildren t = [c]) : node.scopeChild t = some c := by
  simp [Element.scopeChild, h]

/-- The repeated-text step reads the first matching child only: with two `subject`
children the decoded list holds the text of the first. -/
theorem subjects_holds_first_child_only :
    D1Node.fromXML (some (.mk "node" []
        [.element (.mk "subject" [] [.text "CN=a"]),
         .element (.mk "subject" [] [.text "CN=b"])])) =
      .ok { props := [("subjects", .strings ["CN=a"])] } := by
  decide

/-- C11, as stated, fails: the node element has one direct-child `subject` element, whose
text content is the empty string, so the list of the text contents has one entry, yet the
decoded node has no `subjects` field. -/
theorem C11_empty_subject_dropped :
    ((Element.mk "node" [] [.element (.mk "subject" [] [])]).scopeChildren "subject").map
        Element.textContent = [""] ∧
      D1Node.fromXML (some (.mk "node" [] [.element (.mk "subject" [] [])])) =
        .ok { props := [] } ∧
      D1Node.get { props := [] } "subjects" ≠ some (.strings [""]) := by
  decide

/-- C11, amended: for a node element with at most one direct-child `subject` (resp.
`contactSubject`) element, the decoded `subjects` (resp. `contactSubjects`) field is the
one-element list holding the text content of that child when the text is not empty, and
is absent when there is no such child or its text is empty. -/
theorem C11_at_most_one_subject (node : Element) (d : D1Node)
    (h : D1Node.fromXML (some node) = .ok d) :
    (node.scopeChildren "subject" = [] → d.get "subjects" = none) ∧
      (∀ c, node.scopeChildren "subject" = [c] →
        d.get "subjects" =
          if c.textContent = "" then none else some (.strings [c.textContent])) ∧
      (node.scopeChildren "contactSubject" = [] → d.get "contactSubjects" = none) ∧
      (∀ c, node.scopeChildren "contactSubject" = [c] →
        d.get "contactSubjects" =
          if c.textContent = "" then none else some (.strings [c.textContent])) := by
  have hs : d.get "subjects" = (simpleText node "subject").map (fun s => JSVal.strings [s]) := by
    rw [fromXML_ok_get node d h "subjects"]; rfl
  have hc : d.get "contactSubjects" =
      (simpleText node "contactSubject").map (fun s => JSVal.strings [s]) := by
    rw [fromXML_ok_get node d h "contactSubjects"]; rfl
  refine ⟨?_, ?_, ?_, ?_⟩
  · intro h0
    rw [hs, simpleText, scopeChild_of_nil node _ h0]
    rfl
  · intro c h1
    rw [hs, simpleText, scopeChild_of_single node _ c h1]
    by_cases ht : c.textContent = "" <;> simp [ht]
  · intro h0
    rw [hc, simpleText, scopeChild_of_nil node _ h0]
    rfl
  · intro c h1
    rw [hc, simpleText, scopeChild_of_single node _ c h1]
    by_cases ht : c.textContent = "" <;> simp [ht]

/-- Witness for C11: the node of the unit test, with one `subject` child, decodes to the
one-element list of its text. -/
theorem C11_at_most_one_subject_witness :
    D1Node.get { props := [("subjects", .strings ["CN=urn:node:CN,DC=dataone,DC=org"])] }
        "subjects" =
      if (Element.mk "subject" [] [.text "CN=urn:node:CN,DC=dataone,DC=org"]).textContent = ""
      then none
      else some (.strings
        [(Element.mk "subject" [] [.text "CN=urn:node:CN,DC=dataone,DC=org"]).textContent]) :=
  (C11_at_most_one_subject
    (.mk "node" [] [.element (.mk "subject" [] [.text "CN=urn:node:CN,DC=dataone,DC=org"])])
    { props := [("subjects", .strings ["CN=urn:node:CN,DC=dataone,DC=org"])] }
    (by decide)).2.1 (.mk "subject" [] [.text "CN=urn:node:CN,DC=dataone,DC=org"]) (by rfl)

/-! ## Untrimmed text -/

/-- C12, as stated, fails: the text of the `identifier` child has a blank at each end, and
the decoded identifier is that text with the blanks, not the trimmed text. -/
theorem C12_text_not_trimmed :
    D1Node.fromXML (some (.mk "node" []
        [.element (.mk "identifier" [] [.text " urn:node:CN "])])) =
      .ok { props := [("identifier", .atom (.str " urn:node:CN "))] } ∧
      trimText " urn:node:CN " = "urn:node:CN" ∧
      D1Node.get { props := [("identifier", .atom (.str " urn:node:CN "))] } "identifier" ≠
        some (.atom (.str (trimText " urn:node:CN "))) := by
  decide

/-- C12, amended: for each simple-text field (identifier, name, description, baseURL),
`D1Node.fromXML` returns the text content of the first direct child of that name as it
is, leading and trailing white space included, and the field is absent if there is no such
child or its text content is the empty string; a text of white space only is kept. -/
theorem C12_simple_text_as_is (node : Element) (d : D1Node)
    (h : D1Node.fromXML (some node) = .ok d) :
    (∀ k ∈ simpleNodes,
      d.get k =
        match node.scopeChild k with
        | some c => if c.textContent = "" then none else some (.atom (.str c.textContent))
        | none => none) ∧
      D1Node.fromXML (some (.mk "node" [] [.element (.mk "name" [] [.text " "])])) =
        .ok { props := [("name", .atom (.str " "))] } := by
  refine ⟨?_, by decide⟩
  intro k hk
  rw [fromXML_ok_get node d h k]
  simp only [simpleNodes, List.mem_cons, List.mem_singleton, List.not_mem_nil, or_false] at hk
  rcases hk with rfl | rfl | rfl | rfl
  all_goals
    simp only [allProps, requiredProps, optionalProps, List.cons_append, List.mem_cons,
      true_or, or_true, if_true, decodedField, simpleText, strVal]
    cases node.scopeChild _ with
    | none => rfl
    | some c => by_cases ht : c.textContent = "" <;> simp [ht, strVal]

/-- Witness for C12: an identifier child with surrounding blanks keeps them. -/
theorem C12_simple_text_as_is_witness :
    D1Node.get { props := [("identifier", .atom (.str " urn:node:CN "))] } "identifier" =
      match (Element.mk "node" []
          [.element (.mk "identifier" [] [.text " urn:node:CN "])]).scopeChild "identifier" with
      | some c => if c.textContent = "" then none else some (.atom (.str c.textContent))
      | none => none :=
  (C12_simple_text_as_is
    (.mk "node" [] [.element (.mk "identifier" [] [.text " urn:node:CN "])])
    { props := [("identifier", .atom (.str " urn:node:CN "))] } (by decide)).1
    "identifier" (by decide)

/-! ## Scope of the lookups -/

set_option maxHeartbeats 2000000 in
theorem decodedField_of_tag (node node2 : Element) (f t : String)
    (hft : (f, t) ∈ fieldTags) (h : node.scopeChildren t = node2.scopeChildren t) :
    decodedField node f = decodedField node2 f := by
  simp only [fieldTags, List.mem_cons, Prod.mk.injEq, List.mem_singleton, List.not_mem_nil,
    or_false] at hft
  rcases hft with ⟨rfl, rfl⟩ | ⟨rfl, rfl⟩ | ⟨rfl, rfl⟩ | ⟨rfl, rfl⟩ | ⟨rfl, rfl⟩ | ⟨rfl, rfl⟩ |
    ⟨rfl, rfl⟩ | ⟨rfl, rfl⟩ | ⟨rfl, rfl⟩ | ⟨rfl, rfl⟩ | ⟨rfl, rfl⟩ | ⟨rfl, rfl⟩ | ⟨rfl, rfl⟩ |
    ⟨rfl, rfl⟩ | ⟨rfl, rfl⟩ | ⟨rfl, rfl⟩ | ⟨rfl, rfl⟩ | ⟨rfl, rfl⟩ | ⟨rfl, rfl⟩
  all_goals simp only [decodedField, simpleText, Element.scopeChild, propertyText, h]

theorem decodedField_of_attribute (node node2 : Element) (f : String)
    (hf : f ∈ nodeAttributes) (h : node.getAttribute f = node2.getAttribute f) :
    decodedField node f = decodedField node2 f := by
  simp only [nodeAttributes, List.mem_cons, List.mem_singleton, List.not_mem_nil,
    or_false] at hf
  rcases hf with rfl | rfl | rfl | rfl
  all_goals simp only [decodedField, attrValue, h]

set_option maxHeartbeats 2000000 in
theorem fromXML_congr_tags (node node2 : Element)
    (ha : ∀ name ∈ nodeAttributes, node.getAttribute name = node2.getAttribute name)
    (ht : ∀ t ∈ lookupTags, node.scopeChildren t = node2.scopeChildren t) :
    D1Node.fromXML (some node) = D1Node.fromXML (some node2) := by
  have hf : ∀ k ∈ allProps, decodedField node k = decodedField node2 k := by
    intro k hk
    simp only [allProps, requiredProps, optionalProps, List.cons_append, List.nil_append,
      List.mem_cons, List.mem_singleton, List.not_mem_nil, or_false] at hk
    rcases hk with rfl | rfl | rfl | rfl | rfl | rfl | rfl | rfl | rfl | rfl | rfl | rfl | rfl |
      rfl | rfl | rfl | rfl | rfl | rfl | rfl | rfl | rfl | rfl
    all_goals first
    | exact decodedField_of_attribute node node2 _ (by decide) (ha _ (by decide))
    | exact decodedField_of_tag node node2 _ "identifier" (by decide) (ht _ (by decide))
    | exact decodedField_of_tag node node2 _ "name" (by decide) (ht _ (by decide))
    | exact decodedField_of_tag node node2 _ "description" (by decide) (ht _ (by decide))
    | exact decodedField_of_tag node node2 _ "baseURL" (by decide) (ht _ (by decide))
    | exact decodedField_of_tag node node2 _ "subject" (by decide) (ht _ (by decide))
    | exact decodedField_of_tag node node2 _ "contactSubject" (by decide) (ht _ (by decide))
    | exact decodedField_of_tag node node2 _ "property" (by decide) (ht _ (by decide))
    | exact decodedField_of_tag node node2 _ "service" (by decide) (ht _ (by decide))
    | exact decodedField_of_tag node node2 _ "nodeReplicationPolicy" (by decide) (ht _ (by decide))
    | exact decodedField_of_tag node node2 _ "synchronization" (by decide) (ht _ (by decide))
  have h1 : attrInvalid node "type" ["cn", "mn"] = attrInvalid node2 "type" ["cn", "mn"] := by
    simp only [attrInvalid, attrValue, ha "type" (by decide)]
  have h2 : attrInvalid node "state" ["up", "down", "unknown"] =
      attrInvalid node2 "state" ["up", "down", "unknown"] := by
    simp only [attrInvalid, attrValue, ha "state" (by decide)]
  have h3 : allProps.filterMap (fun k => (decodedField node k).map (fun v => (k, v))) =
      allProps.filterMap (fun k => (decodedField node2 k).map (fun v => (k, v))) := by
    apply List.filterMap_congr
    intro k hk
    rw [hf k hk]
  rw [fromXML_eq, fromXML_eq]
  unfold decodeSpec
  rw [h1, h2, h3]

/-- C13: every lookup of `D1Node.fromXML` is over the direct children of the node element.
Two node elements with the same four attributes and, for each of the ten looked-up tags,
the same direct children of that tag decode alike; each field read from children is
determined by the direct children of its own tag, and is absent when the node has no direct
child of that tag, whatever lies deeper. A `subject` inside a service restriction does not
reach `subjects`, and an `identifier` inside another child does not reach `identifier`. -/
theorem C13_direct_children_only (node node2 : Element) :
    ((∀ name ∈ nodeAttributes, node.getAttribute name = node2.getAttribute name) →
      (∀ t ∈ lookupTags, node.scopeChildren t = node2.scopeChildren t) →
      D1Node.fromXML (some node) = D1Node.fromXML (some node2)) ∧
    (∀ d d2, D1Node.fromXML (some node) = .ok d → D1Node.fromXML (some node2) = .ok d2 →
      ∀ f t, (f, t) ∈ fieldTags → node.scopeChildren t = node2.scopeChildren t →
        d.get f = d2.get f) ∧
    (∀ d, D1Node.fromXML (some node) = .ok d →
      ∀ f t, (f, t) ∈ fieldTags → node.scopeChildren t = [] → d.get f = none) ∧
    (∀ t, node.scopeChildren t =
      (node.childNodes.filterMap XNode.asElement).filter (fun c => c.tagName = t)) ∧
    D1Node.fromXML (some (.mk "node" []
        [.element (.mk "service" [("name", "MNCore")]
          [.element (.mk "restriction" [("methodName", "ping")]
            [.element (.mk "subject" [] [.text "CN=x"])])])])) =
      .ok { props := [("services", .services
        [{ restrictions := some [{ methodName := .str "ping", subjects := some ["CN=x"] }],
           name := .str "MNCore", version := .null, available := .bool false }])] } ∧
    D1Node.fromXML (some (.mk "node" []
        [.element (.mk "contact" [] [.element (.mk "identifier" [] [.text "urn:x"])])])) =
      .ok { props := [] } := by
  refine ⟨fromXML_congr_tags node node2, ?_, ?_, fun _ => rfl, by decide, by decide⟩
  · intro d d2 hd hd2 f t hft h
    rw [fromXML_ok_get node d hd f, fromXML_ok_get node2 d2 hd2 f,
      decodedField_of_tag node node2 f t hft h]
  · intro d hd f t hft h
    have he : (Element.mk "node" [] []).scopeChildren t = [] := rfl
    rw [fromXML_ok_get node d hd f,
      decodedField_of_tag node (Element.mk "node" [] []) f t hft (h.trans he.symm)]
    have hnone : ∀ k, decodedField (Element.mk "node" [] []) k = none := by
      intro k
      unfold decodedField
      split <;> rfl
    simp [hnone]

/-- Witness for C13: a node with a nested identifier decodes like the empty node, and its
`identifier` field is absent. -/
theorem C13_direct_children_only_witness :
    D1Node.get { props := [] } "identifier" = none :=
  (C13_direct_children_only
    (.mk "node" [] [.element (.mk "contact" [] [.element (.mk "identifier" [] [.text "u"])])])
    (.mk "node" [] [])).2.2.1 { props := [] } (by decide) "identifier" "identifier"
    (by decide) (by rfl)

/-! ## Service availability -/

/-- C14, as stated, fails: a service element without an `available` attribute decodes to a
Service whose `available` is the boolean false, not absent. -/
theorem C14_missing_available_not_absent :
    (Element.mk "service" [("name", "MNRead"), ("version", "v1")] []).getAttribute
        "available" = none ∧
      (Service.fromXML (some (.mk "service" [("name", "MNRead"), ("version", "v1")]
        []))).available = .bool false ∧
      (Service.fromXML (some (.mk "service" [("name", "MNRead"), ("version", "v1")]
        []))).available ≠ .undefined := by
  decide

/-- C14, amended: for a service element that has an `available` attribute,
`Service.fromXML` gives true when its value is the text true and false for any other
value, the empty string included. -/
theorem C14_available_coercion (e : Element) (v : String)
    (h : e.getAttribute "available" = some v) :
    (Service.fromXML (some e)).available = .bool (v = "true") ∧
      (v = "true" → (Service.fromXML (some e)).available = .bool true) ∧
      (v ≠ "true" → (Service.fromXML (some e)).available = .bool false) := by
  have h1 : (Service.fromXML (some e)).available = .bool (v = "true") := by
    simp [Service.fromXML, Service.constructor, h]
  refine ⟨h1, ?_, ?_⟩
  · intro hv
    rw [h1]
    simp [hv]
  · intro hv
    rw [h1]
    simp [hv]

/-- Witness for C14: a service with available TRUE decodes to false. -/
theorem C14_available_coercion_witness :
    (Service.fromXML (some (.mk "service" [("available", "TRUE")] []))).available =
      .bool false :=
  (C14_available_coercion (.mk "service" [("available", "TRUE")] []) "TRUE" (by decide)).2.2
    (by decide)

theorem available_of_absent (e : Element) (h : e.getAttribute "available" = none) :
    (Service.fromXML (some e)).available = .bool false := by
  simp [Service.fromXML, Service.constructor, h]

/-- C15, the code at the failing input: a service element that carries no `available`
attribute decodes to a Service whose `available` flag is false, where the documented
default is true. -/
theorem C15_missing_available_is_false :
    (Element.mk "service" [("name", "CNCore"), ("version", "v1")] []).getAttribute
        "available" = none ∧
      Service.fromXML (some (.mk "service" [("name", "CNCore"), ("version", "v1")] [])) =
        { restrictions := some [], name := .str "CNCore", version := .str "v1",
          available := .bool false } ∧
      (Service.fromXML (some (.mk "service" [("name", "CNCore"), ("version", "v1")]
        []))).available ≠ .bool true := by
  decide

/-! ## Repeated property keys -/

theorem propertyTextIn_last (A B : List Element) (e : Element) (key : String)
    (hk : e.getAttribute "key" = some key) (ht : e.textContent ≠ "")
    (hB : ∀ c ∈ B, ¬ (c.getAttribute "key" = some key ∧ c.textContent ≠ "")) :
    propertyTextIn (A ++ e :: B) key = some e.textContent := by
  apply propertyTextIn_insert_last
  · simp [isPropertyFor, hk, ht]
  · intro c hc
    have := hB c hc
    simp only [isPropertyFor, Bool.and_eq_false_iff, decide_eq_false_iff_not]
    by_cases h1 : c.getAttribute "key" = some key
    · right
      intro h2
      exact this ⟨h1, by simpa using h2⟩
    · left
      exact h1

/-- C16: when several direct-child `property` elements produce the same target field, the
decoded field takes the value of the last of them in document order: if the `property`
children are a list, then an element with a mapped key and non-empty text, then elements
none of which has that key with a non-empty text, the field holds the coerced text of
that element, whatever the earlier elements are. -/
theorem C16_last_property_wins (node : Element) (d : D1Node)
    (h : D1Node.fromXML (some node) = .ok d) (key f : String)
    (hkf : (key, f) ∈ nodePropKeyTable) (A B : List Element) (e : Element)
    (hsplit : node.scopeChildren "property" = A ++ e :: B)
    (hk : e.getAttribute "key" = some key) (ht : e.textContent ≠ "")
    (hB : ∀ c ∈ B, ¬ (c.getAttribute "key" = some key ∧ c.textContent ≠ "")) :
    d.get f = some (coerceField f e.textContent) := by
  have hf := decodedField_table node key f hkf
  rw [fromXML_ok_get node d h f]
  simp only [hf.1, if_true, hf.2, propertyText, hsplit,
    propertyTextIn_last A B e key hk ht hB, Option.map_some']

/-- Witness for C16: of two CN_logo_url properties the second gives `logoURL`. -/
theorem C16_last_property_wins_witness :
    D1Node.get { props := [("logoURL", .atom (.str "second.png"))] } "logoURL" =
      some (coerceField "logoURL"
        (Element.mk "property" [("key", "CN_logo_url")] [.text "second.png"]).textContent) :=
  C16_last_property_wins
    (.mk "node" []
      [.element (.mk "property" [("key", "CN_logo_url")] [.text "first.png"]),
       .element (.mk "property" [("key", "CN_logo_url")] [.text "second.png"])])
    { props := [("logoURL", .atom (.str "second.png"))] } (by decide)
    "CN_logo_url" "logoURL" (by decide)
    [.mk "property" [("key", "CN_logo_url")] [.text "first.png"]] []
    (.mk "property" [("key", "CN_logo_url")] [.text "second.png"]) (by rfl) (by decide)
    (by decide) (by simp)

/-- C17, as stated, fails: of two direct-child `property` elements with the key
CN_logo_url and non-empty text, the decoded `logoURL` is the text of the second, not of
the first. -/
theorem C17_first_property_overwritten :
    D1Node.fromXML (some (.mk "node" []
        [.element (.mk "property" [("key", "CN_logo_url")] [.text "first.png"]),
         .element (.mk "property" [("key", "CN_logo_url")] [.text "second.png"])])) =
      .ok { props := [("logoURL", .atom (.str "second.png"))] } ∧
      D1Node.get { props := [("logoURL", .atom (.str "second.png"))] } "logoURL" ≠
        some (.atom (.str "first.png")) := by
  decide

/-- C17, amended: when a node element has more than one direct-child `property` element
with the same mapped key, the last one in document order that has a non-empty text is
honored: with two such elements among the children and no further one after the second,
the decoded field is the coerced text of the second, and the first is overwritten. -/
theorem C17_later_duplicate_honored (tag : String) (attrs : List (String × String))
    (pre mid post : List XNode) (e1 e2 : Element) (d : D1Node) (key f : String)
    (hkf : (key, f) ∈ nodePropKeyTable)
    (h1 : e1.tagName = "property" ∧ e1.getAttribute "key" = some key ∧ e1.textContent ≠ "")
    (h2 : e2.tagName = "property" ∧ e2.getAttribute "key" = some key ∧ e2.textContent ≠ "")
    (hpost : ∀ c ∈ (Element.mk tag attrs post).scopeChildren "property",
      ¬ (c.getAttribute "key" = some key ∧ c.textContent ≠ ""))
    (h : D1Node.fromXML (some (.mk tag attrs
      (pre ++ .element e1 :: (mid ++ .element e2 :: post)))) = .ok d) :
    d.get f = some (coerceField f e2.textContent) ∧
      d.get f = (propertyText (.mk tag attrs
        (pre ++ .element e1 :: (mid ++ .element e2 :: post))) key).map (coerceField f) ∧
      e1 ∈ (Element.mk tag attrs
        (pre ++ .element e1 :: (mid ++ .element e2 :: post))).scopeChildren "property" := by
  have hf := decodedField_table
    (.mk tag attrs (pre ++ .element e1 :: (mid ++ .element e2 :: post))) key f hkf
  have hsplit : (Element.mk tag attrs
      (pre ++ .element e1 :: (mid ++ .element e2 :: post))).scopeChildren "property" =
      ((Element.mk tag attrs (pre ++ .element e1 :: mid)).scopeChildren "property") ++
        e2 :: (Element.mk tag attrs post).scopeChildren "property" := by
    have := (scopeChildren_insert_same tag attrs (pre ++ .element e1 :: mid) post e2).1
    rw [h2.1] at this
    simpa using this
  have hget : d.get f = (propertyText (.mk tag attrs
      (pre ++ .element e1 :: (mid ++ .element e2 :: post))) key).map (coerceField f) := by
    rw [fromXML_ok_get _ d h f]
    simp only [hf.1, if_true, hf.2]
  refine ⟨?_, hget, ?_⟩
  · rw [hget, propertyText, hsplit, propertyTextIn_last _ _ e2 key h2.2.1 h2.2.2 hpost]
    rfl
  · simp [Element.scopeChildren, Element.children, Element.childNodes,
      List.filterMap_append, XNode.asElement, h1.1]

/-- Witness for C17: the two CN_logo_url properties of the counterexample. -/
theorem C17_later_duplicate_honored_witness :
    D1Node.get { props := [("logoURL", .atom (.str "second.png"))] } "logoURL" =
        some (coerceField "logoURL"
          (Element.mk "property" [("key", "CN_logo_url")] [.text "second.png"]).textContent) ∧
      D1Node.get { props := [("logoURL", .atom (.str "second.png"))] } "logoURL" =
        (propertyText (.mk "node" []
          ([] ++ .element (.mk "property" [("key", "CN_logo_url")] [.text "first.png"]) ::
            ([] ++ .element (.mk "property" [("key", "CN_logo_url")] [.text "second.png"]) ::
              []))) "CN_logo_url").map (coerceField "logoURL") ∧
      Element.mk "property" [("key", "CN_logo_url")] [.text "first.png"] ∈
        (Element.mk "node" []
          ([] ++ .element (.mk "property" [("key", "CN_logo_url")] [.text "first.png"]) ::
            ([] ++ .element (.mk "property" [("key", "CN_logo_url")] [.text "second.png"]) ::
              []))).scopeChildren "property" :=
  C17_later_duplicate_honored "node" [] [] [] []
    (.mk "property" [("key", "CN_logo_url")] [.text "first.png"])
    (.mk "property" [("key", "CN_logo_url")] [.text "second.png"])
    { props := [("logoURL", .atom (.str "second.png"))] } "CN_logo_url" "logoURL"
    (by decide) (by decide) (by decide) (by simp [Element.scopeChildren, Element.children,
      Element.childNodes]) (by decide)

/-! ## Totality of the decoders -/

/-- C18: every entity decoder is total. On an absent element each returns the entity its
constructor builds from no properties, and `D1Node.fromXML` does so without failing; on any
element the four nested decoders return an entity, and `D1Node.fromXML` either returns a
node or fails with one of the two validation messages, the `type` or `state` attribute
being invalid. -/
theorem C18_decoders_total :
    D1Node.fromXML none = .ok { props := [] } ∧
    Synchronization.fromXML none =
      { schedule := .undefined, lastHarvested := .undefined,
        lastCompleteHarvest := .undefined } ∧
    NodeReplicationPolicy.fromXML none =
      { maxObjectSize := .num .nan, spaceAllocated := .num .nan } ∧
    Service.fromXML none =
      { restrictions := none, name := .undefined, version := .undefined,
        available := .undefined } ∧
    ServiceMethodRestriction.fromXML none = { methodName := .undefined, subjects := none } ∧
    (∀ node : Element,
      (∃ d, D1Node.fromXML (some node) = .ok d) ∨
      (D1Node.fromXML (some node) = .error "The value of type must be one of cn, mn" ∧
        attrInvalid node "type" ["cn", "mn"] = true) ∨
      (D1Node.fromXML (some node) =
          .error "The value of state must be one of up, down, unknown" ∧
        attrInvalid node "state" ["up", "down", "unknown"] = true)) ∧
    (∀ node : Element,
      dateProps.foldlM stepDate (booleanProps.foldl stepBoolean (extractParams node)) =
        .ok (convertedParams node)) ∧
    (∀ node : Element, ∃ s, Synchronization.fromXML (some node) = s ∧
      s.schedule = .str (Synchronization.parseXMLSchedule (node.querySelector "schedule"))) ∧
    (∀ node : Element, ∃ p, NodeReplicationPolicy.fromXML (some node) = p ∧
      (∃ n, p.maxObjectSize = .num n) ∧ ∃ n, p.spaceAllocated = .num n) ∧
    (∀ node : Element, ∃ s, Service.fromXML (some node) = s ∧
      s.name = JSAtom.ofAttr (node.getAttribute "name")) ∧
    (∀ node : Element, ∃ r, ServiceMethodRestriction.fromXML (some node) = r ∧
      r.methodName = JSAtom.ofAttr (node.getAttribute "methodName")) := by
  refine ⟨by decide, by decide, by decide, by decide, by decide, ?_, dates_ok,
    fun node => ⟨_, rfl, rfl⟩, fun node => ⟨_, rfl, ⟨_, rfl⟩, ⟨_, rfl⟩⟩,
    fun node => ⟨_, rfl, rfl⟩, fun node => ⟨_, rfl, rfl⟩⟩
  intro node
  rw [fromXML_eq]
  unfold decodeSpec
  cases h1 : attrInvalid node "type" ["cn", "mn"] <;>
    cases h2 : attrInvalid node "state" ["up", "down", "unknown"] <;> simp

/-! ## Services -/

/-- C19: in a decoded node the `services` field is the list of the decodings of the
direct-child `service` elements, one per element in document order, and is absent when
there is none. Each Service carries the `name` and `version` attributes of its element
and one ServiceMethodRestriction per `restriction` element inside it, in document order,
each with its `methodName` attribute and the texts of the `subject` elements inside it,
in document order. -/
theorem C19_services_decoded (node : Element) (d : D1Node)
    (h : D1Node.fromXML (some node) = .ok d) :
    d.get "services" =
        (if (node.scopeChildren "service").isEmpty then none
         else some (.services
           ((node.scopeChildren "service").map (fun e => Service.fromXML (some e))))) ∧
      (∀ e : Element,
        (Service.fromXML (some e)).name = JSAtom.ofAttr (e.getAttribute "name") ∧
        (Service.fromXML (some e)).version = JSAtom.ofAttr (e.getAttribute "version") ∧
        (Service.fromXML (some e)).restrictions =
          some ((e.querySelectorAll "restriction").map
            (fun r => ServiceMethodRestriction.fromXML (some r)))) ∧
      (∀ r : Element,
        (ServiceMethodRestriction.fromXML (some r)).methodName =
          JSAtom.ofAttr (r.getAttribute "methodName") ∧
        (ServiceMethodRestriction.fromXML (some r)).subjects =
          some ((r.querySelectorAll "subject").map Element.textContent)) ∧
      (∀ e : Element, e.querySelectorAll "restriction" =
        e.descendants.filter (fun c => c.tagName = "restriction")) := by
  refine ⟨?_, fun e => ⟨rfl, rfl, rfl⟩, fun r => ⟨rfl, rfl⟩, fun e => rfl⟩
  rw [fromXML_ok_get node d h "services"]
  have : decodedField node "services" =
      if (node.scopeChildren "service").length > 0 then
        some (.services ((node.scopeChildren "service").map (fun e => Service.fromXML (some e))))
      else none := rfl
  rw [this]
  cases hl : node.scopeChildren "service" with
  | nil => rfl
  | cons a rest => simp [allProps, requiredProps, optionalProps]

/-- Witness for C19: a node with one service that holds a restriction with two subjects. -/
theorem C19_services_decoded_witness :
    D1Node.get { props := [("services", .services
        [{ restrictions := some [{ methodName := .str "create", subjects := some ["a", "b"] }],
           name := .str "MNStorage", version := .str "v2", available := .bool false }])] }
      "services" =
      some (.services
        [{ restrictions := some [{ methodName := .str "create", subjects := some ["a", "b"] }],
           name := .str "MNStorage", version := .str "v2", available := .bool false }]) :=
  ((C19_services_decoded
    (.mk "node" []
      [.element (.mk "service" [("name", "MNStorage"), ("version", "v2")]
        [.element (.mk "restriction" [("methodName", "create")]
          [.element (.mk "subject" [] [.text "a"]),
           .element (.mk "subject" [] [.text "b"])])])])
    { props := [("services", .services
        [{ restrictions := some [{ methodName := .str "create", subjects := some ["a", "b"] }],
           name := .str "MNStorage", version := .str "v2", available := .bool false }])] }
    (by decide)).1).trans (by decide)

/-! ## Unknown environment -/

theorem listNodesTraced_result (CNs : List (String × String))
    (fetchText : String → String → List (String × String) → String)
    (parseFromString : String → Document) (cn : String) :
    (listNodesTraced CNs fetchText parseFromString cn).2 =
      listNodes CNs fetchText parseFromString cn := by
  unfold listNodesTraced listNodes parseXMLExports
  cases getBaseURL CNs cn 2 with
  | error err => rfl
  | ok baseUrl =>
    simp only [bind, Except.bind]
    rw [if_neg (by decide)]

theorem unrecognized_of_no_member (CNs : List (String × String))
    (fetchText : String → String → List (String × String) → String)
    (parseFromString : String → Document) (cn : String) (h : readCN CNs cn = none) :
    listNodesTraced CNs fetchText parseFromString cn =
      ([], .error ("Unrecognized CN environment: " ++ cn)) := by
  have hb : getBaseURL CNs cn 2 = .error ("Unrecognized CN environment: " ++ cn) := by
    simp [getBaseURL, h, truthyOpt]
    rfl
  unfold listNodesTraced
  simp only [hb]

/-- C20 at the failing input: the key `constructor` is not in the table, but the read of
the table finds the member that every object inherits, so `getBaseURL` returns a base URL
made of its printed form, and `listNodes` issues a request to that URL before it fails,
with another error than the one that names the key. For the key foo of the unit test
no request is issued and the error names the key. -/
theorem C20_inherited_key_resolves :
    getBaseURL [("PROD", "https://cn.dataone.org/cn")] "constructor" 2 =
        .ok "function Object() \x7b [native code] \x7d/v2" ∧
      listNodesTraced [("PROD", "https://cn.dataone.org/cn")] (fun _ _ _ => "")
          (fun _ => Document.mk (.mk "nodeList" [] [])) "constructor" =
        ([("function Object() \x7b [native code] \x7d/v2/node", "GET",
            [("Accept", "application/xml")])],
          .error "parseXML is not a function") ∧
      listNodesTraced [("PROD", "https://cn.dataone.org/cn")] (fun _ _ _ => "")
          (fun _ => Document.mk (.mk "nodeList" [] [])) "foo" =
        ([], .error "Unrecognized CN environment: foo") := by
  refine ⟨by decide, ?_, ?_⟩
  · decide
  · decide

/-! ## Parsing the XML text -/

/-- C21 at the failing input: the text with a root element that holds one empty
`parsererror` element is well-formed, the parser turns it into the document with these two
elements and reports no error, and `parseXML` fails on it with the parse error instead of
returning the document. -/
theorem C21_wellformed_text_fails :
    parseXML
        (fun _ => { documentElement := .mk "root" [] [.element (.mk "parsererror" [] [])] })
        "<root><parsererror/></root>" = .error "Error parsing XML" := by
  rfl

/-! ## Integer coercion of the replication policy -/

theorem decimalDigit_cases (c : Char) (h : c ∈ decimalDigits) :
    isStrWhiteSpace c = false ∧ digitValue 10 c = some (c.toNat - '0'.toNat) ∧
      c ≠ '-' ∧ c ≠ '+' ∧ c ≠ 'x' ∧ c ≠ 'X' := by
  simp only [decimalDigits, List.mem_cons, List.mem_singleton, List.not_mem_nil,
    or_false] at h
  rcases h with rfl | rfl | rfl | rfl | rfl | rfl | rfl | rfl | rfl | rfl <;> decide

theorem digitValue_of_not_digit (c : Char) (h : c.isDigit = false) :
    digitValue 10 c = none := by
  simp [digitValue, h]

theorem readDigits_decimal (cs tail : List Char) (h : ∀ c ∈ cs, c ∈ decimalDigits)
    (ht : tail = [] ∨ ∃ c r, tail = c :: r ∧ c.isDigit = false) (acc : Nat) :
    readDigits 10 (cs ++ tail) (some acc) =
      some (cs.foldl (fun acc c => acc * 10 + (c.toNat - '0'.toNat)) acc) := by
  induction cs generalizing acc with
  | nil =>
    rcases ht with rfl | ⟨c, r, rfl, hc⟩
    · rfl
    · simp only [List.nil_append, List.foldl_nil]
      rw [readDigits, digitValue_of_not_digit c hc]
  | cons c rest ih =>
    have hc := (decimalDigit_cases c (h c (List.mem_cons_self _ _))).2.1
    rw [List.cons_append, readDigits, hc]
    simp only [Option.getD_some, List.foldl_cons]
    exact ih (fun d hd => h d (List.mem_cons_of_mem _ hd)) _

theorem readDigits_decimal_start (cs tail : List Char) (hne : cs ≠ [])
    (h : ∀ c ∈ cs, c ∈ decimalDigits)
    (ht : tail = [] ∨ ∃ c r, tail = c :: r ∧ c.isDigit = false) :
    readDigits 10 (cs ++ tail) none = some (decimalValue cs) := by
  cases cs with
  | nil => exact absurd rfl hne
  | cons c rest =>
    have hc := (decimalDigit_cases c (h c (List.mem_cons_self _ _))).2.1
    rw [List.cons_append, readDigits, hc]
    simp only [Option.getD_none, Nat.zero_mul, Nat.zero_add]
    rw [readDigits_decimal rest tail (fun d hd => h d (List.mem_cons_of_mem _ hd)) ht]
    simp [decimalValue]

theorem sign_of_ne (c : Char) (rest : List Char) (hm : c ≠ '-') (hp : c ≠ '+') :
    parseIntStr.match_1 (fun _ => Bool × List Char) (c :: rest)
      (fun r => (true, r)) (fun r => (false, r)) (fun r => (false, r)) =
        (false, c :: rest) := by
  split
  · rename_i r e
    cases e
    exact absurd rfl hm
  · rename_i r e
    cases e
    exact absurd rfl hp
  · rfl

theorem radix_of_ne (t : List Char) (hx : ∀ r, t ≠ '0' :: 'x' :: r)
    (hX : ∀ r, t ≠ '0' :: 'X' :: r) :
    parseIntStr.match_2 (fun _ => Nat × List Char) t
      (fun r => (16, r)) (fun r => (16, r)) (fun r => (10, r)) = (10, t) := by
  split
  · exact absurd rfl (hx _)
  · exact absurd rfl (hX _)
  · rfl

theorem parseIntStr_plain (c : Char) (rest : List Char) (hw : isStrWhiteSpace c = false)
    (hm : c ≠ '-') (hp : c ≠ '+') (hx : ∀ r, c :: rest ≠ '0' :: 'x' :: r)
    (hX : ∀ r, c :: rest ≠ '0' :: 'X' :: r) :
    parseIntStr (String.mk (c :: rest)) =
      (readDigits 10 (c :: rest) none).elim .nan (fun n => JSNum.ofInt n) := by
  have hd : List.dropWhile isStrWhiteSpace (c :: rest) = c :: rest := by
    simp [List.dropWhile, hw]
  unfold parseIntStr
  simp only [hd, sign_of_ne c rest hm hp, radix_of_ne _ hx hX]
  cases readDigits 10 (c :: rest) none <;> simp

theorem parseIntStr_decimal (cs tail : List Char) (hne : cs ≠ [])
    (h : ∀ c ∈ cs, c ∈ decimalDigits)
    (ht : tail = [] ∨ ∃ c r, tail = c :: r ∧ c.isDigit = false ∧
      (cs = ['0'] → c ≠ 'x' ∧ c ≠ 'X')) :
    parseIntStr (String.mk (cs ++ tail)) = JSNum.ofInt (decimalValue cs) := by
  have ht2 : tail = [] ∨ ∃ c r, tail = c :: r ∧ c.isDigit = false := by
    rcases ht with e | ⟨c, r, e, hc, _⟩
    · exact Or.inl e
    · exact Or.inr ⟨c, r, e, hc⟩
  have hr := readDigits_decimal_start cs tail hne h ht2
  have hsecond : ∀ (a b : Char) (r : List Char), cs ++ tail = a :: b :: r → a = '0' →
      b ≠ 'x' ∧ b ≠ 'X' := by
    intro a b r e ha
    cases cs with
    | nil => exact absurd rfl hne
    | cons c0 rest0 =>
      cases rest0 with
      | nil =>
        rcases ht with e2 | ⟨c, r2, e2, _, hcx⟩
        · rw [e2] at e
          simp at e
        · rw [e2] at e
          simp only [List.cons_append, List.nil_append, List.cons.injEq] at e
          obtain ⟨e0, e1, _⟩ := e
          rw [← e1]
          apply hcx
          rw [e0, ha]
      | cons c1 rest1 =>
        simp only [List.cons_append, List.cons.injEq] at e
        obtain ⟨_, e1, _⟩ := e
        have hd1 := decimalDigit_cases c1 (h c1 (by simp))
        rw [← e1]
        exact ⟨hd1.2.2.2.2.1, hd1.2.2.2.2.2⟩
  cases hcs : cs ++ tail with
  | nil =>
    cases cs with
    | nil => exact absurd rfl hne
    | cons c0 rest0 => simp at hcs
  | cons c rest =>
    have hc : c ∈ decimalDigits := by
      cases cs with
      | nil => exact absurd rfl hne
      | cons c0 rest0 =>
        simp only [List.cons_append, List.cons.injEq] at hcs
        rw [← hcs.1]
        exact h c0 (List.mem_cons_self _ _)
    obtain ⟨hw, _, hm, hp, _, _⟩ := decimalDigit_cases c hc
    rw [hcs] at hr
    rw [parseIntStr_plain c rest hw hm hp, hr]
    · rfl
    · intro r e
      cases e
      exact (hsecond '0' 'x' r hcs rfl).1 rfl
    · intro r e
      cases e
      exact (hsecond '0' 'X' r hcs rfl).2 rfl

theorem not_whiteSpace_of_visible (c : Char) (h1 : 33 ≤ c.toNat) (h2 : c.toNat ≤ 126) :
    isStrWhiteSpace c = false := by
  have hv : c.val.toNat = c.toNat := rfl
  have key : ∀ (n : UInt32), c.val = n → c.toNat = n.toNat := by
    intro n e
    rw [← hv, e]
  unfold isStrWhiteSpace
  simp only [List.mem_cons, List.not_mem_nil, or_false, Bool.or_eq_false_iff,
    decide_eq_false_iff_not, not_or, Bool.and_eq_false_iff]
  refine ⟨⟨?_, ?_, ?_, ?_, ?_, ?_, ?_, ?_, ?_, ?_, ?_, ?_, ?_, ?_⟩, ?_⟩
  all_goals first
    | (intro e
       have := key _ e
       rw [this] at h1 h2
       revert h1 h2
       decide)
    | (left
       intro hle
       have h3 : (8192 : UInt32).toNat ≤ c.val.toNat := hle
       have e8 : (8192 : UInt32).toNat = 8192 := by decide
       rw [hv, e8] at h3
       omega)

theorem parseIntStr_no_number (c : Char) (rest : List Char)
    (h1 : 33 ≤ c.toNat) (h2 : c.toNat ≤ 126) (hm : c ≠ '-') (hp : c ≠ '+')
    (hdig : c.isDigit = false) :
    parseIntStr (String.mk (c :: rest)) = .nan := by
  have h0 : c ≠ '0' := by
    intro e
    rw [e] at hdig
    exact absurd hdig (by decide)
  rw [parseIntStr_plain c rest (not_whiteSpace_of_visible c h1 h2) hm hp]
  · rw [readDigits, digitValue_of_not_digit c hdig]
    rfl
  · intro r e
    cases e
    exact h0 rfl
  · intro r e
    cases e
    exact h0 rfl

theorem policy_fields (node : Element) :
    NodeReplicationPolicy.fromXML (some node) =
      { maxObjectSize := .num (parseIntNum (parseIntStr
          (((node.querySelector "maxObjectSize").map Element.textContent).getD ""))),
        spaceAllocated := .num (parseIntNum (parseIntStr
          (((node.querySelector "spaceAllocated").map Element.textContent).getD ""))) } := by
  have hempty : parseIntNum (parseIntStr "") = .nan := by decide
  unfold NodeReplicationPolicy.fromXML NodeReplicationPolicy.constructor
  cases h1 : (node.querySelector "maxObjectSize").map Element.textContent with
  | none =>
    cases h2 : (node.querySelector "spaceAllocated").map Element.textContent with
    | none => simp [h1, h2, truthyOpt, parseInt, hempty]
    | some b =>
      by_cases hb : b = ""
      · simp [h1, h2, truthyOpt, truthyStr, parseInt, hempty, hb]
      · simp [h1, h2, truthyOpt, truthyStr, parseInt, hempty, hb]
  | some a =>
    cases h2 : (node.querySelector "spaceAllocated").map Element.textContent with
    | none =>
      by_cases ha : a = ""
      · simp [h1, h2, truthyOpt, truthyStr, parseInt, hempty, ha]
      · simp [h1, h2, truthyOpt, truthyStr, parseInt, hempty, ha]
    | some b =>
      by_cases ha : a = "" <;> by_cases hb : b = "" <;>
        simp [h1, h2, truthyOpt, truthyStr, parseInt, hempty, ha, hb]

theorem lenient_of_parse (t : String) :
    LenientInteger t (.num (parseIntNum (parseIntStr t))) := by
  refine ⟨?_, ?_, ?_⟩
  · intro cs tail e hne hd ht hv
    have hn : parseIntNum (JSNum.ofInt (decimalValue cs)) = .int (decimalValue cs) := by
      have hb : (decimalValue cs : Int).natAbs ≤ 2 ^ 53 := by
        rw [Int.natAbs_ofNat]
        exact hv
      unfold JSNum.ofInt
      rw [if_pos hb]
      simp only [parseIntNum, if_pos hb]
    rw [e, parseIntStr_decimal cs tail hne hd ht, hn]
  · intro e
    rw [e]
    decide
  · intro c rest e h1 h2 hp hm hdig
    rw [e, parseIntStr_no_number c rest h1 h2 hm hp hdig]
    rfl

/-- C22, as stated, fails: the text 12px is not a base-ten number, yet the decoded
`maxObjectSize` is the number 12 and not the not-a-number value; and for the text 0x1A the
decoded `spaceAllocated` is 26, the value of the text read in base sixteen. -/
theorem C22_lenient_parse :
    NodeReplicationPolicy.fromXML (some (.mk "nodeReplicationPolicy" []
        [.element (.mk "maxObjectSize" [] [.text "12px"]),
         .element (.mk "spaceAllocated" [] [.text "0x1A"])])) =
      { maxObjectSize := .num (.int 12), spaceAllocated := .num (.int 26) } := by
  decide

/-- C22, amended: for every policy element that has a `maxObjectSize` (resp.
`spaceAllocated`) descendant, whether or not it has the other one, the decoded field reads
the text of the first such descendant leniently and never fails: a run of decimal digits
worth at most 2^53, alone or followed by a character that is not a digit (nor, after a
single zero, the letter x), yields that integer; the empty text and a text that begins with
a visible ASCII character that is neither a sign nor a digit yield the not-a-number
value. -/
theorem C22_parseInt_coercion (node : Element) :
    (∀ t, (node.querySelector "maxObjectSize").map Element.textContent = some t →
      LenientInteger t (NodeReplicationPolicy.fromXML (some node)).maxObjectSize) ∧
    (∀ t, (node.querySelector "spaceAllocated").map Element.textContent = some t →
      LenientInteger t (NodeReplicationPolicy.fromXML (some node)).spaceAllocated) := by
  have hp := policy_fields node
  constructor
  · intro t ht
    rw [hp, ht]
    exact lenient_of_parse t
  · intro t ht
    rw [hp, ht]
    exact lenient_of_parse t

/-- Witness for C22: a policy with the single child `maxObjectSize` of text 1048576, and a
policy with the single child `spaceAllocated` of text none. -/
theorem C22_parseInt_coercion_witness :
    (NodeReplicationPolicy.fromXML (some (.mk "nodeReplicationPolicy" []
        [.element (.mk "maxObjectSize" [] [.text "1048576"])]))).maxObjectSize =
      .num (.int 1048576) ∧
    (NodeReplicationPolicy.fromXML (some (.mk "nodeReplicationPolicy" []
        [.element (.mk "spaceAllocated" [] [.text "none"])]))).spaceAllocated =
      .num .nan :=
  ⟨((C22_parseInt_coercion (.mk "nodeReplicationPolicy" []
        [.element (.mk "maxObjectSize" [] [.text "1048576"])])).1 "1048576" (by decide)).1
        ['1', '0', '4', '8', '5', '7', '6'] [] rfl (by decide) (by decide) (Or.inl rfl)
        (by decide),
    ((C22_parseInt_coercion (.mk "nodeReplicationPolicy" []
        [.element (.mk "spaceAllocated" [] [.text "none"])])).2 "none" (by decide)).2.2
        'n' ['o', 'n', 'e'] rfl (by decide) (by decide) (by decide) (by decide)
        (by decide)⟩

/-- C23 at the failing input: a `nodeReplicationPolicy` element with a `spaceAllocated`
child and no `maxObjectSize` child decodes to a policy whose `maxObjectSize` is the
not-a-number value, not an unset field; the same holds for `spaceAllocated` when that
child is the missing one. -/
theorem C23_missing_child_is_nan :
    NodeReplicationPolicy.fromXML (some (.mk "nodeReplicationPolicy" []
        [.element (.mk "spaceAllocated" [] [.text "5"])])) =
      { maxObjectSize := .num .nan, spaceAllocated := .num (.int 5) } ∧
    NodeReplicationPolicy.fromXML (some (.mk "nodeReplicationPolicy" []
        [.element (.mk "maxObjectSize" [] [.text "5"])])) =
      { maxObjectSize := .num (.int 5), spaceAllocated := .num .nan } := by
  decide

/-- C24 at the failing input: for the text `not a date`, which is not a valid date string,
`parseDate` returns a `Date` made from that text and not `null`; only the empty input
gives `null`. -/
theorem C24_invalid_text_not_null :
    parseDate "not a date" = .date "not a date" ∧ parseDate "not a date" ≠ .null ∧
      parseDate "" = .null := by
  decide

/-! ## Independence of the extraction steps -/

theorem fromXML_decodeParams (node : Element) :
    D1Node.fromXML (some node) = decodeParams node (extractParams node) := rfl

theorem extractParams_order (node : Element) :
    extractParams node =
      extractParamsIn [.simple, .repeated, .property, .attributes] node := rfl

theorem run_get (node : Element) (s : ExtractionStep) (p : Props) (k : String) :
    (s.run node p).get k = (Props.get (s.run node []) k).or (p.get k) := by
  cases s with
  | simple =>
    simp only [ExtractionStep.run]
    rw [get_foldl_own (stepSimple node) (ownSimple node) (own_stepSimple node)
        simpleNodes (by decide) p,
      get_foldl_own (stepSimple node) (ownSimple node) (own_stepSimple node)
        simpleNodes (by decide) []]
    by_cases h : k ∈ simpleNodes
    · simp [h, ownSimple, Props.get_nil]
    · simp [h, Props.get_nil]
  | repeated =>
    simp only [ExtractionStep.run, repeatedSimpleNodes, List.foldl_cons, List.foldl_nil,
      get_stepRepeated, Props.get_nil]
    by_cases h1 : k = "contactSubjects" ∧ (simpleText node "contactSubject").isSome = true
    · obtain ⟨v, hv⟩ := Option.isSome_iff_exists.mp h1.2
      simp [h1, hv]
    · by_cases h2 : k = "subjects" ∧ (simpleText node "subject").isSome = true
      · obtain ⟨v, hv⟩ := Option.isSome_iff_exists.mp h2.2
        simp [h1, h2, hv]
      · simp [h1, h2]
  | property =>
    simp only [ExtractionStep.run]
    rw [get_foldl_stepProperty, get_foldl_stepProperty]
    cases lastPropertyWrite (node.scopeChildren "property") k <;> simp [Props.get_nil]
  | attributes =>
    simp only [ExtractionStep.run]
    rw [get_foldl_own (stepAttribute node) (ownAttribute node) (own_stepAttribute node)
        nodeAttributes (by decide) p,
      get_foldl_own (stepAttribute node) (ownAttribute node) (own_stepAttribute node)
        nodeAttributes (by decide) []]
    by_cases h : k ∈ nodeAttributes
    · simp [h, ownAttribute, Props.get_nil]
    · simp [h, Props.get_nil]

theorem run_frame (node : Element) (s : ExtractionStep) (p : Props) (k : String)
    (hk : k ∉ s.fields) : (s.run node p).get k = p.get k := by
  cases s with
  | simple =>
    simp only [ExtractionStep.run]
    rw [get_foldl_own (stepSimple node) (ownSimple node) (own_stepSimple node)
        simpleNodes (by decide) p]
    exact if_neg hk
  | repeated =>
    simp only [ExtractionStep.fields, repeatedSimpleNodes, List.map_cons, List.map_nil,
      List.mem_cons, List.mem_singleton, List.not_mem_nil, or_false, not_or] at hk
    simp only [ExtractionStep.run, repeatedSimpleNodes, List.foldl_cons, List.foldl_nil,
      get_stepRepeated]
    simp [hk.1, hk.2]
  | property =>
    simp only [ExtractionStep.run]
    rw [get_foldl_stepProperty, lastPropertyWrite_none _ _ (classProp_ne k hk)]
  | attributes =>
    simp only [ExtractionStep.run]
    rw [get_foldl_own (stepAttribute node) (ownAttribute node) (own_stepAttribute node)
        nodeAttributes (by decide) p]
    exact if_neg hk

theorem fields_disjoint (s t : ExtractionStep) (k : String) (hs : k ∈ s.fields)
    (ht : k ∈ t.fields) : s = t := by
  have key : ∀ (s t : ExtractionStep), s ≠ t → ∀ k ∈ s.fields, k ∉ t.fields := by decide
  by_contra hne
  exact key s t hne k hs ht

theorem fold_get_unique (node : Element) (k : String) (s0 : ExtractionStep)
    (l : List ExtractionStep) (hothers : ∀ s ∈ l, s ≠ s0 → k ∉ s.fields) (p : Props) :
    Props.get (l.foldl (fun params step => step.run node params) p) k =
      if s0 ∈ l then (Props.get (s0.run node []) k).or (p.get k) else p.get k := by
  induction l generalizing p with
  | nil => simp
  | cons s rest ih =>
    rw [List.foldl_cons, ih (fun t ht => hothers t (List.mem_cons_of_mem _ ht))]
    by_cases hs : s = s0
    · subst hs
      rw [run_get node s p k]
      by_cases hm : s ∈ rest
      · cases Props.get (s.run node []) k <;> simp [hm]
      · simp [hm]
    · have hf := run_frame node s p k (hothers s (List.mem_cons_self _ _) hs)
      rw [hf]
      have hs2 : ¬ s0 = s := fun e => hs e.symm
      simp [hs2]

theorem extractParamsIn_get (node : Element) (order : List ExtractionStep)
    (hperm : order.Perm [.simple, .repeated, .property, .attributes]) (k : String) :
    (extractParamsIn order node).get k = (extractParams node).get k := by
  rw [extractParams_order]
  unfold extractParamsIn
  by_cases h : ∃ s0 : ExtractionStep, k ∈ s0.fields
  · obtain ⟨s0, hs0⟩ := h
    have ho : ∀ (l : List ExtractionStep), ∀ s ∈ l, s ≠ s0 → k ∉ s.fields :=
      fun _ s _ hne hk => hne (fields_disjoint s s0 k hk hs0)
    rw [fold_get_unique node k s0 order (ho order),
      fold_get_unique node k s0 _ (ho _)]
    have h1 : s0 ∈ order := hperm.mem_iff.mpr (by cases s0 <;> decide)
    have h2 : s0 ∈ [ExtractionStep.simple, .repeated, .property, .attributes] := by
      cases s0 <;> decide
    rw [if_pos h1, if_pos h2]
  · have ho : ∀ (l : List ExtractionStep), ∀ s ∈ l, s ≠ ExtractionStep.simple →
        k ∉ s.fields := fun _ s _ _ hk => h ⟨s, hk⟩
    have hn : Props.get (ExtractionStep.simple.run node []) k = none := by
      rw [run_frame node .simple [] k (fun hk => h ⟨_, hk⟩)]
      rfl
    rw [fold_get_unique node k .simple order (ho order),
      fold_get_unique node k .simple _ (ho _), hn]
    simp [Props.get_nil]

theorem stepBoolean_congr (p q : Props) (h : ∀ k, p.get k = q.get k) (k : String) :
    Props.get (booleanProps.foldl stepBoolean p) k =
      Props.get (booleanProps.foldl stepBoolean q) k := by
  rw [get_foldl_own stepBoolean ownBoolean own_stepBoolean booleanProps (by decide),
    get_foldl_own stepBoolean ownBoolean own_stepBoolean booleanProps (by decide), h]

theorem stepDate_congr (p q : Props) (h : ∀ k, p.get k = q.get k) (n : String) :
    (∃ m, stepDate p n = .error m ∧ stepDate q n = .error m) ∨
      ∃ p2 q2, stepDate p n = .ok p2 ∧ stepDate q n = .ok q2 ∧
        ∀ k, Props.get p2 k = Props.get q2 k := by
  unfold stepDate Props.read
  rw [h n]
  by_cases ht : ((q.get n).getD (.atom .undefined)).truthy = true
  · rw [if_pos ht, if_pos ht]
    split
    · right
      refine ⟨_, _, rfl, rfl, ?_⟩
      intro k
      rw [Props.get_set, Props.get_set, h]
    · left
      exact ⟨_, rfl, rfl⟩
  · rw [if_neg ht, if_neg ht]
    right
    exact ⟨p, q, rfl, rfl, h⟩

theorem foldlM_stepDate_congr (names : List String) (p q : Props)
    (h : ∀ k, p.get k = q.get k) :
    (∃ m, names.foldlM stepDate p = .error m ∧ names.foldlM stepDate q = .error m) ∨
      ∃ p2 q2, names.foldlM stepDate p = .ok p2 ∧ names.foldlM stepDate q = .ok q2 ∧
        ∀ k, Props.get p2 k = Props.get q2 k := by
  induction names generalizing p q with
  | nil => exact Or.inr ⟨p, q, rfl, rfl, h⟩
  | cons n ns ih =>
    rw [List.foldlM_cons, List.foldlM_cons]
    rcases stepDate_congr p q h n with ⟨m, h1, h2⟩ | ⟨p2, q2, h1, h2, h3⟩
    · rw [h1, h2]
      exact Or.inl ⟨m, rfl, rfl⟩
    · rw [h1, h2]
      exact ih p2 q2 h3

theorem stepRestricted_congr (p q : Props) (h : ∀ k, p.get k = q.get k) :
    stepRestricted p = stepRestricted q := by
  funext e
  unfold stepRestricted Props.read
  simp only [h]

theorem constructor_congr (p q : Props) (h : ∀ k, p.get k = q.get k) :
    D1Node.constructor (some p) = D1Node.constructor (some q) := by
  unfold D1Node.constructor
  simp only [Option.getD_some, Props.read, h]

theorem decodeParams_congr (node : Element) (p q : Props) (h : ∀ k, p.get k = q.get k) :
    decodeParams node p = decodeParams node q := by
  unfold decodeParams
  rcases foldlM_stepDate_congr dateProps _ _ (stepBoolean_congr p q h) with
    ⟨m, h1, h2⟩ | ⟨p2, q2, h1, h2, h3⟩
  · simp only [bind, Except.bind, h1, h2]
  · simp only [bind, Except.bind, h1, h2, stepRestricted_congr p2 q2 h3]
    have hn : ∀ k, (nestedParams node p2).get k = (nestedParams node q2).get k := by
      intro k
      rw [get_nestedParams, get_nestedParams, h3]
    rw [constructor_congr _ _ hn]

/-- C25: the four extraction steps of `D1Node.fromXML` write pairwise disjoint sets of
property names and each leaves every property outside its own set as it was; so for every
node element and every order of the four steps the parameters hold the same value under
every name, and the decoding yields the same result, the same entity or the same error,
as `D1Node.fromXML`. -/
theorem C25_extraction_order_free (node : Element) (order : List ExtractionStep)
    (hperm : order.Perm [.simple, .repeated, .property, .attributes]) :
    D1Node.fromXMLIn order node = D1Node.fromXML (some node) ∧
      (∀ k, (extractParamsIn order node).get k = (extractParams node).get k) ∧
      (∀ (s t : ExtractionStep), s ≠ t → ∀ k ∈ s.fields, k ∉ t.fields) ∧
      (∀ (s : ExtractionStep) (p : Props) (k : String), k ∉ s.fields →
        (s.run node p).get k = p.get k) := by
  refine ⟨?_, extractParamsIn_get node order hperm, ?_, ?_⟩
  · rw [fromXML_decodeParams]
    exact decodeParams_congr node _ _ (extractParamsIn_get node order hperm)
  · intro s t hne k hs ht
    exact hne (fields_disjoint s t k hs ht)
  · intro s p k hk
    exact run_frame node s p k hk

/-- Witness for C25: the four steps in reverse order on a node with two attributes, an
identifier, a subject and a logo property. -/
theorem C25_extraction_order_free_witness :
    D1Node.fromXMLIn [.attributes, .property, .repeated, .simple]
        (.mk "node" [("type", "mn"), ("state", "up")]
          [.element (.mk "identifier" [] [.text "urn:node:KNB"]),
           .element (.mk "subject" [] [.text "CN=KNB"]),
           .element (.mk "property" [("key", "CN_logo_url")] [.text "logo.png"])]) =
      D1Node.fromXML (some (.mk "node" [("type", "mn"), ("state", "up")]
          [.element (.mk "identifier" [] [.text "urn:node:KNB"]),
           .element (.mk "subject" [] [.text "CN=KNB"]),
           .element (.mk "property" [("key", "CN_logo_url")] [.text "logo.png"])])) :=
  (C25_extraction_order_free _ [.attributes, .property, .repeated, .simple]
    (by decide)).1

/-! ## The constructor of a node -/

theorem foldlM_throw (f : Props → String → Except String Props) (msg : String)
    (c : String → Bool) (names : List String)
    (hf : ∀ a n, f a n = if c n then .error msg else .ok a)
    (h : ∃ n ∈ names, c n = true) (init : Props) :
    names.foldlM f init = .error msg := by
  induction names with
  | nil =>
    obtain ⟨n, hn, _⟩ := h
    cases hn
  | cons n ns ih =>
    rw [List.foldlM_cons, hf]
    by_cases hc : c n = true
    · rw [if_pos hc]
      rfl
    · rw [if_neg hc]
      obtain ⟨m, hm, hcm⟩ := h
      rcases List.mem_cons.mp hm with e | hm2
      · rw [e] at hcm
        exact absurd hcm hc
      · exact ih ⟨m, hm2, hcm⟩

theorem constructor_throws (params : Props)
    (hown : (params.get "hasOwnProperty").isSome = true)
    (h : ∃ k ∈ allProps, (params.read k).notNullish = true) :
    D1Node.constructor (some params) =
      .error "properties.hasOwnProperty is not a function" := by
  unfold D1Node.constructor
  simp only [Option.getD_some]
  rw [foldlM_throw _ "properties.hasOwnProperty is not a function"
    (fun k => (params.read k).notNullish) allProps _ h []]
  · rfl
  · intro a n
    beta_reduce
    rw [hown]
    cases (params.read n).notNullish <;> rfl

/-- C26, as stated, fails: for the properties object with the entries `name` and
`hasOwnProperty`, both strings, the constructor does not drop the second entry: the call
of `properties.hasOwnProperty` finds the string instead of the inherited method and the
constructor fails with a `TypeError`. -/
theorem C26_shadowed_method_throws :
    D1Node.constructor (some [("name", .atom (.str "KNB")),
        ("hasOwnProperty", .atom (.str "yes"))]) =
      .error "properties.hasOwnProperty is not a function" := by
  decide

/-- C26, amended: for every properties object that has no entry named `hasOwnProperty`,
the constructor returns the entity that holds exactly the entries of the object whose name
is one of the 23 allowed names (10 required, 13 optional) and whose value is neither
`null` nor `undefined`, each with its value unchanged, in the order of the allowed names;
every other key and every `null` or `undefined` value is dropped; an absent properties
argument yields the entity with no field set. With an entry named `hasOwnProperty` the
constructor fails as soon as one allowed name has a value that is neither `null` nor
`undefined`. -/
theorem C26_constructor_copies (properties : Props) :
    (properties.get "hasOwnProperty" = none →
      D1Node.constructor (some properties) =
          .ok { props := allProps.filterMap (fun k =>
            ((properties.get k).filter JSVal.notNullish).map (fun v => (k, v))) } ∧
        ∀ d, D1Node.constructor (some properties) = .ok d →
          ∀ k, d.get k =
            if k ∈ allProps then (properties.get k).filter JSVal.notNullish else none) ∧
      ((properties.get "hasOwnProperty").isSome = true →
        (∃ k ∈ allProps, (properties.read k).notNullish = true) →
        D1Node.constructor (some properties) =
          .error "properties.hasOwnProperty is not a function") ∧
      D1Node.constructor none = .ok { props := [] } ∧
      requiredProps.length = 10 ∧ optionalProps.length = 13 ∧ allProps.length = 23 ∧
      allProps.Nodup := by
  refine ⟨fun hown => ?_, constructor_throws properties, by decide, by decide, by decide,
    by decide, by decide⟩
  have hc := constructor_eq properties (Or.inl hown)
  refine ⟨hc, ?_⟩
  intro d hd k
  rw [hc] at hd
  cases hd
  exact get_filterMap_fields allProps
    (fun k => (properties.get k).filter JSVal.notNullish) k

/-- Witness for C26: an object with two allowed entries, a `null` entry and an entry under
a name that is not allowed. -/
theorem C26_constructor_copies_witness :
    D1Node.constructor (some [("name", .atom (.str "KNB")), ("color", .atom (.str "red")),
        ("description", .atom .null), ("identifier", .atom (.str "urn:node:KNB"))]) =
      .ok { props := [("identifier", .atom (.str "urn:node:KNB")),
        ("name", .atom (.str "KNB"))] } :=
  ((C26_constructor_copies [("name", .atom (.str "KNB")), ("color", .atom (.str "red")),
    ("description", .atom .null), ("identifier", .atom (.str "urn:node:KNB"))]).1
      (by decide)).1

/-! ## Synchronization without a schedule -/

theorem scheduleField_of_none (e : Element) (a : String) (h : e.getAttribute a = none) :
    scheduleField e a = "*" := by
  unfold scheduleField
  rw [h]

/-- C27: for every synchronization element, when it has no `schedule` descendant the
decoded schedule is the empty string, not the all-wildcard expression; when the first
`schedule` descendant carries none of the seven attributes the decoded schedule is the
all-wildcard expression; and whatever the schedule, `lastHarvested` and
`lastCompleteHarvest` are `undefined` when their element is missing or has empty text. -/
theorem C27_schedule_missing_or_bare (node : Element) :
    (node.querySelector "schedule" = none →
      (Synchronization.fromXML (some node)).schedule = .str "" ∧
        (Synchronization.fromXML (some node)).schedule ≠ .str "* * * * * * *") ∧
      (∀ e, node.querySelector "schedule" = some e →
        (∀ a ∈ ["sec", "min", "hour", "mday", "mon", "wday", "year"],
          e.getAttribute a = none) →
        (Synchronization.fromXML (some node)).schedule = .str "* * * * * * *") ∧
      ((node.querySelector "lastHarvested" = none ∨
          (node.querySelector "lastHarvested").map Element.textContent = some "") →
        (Synchronization.fromXML (some node)).lastHarvested = .undefined) ∧
      ((node.querySelector "lastCompleteHarvest" = none ∨
          (node.querySelector "lastCompleteHarvest").map Element.textContent = some "") →
        (Synchronization.fromXML (some node)).lastCompleteHarvest = .undefined) := by
  refine ⟨?_, ?_, ?_, ?_⟩
  · intro h
    have : (Synchronization.fromXML (some node)).schedule = .str "" := by
      simp [Synchronization.fromXML, Synchronization.constructor, h,
        Synchronization.parseXMLSchedule]
    rw [this]
    exact ⟨rfl, by decide⟩
  · intro e h ha
    have hs : Synchronization.parseXMLSchedule (some e) = "* * * * * * *" := by
      unfold Synchronization.parseXMLSchedule
      simp only [schedule_foldl, List.nil_append, List.map_cons, List.map_nil]
      rw [scheduleField_of_none e "sec" (ha _ (by decide)),
        scheduleField_of_none e "min" (ha _ (by decide)),
        scheduleField_of_none e "hour" (ha _ (by decide)),
        scheduleField_of_none e "mday" (ha _ (by decide)),
        scheduleField_of_none e "mon" (ha _ (by decide)),
        scheduleField_of_none e "wday" (ha _ (by decide)),
        scheduleField_of_none e "year" (ha _ (by decide))]
      decide
    simp [Synchronization.fromXML, Synchronization.constructor, h, hs]
  · intro h
    rcases h with h | h
    · simp [Synchronization.fromXML, Synchronization.constructor, h, truthyOpt]
    · simp [Synchronization.fromXML, Synchronization.constructor, h, truthyOpt, truthyStr]
  · intro h
    rcases h with h | h
    · simp [Synchronization.fromXML, Synchronization.constructor, h, truthyOpt]
    · simp [Synchronization.fromXML, Synchronization.constructor, h, truthyOpt, truthyStr]

/-- Witness for C27: a synchronization element without a schedule and with an empty
`lastHarvested`, and one with a schedule that has no attribute. -/
theorem C27_schedule_missing_or_bare_witness :
    (Synchronization.fromXML (some (.mk "synchronization" []
        [.element (.mk "lastHarvested" [] [])]))).schedule = .str "" ∧
      (Synchronization.fromXML (some (.mk "synchronization" []
        [.element (.mk "schedule" [] [])]))).schedule = .str "* * * * * * *" ∧
      (Synchronization.fromXML (some (.mk "synchronization" []
        [.element (.mk "lastHarvested" [] [])]))).lastHarvested = .undefined :=
  ⟨((C27_schedule_missing_or_bare (.mk "synchronization" []
      [.element (.mk "lastHarvested" [] [])])).1 (by rfl)).1,
    (C27_schedule_missing_or_bare (.mk "synchronization" []
      [.element (.mk "schedule" [] [])])).2.1 (.mk "schedule" [] []) (by rfl)
      (by decide),
    (C27_schedule_missing_or_bare (.mk "synchronization" []
      [.element (.mk "lastHarvested" [] [])])).2.2.1 (Or.inr (by decide))⟩

end DataONE
